import Mathlib

/-!
# OUFS: a shallow embedding of `oufs_lib.c` and `oufs_lib_support.c`

The virtual disk is a store of fixed-size blocks.  A block carries a
`next_block` link and a content that the C code reads through one of four
union members (master record, inode table, directory, raw data).

Conventions of the embedding:

* C strings are lists of characters without the terminating NUL.
* C arrays inside a block are total functions on indices; the entries below the
  array bound are the array, the entries above it are what an out-of-bounds
  access would touch.
* The block transport (`virtual_disk_read_block` / `virtual_disk_write_block`,
  not part of these sources) is a total store: every read and write succeeds,
  so branches that only run after a failed transfer are omitted.
* The constants of `oufs.h` (not part of these sources) are the fields of
  `Config`.
* Locals that the C code uses before initialising them are explicit arguments.
-/

namespace OUFS

/-! ## Constants and records -/

/-- The constants of `oufs.h` that the two source files use. -/
structure Config where
  DATA_BLOCK_SIZE : Nat
  MAX_BLOCKS_IN_FILE : Nat
  N_INODES_PER_BLOCK : Nat
  N_DIRECTORY_ENTRIES_PER_BLOCK : Nat
  N_INODES : Nat
  N_BLOCKS : Nat
  FILE_NAME_SIZE : Nat
  MAX_PATH_LENGTH : Nat
  UNALLOCATED_BLOCK : Nat
  UNALLOCATED_INODE : Nat
  ROOT_DIRECTORY_BLOCK : Nat
  ROOT_DIRECTORY_INODE : Nat
  /-- The number of values of the inode field `n_references` (an
  `unsigned char` in the course header). -/
  N_REFERENCES_RANGE : Nat := 256
  /-- The number of values of the inode field `size` (an `unsigned int` in the
  course header). -/
  SIZE_RANGE : Nat := 4294967296

/-- The values the course header gives the constants: 256-byte blocks with a
two-byte link, 8-byte inodes, 32-byte directory entries, 128 blocks. -/
def stdConfig : Config where
  DATA_BLOCK_SIZE := 254
  MAX_BLOCKS_IN_FILE := 100
  N_INODES_PER_BLOCK := 31
  N_DIRECTORY_ENTRIES_PER_BLOCK := 7
  N_INODES := 124
  N_BLOCKS := 128
  FILE_NAME_SIZE := 30
  MAX_PATH_LENGTH := 200
  UNALLOCATED_BLOCK := 65534
  UNALLOCATED_INODE := 65535
  ROOT_DIRECTORY_BLOCK := 5
  ROOT_DIRECTORY_INODE := 0

/-- The block that holds the master record. -/
def MASTER_BLOCK_REFERENCE : Nat := 0

/-- Inode type tags, in the order of `INODE_TYPE_NAME`; the zero tag is
`UNUSED_TYPE`. -/
inductive INODE_TYPE where
  | UNUSED_TYPE
  | DIRECTORY_TYPE
  | FILE_TYPE
  deriving DecidableEq, Repr

open INODE_TYPE

/-- An inode record. -/
structure INODE where
  type : INODE_TYPE
  n_references : Nat
  content : Nat
  size : Nat
  deriving DecidableEq, Repr

/-- A directory entry: a name and an inode reference. -/
structure DIRECTORY_ENTRY where
  name : List Char
  inode_reference : Nat
  deriving DecidableEq, Repr

/-- The master record: allocation bitmap (one byte per index) and the two ends
of the free list. -/
structure MASTER where
  inode_allocated_flag : Nat → Nat
  unallocated_front : Nat
  unallocated_end : Nat

/-- The union inside a block. -/
inductive CONTENT where
  | master (m : MASTER)
  | inodes (inode : Nat → INODE)
  | directory (entry : Nat → DIRECTORY_ENTRY)
  | data (data : Nat → Nat)

/-- A block: the link field and the union. -/
structure BLOCK where
  next_block : Nat
  content : CONTENT

/-- The all-zero inode (`memset(&inode, 0, sizeof(INODE))`). -/
def zeroInode : INODE := ⟨UNUSED_TYPE, 0, 0, 0⟩

/-- The all-zero directory entry. -/
def zeroEntry : DIRECTORY_ENTRY := ⟨[], 0⟩

/-- The all-zero master record. -/
def zeroMaster : MASTER := ⟨fun _ => 0, 0, 0⟩

/-- The all-zero block (`memset(&block, 0, BLOCK_SIZE)`). -/
def zeroBlock : BLOCK := ⟨0, CONTENT.data (fun _ => 0)⟩

/-- Reading `content.master`.  A block last written through another union
member is read as zero-filled: the byte layout that would decide otherwise is
in `oufs.h`. -/
def CONTENT.asMaster : CONTENT → MASTER
  | CONTENT.master m => m
  | _ => zeroMaster

/-- Reading `content.inodes.inode`. -/
def CONTENT.asInodes : CONTENT → Nat → INODE
  | CONTENT.inodes f => f
  | _ => fun _ => zeroInode

/-- Reading `content.directory.entry`. -/
def CONTENT.asDirectory : CONTENT → Nat → DIRECTORY_ENTRY
  | CONTENT.directory f => f
  | _ => fun _ => zeroEntry

/-- Reading `content.data.data`. -/
def CONTENT.asData : CONTENT → Nat → Nat
  | CONTENT.data f => f
  | _ => fun _ => 0

/-- The virtual disk: block reference to block. -/
abbrev Disk := Nat → BLOCK

/-- The transport read: `virtual_disk_read_block`. -/
def virtual_disk_read_block (d : Disk) (r : Nat) : BLOCK := d r

/-- The transport write: `virtual_disk_write_block`. -/
def virtual_disk_write_block (d : Disk) (r : Nat) (b : BLOCK) : Disk :=
  fun k => if k = r then b else d k

/-- Assignment to one array element. -/
def setAt {α : Type} (f : Nat → α) (i : Nat) (v : α) : Nat → α :=
  fun k => if k = i then v else f k

/-! ## `oufs_lib_support.c` -/

/-- The function `oufs_read_inode_by_reference`: the inode at `i % N_INODES_PER_BLOCK` of
table block `i / N_INODES_PER_BLOCK + 1`. -/
def oufs_read_inode_by_reference (cfg : Config) (d : Disk) (i : Nat) : INODE :=
  let block := i / cfg.N_INODES_PER_BLOCK + 1
  let element := i % cfg.N_INODES_PER_BLOCK
  let b := virtual_disk_read_block d block
  b.content.asInodes element

/-- The function `oufs_write_inode_by_reference`: read the table block, replace one
inode, write the block back. -/
def oufs_write_inode_by_reference (cfg : Config) (d : Disk) (i : Nat) (inode : INODE) : Disk :=
  let block := i / cfg.N_INODES_PER_BLOCK + 1
  let element := i % cfg.N_INODES_PER_BLOCK
  let b := virtual_disk_read_block d block
  let b1 : BLOCK := ⟨b.next_block, CONTENT.inodes (setAt b.content.asInodes element inode)⟩
  virtual_disk_write_block d block b1

/-- The scan of `oufs_find_directory_element` from entry `i` on, `fuel` entries
long. -/
def find_directory_element_from (cfg : Config) (entry : Nat → DIRECTORY_ENTRY)
    (element_name : List Char) : Nat → Nat → Nat
  | 0, _ => cfg.UNALLOCATED_INODE
  | fuel + 1, i =>
    if (entry i).inode_reference ≠ cfg.UNALLOCATED_INODE ∧ (entry i).name = element_name then
      (entry i).inode_reference
    else find_directory_element_from cfg entry element_name fuel (i + 1)

/-- The function `oufs_find_directory_element`: the reference of the first entry of the
inode's block that is allocated and carries the name. -/
def oufs_find_directory_element (cfg : Config) (d : Disk) (inode : INODE)
    (element_name : List Char) : Nat :=
  let b := virtual_disk_read_block d inode.content
  find_directory_element_from cfg b.content.asDirectory element_name
    cfg.N_DIRECTORY_ENTRIES_PER_BLOCK 0

/-- The tokens `strtok(s, "/")` yields in turn, `cur` being the token under
construction: the maximal runs of characters other than the slash. -/
def strtokFrom : List Char → List Char → List (List Char)
  | cur, [] => if cur = [] then [] else [cur]
  | cur, c :: cs =>
    if c = '/' then (if cur = [] then strtokFrom [] cs else cur :: strtokFrom [] cs)
    else strtokFrom (cur ++ [c]) cs

/-- All tokens of a path. -/
def strtok (s : List Char) : List (List Char) := strtokFrom [] s

/-- The buffer `full_path` of `oufs_find_file`.  A source longer than the bound of its
`strncpy`/`strncat` is cut there (the C code then leaves the buffer without a
terminator). -/
def full_path (cfg : Config) (cwd path : List Char) : List Char :=
  if path.head? = some '/' then
    path.take (cfg.MAX_PATH_LENGTH - 1)
  else if cwd.length > 1 then
    let fp1 := cwd.take (cfg.MAX_PATH_LENGTH - 1)
    let fp2 := fp1 ++ ['/']
    fp2 ++ path.take (cfg.MAX_PATH_LENGTH - 1 - min fp2.length cfg.MAX_PATH_LENGTH)
  else
    ['/'] ++ path.take (cfg.MAX_PATH_LENGTH - 2)

/-- What `oufs_find_file` returns and stores through its pointers; `local_name` is
`none` while nothing has been copied into it. -/
structure FindResult where
  ret : Int
  parent : Nat
  child : Nat
  local_name : Option (List Char)
  deriving DecidableEq, Repr

/-- The truncation of a token in the loop of `oufs_find_file`. -/
def truncate_name (cfg : Config) (directory_name : List Char) : List Char :=
  if directory_name.length ≥ cfg.FILE_NAME_SIZE - 1 then
    directory_name.take (cfg.FILE_NAME_SIZE - 1)
  else directory_name

/-- The `while` loop of `oufs_find_file` over the tokens still to come, followed by the
code after the loop. -/
def find_file_loop (cfg : Config) (d : Disk) :
    List (List Char) → Nat → Nat → Nat → Option (List Char) → FindResult
  | [], grandparent, parent, child, local_name =>
    if child = cfg.UNALLOCATED_INODE then ⟨0, grandparent, parent, local_name⟩
    else ⟨0, parent, child, local_name⟩
  | tok :: rest, _, parent, child, _ =>
    let directory_name := truncate_name cfg tok
    let inode := oufs_read_inode_by_reference cfg d child
    let grandparent := parent
    let parent := child
    let child := oufs_find_directory_element cfg d inode directory_name
    let local_name := some directory_name
    if child = cfg.UNALLOCATED_INODE then
      if rest = [] then ⟨0, parent, child, local_name⟩
      else ⟨-1, parent, child, local_name⟩
    else find_file_loop cfg d rest grandparent parent child local_name

/-- The function `oufs_find_file`, called with a non-null `local_name`. -/
def oufs_find_file (cfg : Config) (d : Disk) (cwd path : List Char) : FindResult :=
  find_file_loop cfg d (strtok (full_path cfg cwd path)) 0 0 0 none

/-- The function `oufs_find_open_bit`: the highest bit position, scanning from bit 7
down to bit 0, whose bit is clear in `value`; `none` stands for the C result
`-1`.  The argument counts the positions still to scan. -/
def find_open_bit_from (value : Nat) : Nat → Option Nat
  | 0 => none
  | i + 1 => if (2 ^ i) &&& value = 0 then some i else find_open_bit_from value i

/-- The function `oufs_find_open_bit`. -/
def oufs_find_open_bit (value : Nat) : Option Nat := find_open_bit_from value 8

/-- The bitmap scan of `oufs_allocate_new_directory` and `oufs_create_file`, from byte `i`
on: the inode reference chosen and the bitmap with its bit added, or `none`
when the loop ends with `bit == -1`. -/
def scan_inode_flags (flag : Nat → Nat) : Nat → Nat → Option (Nat × (Nat → Nat))
  | 0, _ => none
  | fuel + 1, i =>
    match oufs_find_open_bit (flag i) with
    | some bit => some (i * 8 + (7 - bit % 8), setAt flag i (flag i + 2 ^ bit))
    | none => scan_inode_flags flag fuel (i + 1)

/-- The function `oufs_init_directory_structures`: the inode and the block of a fresh
directory.  The loop that marks the free entries runs up to
`N_INODES_PER_BLOCK`, as in the source. -/
def oufs_init_directory_structures (cfg : Config) (self_block_reference self_inode_reference
    parent_inode_reference : Nat) : INODE × BLOCK :=
  let inode : INODE := ⟨DIRECTORY_TYPE, 1, self_block_reference, 2⟩
  let e0 : Nat → DIRECTORY_ENTRY := fun _ => zeroEntry
  let e1 := setAt e0 0 ⟨['.'], self_inode_reference⟩
  let e2 := setAt e1 1 ⟨['.', '.'], parent_inode_reference⟩
  let e3 : Nat → DIRECTORY_ENTRY := fun i =>
    if 2 ≤ i ∧ i < cfg.N_INODES_PER_BLOCK then ⟨(e2 i).name, cfg.UNALLOCATED_INODE⟩ else e2 i
  (inode, ⟨cfg.UNALLOCATED_BLOCK, CONTENT.directory e3⟩)

/-- Replace the master record of a block read as a master block. -/
def BLOCK.withMaster (b : BLOCK) (m : MASTER) : BLOCK := ⟨b.next_block, CONTENT.master m⟩

/-- Replace the entries of a block read as a directory block. -/
def BLOCK.withDirectory (b : BLOCK) (e : Nat → DIRECTORY_ENTRY) : BLOCK :=
  ⟨b.next_block, CONTENT.directory e⟩

/-- The function `oufs_allocate_new_directory`: the inode reference returned and the disk
afterwards. -/
def oufs_allocate_new_directory (cfg : Config) (d : Disk) (parent_reference : Nat) :
    Nat × Disk :=
  let block := virtual_disk_read_block d MASTER_BLOCK_REFERENCE
  let newBlockRef := block.content.asMaster.unallocated_front
  let block2 := virtual_disk_read_block d newBlockRef
  let m1 : MASTER := { block.content.asMaster with unallocated_front := block2.next_block }
  match scan_inode_flags m1.inode_allocated_flag (cfg.N_INODES / 8) 0 with
  | none => (cfg.UNALLOCATED_INODE, d)
  | some (openInode, flag) =>
    let block := block.withMaster { m1 with inode_allocated_flag := flag }
    let parent := oufs_read_inode_by_reference cfg d parent_reference
    let parent : INODE := { parent with size := parent.size + 1 }
    let init := oufs_init_directory_structures cfg newBlockRef openInode parent_reference
    let d := virtual_disk_write_block d MASTER_BLOCK_REFERENCE block
    let d := virtual_disk_write_block d newBlockRef init.2
    let d := oufs_write_inode_by_reference cfg d openInode init.1
    let d := oufs_write_inode_by_reference cfg d parent_reference parent
    (openInode, d)

/-- The first index from `i` on, among `fuel` entries, whose entry is
unallocated. -/
def first_unallocated_from (cfg : Config) (entry : Nat → DIRECTORY_ENTRY) : Nat → Nat → Option Nat
  | 0, _ => none
  | fuel + 1, i =>
    if (entry i).inode_reference = cfg.UNALLOCATED_INODE then some i
    else first_unallocated_from cfg entry fuel (i + 1)

/-- The function `oufs_create_file`: the inode reference returned and the disk
afterwards. -/
def oufs_create_file (cfg : Config) (d : Disk) (parent : Nat) (local_name : List Char) :
    Nat × Disk :=
  let inode := oufs_read_inode_by_reference cfg d parent
  if inode.size = cfg.N_DIRECTORY_ENTRIES_PER_BLOCK then (cfg.UNALLOCATED_INODE, d)
  else
    let block := virtual_disk_read_block d MASTER_BLOCK_REFERENCE
    let pBlock := virtual_disk_read_block d inode.content
    match scan_inode_flags block.content.asMaster.inode_allocated_flag (cfg.N_INODES / 8) 0 with
    | none => (cfg.UNALLOCATED_INODE, d)
    | some (inode_reference, flag) =>
      let block := block.withMaster { block.content.asMaster with inode_allocated_flag := flag }
      let inode : INODE := { inode with size := inode.size + 1 }
      let child : INODE := ⟨FILE_TYPE, 1, cfg.UNALLOCATED_BLOCK, 0⟩
      let pBlock :=
        match first_unallocated_from cfg pBlock.content.asDirectory
            cfg.N_DIRECTORY_ENTRIES_PER_BLOCK 0 with
        | some i => pBlock.withDirectory
            (setAt pBlock.content.asDirectory i ⟨local_name, inode_reference⟩)
        | none => pBlock
      let d := virtual_disk_write_block d MASTER_BLOCK_REFERENCE block
      let d := oufs_write_inode_by_reference cfg d inode_reference child
      let d := virtual_disk_write_block d inode.content pBlock
      let d := oufs_write_inode_by_reference cfg d parent inode
      (inode_reference, d)

/-- The function `oufs_allocate_new_block`: the reference returned and the in-memory master
block afterwards.  The buffer `new_block` is never written by the source, so
it does not appear. -/
def oufs_allocate_new_block (cfg : Config) (d : Disk) (master_block : BLOCK) : Nat × BLOCK :=
  if master_block.content.asMaster.unallocated_front = cfg.UNALLOCATED_BLOCK then
    (cfg.UNALLOCATED_BLOCK, master_block)
  else
    let block_reference := master_block.content.asMaster.unallocated_front
    let b := virtual_disk_read_block d block_reference
    (block_reference,
      master_block.withMaster
        { master_block.content.asMaster with unallocated_front := b.next_block })

/-- The loop of `oufs_rmdir` over the parent's entries: the first index from `i`
on, among `fuel` entries, whose entry references `child`. -/
def first_reference_from (entry : Nat → DIRECTORY_ENTRY) (child : Nat) : Nat → Nat → Option Nat
  | 0, _ => none
  | fuel + 1, i =>
    if (entry i).inode_reference = child then some i
    else first_reference_from entry child fuel (i + 1)

/-- The loop of `oufs_remove` over the parent's entries: the first index from
`i` on, among `fuel` entries, whose entry is allocated and references
`child`. -/
def first_allocated_reference_from (cfg : Config) (entry : Nat → DIRECTORY_ENTRY) (child : Nat) :
    Nat → Nat → Option Nat
  | 0, _ => none
  | fuel + 1, i =>
    if (entry i).inode_reference ≠ cfg.UNALLOCATED_INODE ∧ (entry i).inode_reference = child then
      some i
    else first_allocated_reference_from cfg entry child fuel (i + 1)

/-- The entry that `oufs_rmdir` and `oufs_remove` store in a cleared slot: zeroed, with
the reference `UNALLOCATED_INODE`. -/
def clearedEntry (cfg : Config) : DIRECTORY_ENTRY := ⟨[], cfg.UNALLOCATED_INODE⟩

/-- The statement `flag[child/8] -= (1 << (7 - child%8))` on a bitmap of
`unsigned char`. -/
def clear_inode_flag (flag : Nat → Nat) (child : Nat) : Nat → Nat :=
  setAt flag (child / 8) ((flag (child / 8) + 256 - 2 ^ (7 - child % 8)) % 256)

/-- The statement `x--` on an unsigned field with `range` values: zero wraps to
the largest value. -/
def decrement (range x : Nat) : Nat := (x + range - 1) % range

/-- The function `oufs_deallocate_block`: status, the in-memory master block and the
disk afterwards. -/
def oufs_deallocate_block (cfg : Config) (d : Disk) (master_block : BLOCK)
    (block_reference : Nat) : Int × BLOCK × Disk :=
  let m := master_block.content.asMaster
  let r : BLOCK × Disk :=
    if m.unallocated_front = cfg.UNALLOCATED_BLOCK then
      (master_block.withMaster
        { m with unallocated_front := block_reference, unallocated_end := block_reference }, d)
    else
      let br := m.unallocated_end
      let c := virtual_disk_read_block d br
      let c : BLOCK := { c with next_block := block_reference }
      (master_block.withMaster { m with unallocated_end := block_reference },
        virtual_disk_write_block d br c)
  let b := virtual_disk_read_block r.2 block_reference
  let b : BLOCK := { b with next_block := cfg.UNALLOCATED_BLOCK }
  (0, r.1, virtual_disk_write_block r.2 block_reference b)

/-- The function `oufs_deallocate_blocks`: status, the inode and the disk afterwards.
The body of its loop is commented out in the source, so neither the inode nor
the disk changes. -/
def oufs_deallocate_blocks (cfg : Config) (d : Disk) (inode : INODE) : Int × INODE × Disk :=
  if inode.content = cfg.UNALLOCATED_BLOCK then (0, inode, d)
  else
    let _master_block := virtual_disk_read_block d MASTER_BLOCK_REFERENCE
    (0, inode, d)

/-! ## `oufs_lib.c` -/

/-- The first loop of `oufs_format_disk`: a zeroed block is written to every
block from `i` on. -/
def format_zero (d : Disk) : Nat → Nat → Disk
  | 0, _ => d
  | fuel + 1, i => format_zero (virtual_disk_write_block d i zeroBlock) fuel (i + 1)

/-- The loop of `oufs_format_disk` that chains the free blocks from `i` on: each
points to the next one, the last to `UNALLOCATED_BLOCK`. -/
def format_free (cfg : Config) (d : Disk) : Nat → Nat → Disk
  | 0, _ => d
  | fuel + 1, i =>
    let block : BLOCK :=
      { zeroBlock with
        next_block := if i = cfg.N_BLOCKS - 1 then cfg.UNALLOCATED_BLOCK else i + 1 }
    format_free cfg (virtual_disk_write_block d i block) fuel (i + 1)

/-- The last loop of `oufs_format_disk`: every inode from `i` on becomes a zeroed
inode whose content is `UNALLOCATED_INODE`. -/
def format_inodes (cfg : Config) (d : Disk) : Nat → Nat → Disk
  | 0, _ => d
  | fuel + 1, i =>
    format_inodes cfg
      (oufs_write_inode_by_reference cfg d i { zeroInode with content := cfg.UNALLOCATED_INODE })
      fuel (i + 1)

/-- The function `oufs_format_disk`: status and disk afterwards; attaching to the
virtual disk and detaching from it are left to the transport. -/
def oufs_format_disk (cfg : Config) (d : Disk) : Int × Disk :=
  let d := format_zero d cfg.N_BLOCKS 0
  let block : BLOCK :=
    ⟨cfg.UNALLOCATED_BLOCK,
      CONTENT.master
        { inode_allocated_flag := setAt zeroMaster.inode_allocated_flag 0 128
          unallocated_front := 6
          unallocated_end := cfg.N_BLOCKS - 1 }⟩
  let d := virtual_disk_write_block d MASTER_BLOCK_REFERENCE block
  let init := oufs_init_directory_structures cfg cfg.ROOT_DIRECTORY_BLOCK
    cfg.ROOT_DIRECTORY_INODE cfg.ROOT_DIRECTORY_INODE
  let d := oufs_write_inode_by_reference cfg d 0 init.1
  let d := virtual_disk_write_block d cfg.ROOT_DIRECTORY_BLOCK init.2
  let d := format_free cfg d (cfg.N_BLOCKS - 6) 6
  let d := format_inodes cfg d (cfg.N_INODES - 1) 1
  (0, d)

/-- The function `oufs_mkdir`: status and disk afterwards.  `uninit_name` is the content of
the local array `local_name` before the call of `oufs_find_file`. -/
def oufs_mkdir (cfg : Config) (d : Disk) (cwd path : List Char) (uninit_name : List Char) :
    Int × Disk :=
  let fr := oufs_find_file cfg d cwd path
  if fr.ret < -1 then (-1, d)
  else
    let local_name := fr.local_name.getD uninit_name
    let parent := fr.parent
    let a := oufs_allocate_new_directory cfg d parent
    let child := a.1
    let d := a.2
    let parentInode := oufs_read_inode_by_reference cfg d parent
    let b := virtual_disk_read_block d parentInode.content
    let b :=
      match first_unallocated_from cfg b.content.asDirectory
          (cfg.N_DIRECTORY_ENTRIES_PER_BLOCK - 1 - 2) 2 with
      | some i => b.withDirectory (setAt b.content.asDirectory i ⟨local_name, child⟩)
      | none => b
    let d := virtual_disk_write_block d parentInode.content b
    (0, d)

/-- An open file: the structure `OUFILE`.  The cache is indexed by integers so
that the position before its first element can be named. -/
structure OUFILE where
  inode_reference : Nat
  mode : Char
  offset : Nat
  n_data_blocks : Nat
  block_reference_cache : Int → Nat

/-- Assignment to one element of the block reference cache. -/
def setCache (c : Int → Nat) (i : Int) (v : Nat) : Int → Nat :=
  fun k => if k = i then v else c k

/-- The loop of `oufs_fopen` that fills the cache from index `i` on by following
`next_block`, `b` being the block read last. -/
def fill_cache (cfg : Config) (d : Disk) : Nat → Nat → BLOCK → (Int → Nat) → (Int → Nat)
  | 0, _, _, cache => cache
  | fuel + 1, i, b, cache =>
    let cache := setCache cache (i : Int) b.next_block
    let b := if b.next_block ≠ cfg.UNALLOCATED_BLOCK then virtual_disk_read_block d b.next_block
      else b
    fill_cache cfg d fuel (i + 1) b cache

/-- The cache of a handle opened on an existing file with `n_data_blocks`
blocks. -/
def open_cache (cfg : Config) (d : Disk) (inode : INODE) (n_data_blocks : Nat)
    (cache : Int → Nat) : Int → Nat :=
  let b := virtual_disk_read_block d inode.content
  let cache := setCache cache 0 inode.content
  fill_cache cfg d (n_data_blocks - 1) 1 b cache

/-- The loop of `oufs_fopen` in mode `w` on an existing file: it writes a zeroed
block at `content + i` for `i` from `i` on. -/
def zero_blocks (d : Disk) (content : Nat) : Nat → Nat → Disk
  | 0, _ => d
  | fuel + 1, i =>
    zero_blocks (virtual_disk_write_block d (content + i) zeroBlock) content fuel (i + 1)

/-- The function `oufs_fopen`: the handle (`none` for `NULL`) and the disk afterwards.
`uninit_fp` is the memory `malloc` returns, `uninit_name` the local array
`local_name` before the lookup, and `lit_a` the character that the assignment
`fp->mode = "a"` stores. -/
def oufs_fopen (cfg : Config) (d : Disk) (cwd path mode : List Char)
    (uninit_fp : OUFILE) (uninit_name : List Char) (lit_a : Char) : Option OUFILE × Disk :=
  let m := mode.headD (Char.ofNat 0)
  if m ≠ 'r' ∧ m ≠ 'w' ∧ m ≠ 'a' then (none, d)
  else
    let fr := oufs_find_file cfg d cwd path
    if fr.ret < -1 then (none, d)
    else if fr.parent = cfg.UNALLOCATED_INODE then (none, d)
    else
      let local_name := fr.local_name.getD uninit_name
      let parent := fr.parent
      let child := fr.child
      if m = 'a' then
        if child = cfg.UNALLOCATED_INODE then
          let a := oufs_create_file cfg d parent local_name
          if a.1 = cfg.UNALLOCATED_INODE then (none, a.2)
          else (some ⟨a.1, lit_a, 0, 0, uninit_fp.block_reference_cache⟩, a.2)
        else
          let inode := oufs_read_inode_by_reference cfg d child
          let n := (inode.size + cfg.DATA_BLOCK_SIZE - 1) / cfg.DATA_BLOCK_SIZE
          (some ⟨child, 'a', inode.size, n,
            open_cache cfg d inode n uninit_fp.block_reference_cache⟩, d)
      else if m = 'r' then
        if child = cfg.UNALLOCATED_INODE then (none, d)
        else
          let inode := oufs_read_inode_by_reference cfg d child
          if inode.type ≠ FILE_TYPE then (none, d)
          else
            let n := (inode.size + cfg.DATA_BLOCK_SIZE - 1) / cfg.DATA_BLOCK_SIZE
            (some ⟨child, 'r', 0, n,
              open_cache cfg d inode n uninit_fp.block_reference_cache⟩, d)
      else
        if child = cfg.UNALLOCATED_INODE then
          let a := oufs_create_file cfg d parent local_name
          if a.1 = cfg.UNALLOCATED_INODE then (none, a.2)
          else (some ⟨a.1, 'w', 0, 0, uninit_fp.block_reference_cache⟩, a.2)
        else
          let inode := oufs_read_inode_by_reference cfg d child
          let current_blocks := (inode.size + cfg.DATA_BLOCK_SIZE - 1) / cfg.DATA_BLOCK_SIZE
          let d := zero_blocks d inode.content current_blocks 0
          (some ⟨child, 'w', 0, 0, uninit_fp.block_reference_cache⟩, d)

/-- The function `oufs_fclose`: the handle is invalidated and freed; the disk is not
touched. -/
def oufs_fclose (cfg : Config) (fp : OUFILE) : OUFILE :=
  { fp with inode_reference := cfg.UNALLOCATED_INODE }

/-- The call `memcpy(block.content.data.data + at, buf + from, count)`. -/
def copy_into_block (block : BLOCK) (pos : Nat) (buf : Nat → Nat) (start count : Nat) : BLOCK :=
  ⟨block.next_block, CONTENT.data (fun k =>
    if pos ≤ k ∧ k < pos + count then buf (start + (k - pos)) else block.content.asData k)⟩

/-- The variables of `oufs_fwrite` that its loop reads and writes. -/
structure WriteState where
  d : Disk
  fp : OUFILE
  inode : INODE
  master : BLOCK
  block : BLOCK
  bufB : BLOCK
  br : Nat
  len_left : Nat
  len_written : Nat

/-- The branch `len_left > free_bytes_in_last_block` of the loop of
`oufs_fwrite`: the rest of the current block is filled and written. -/
def fwrite_fill (cfg : Config) (buf : Nat → Nat) (s : WriteState) : WriteState :=
  let block := virtual_disk_read_block s.d s.br
  let used_bytes_in_last_block := s.fp.offset % cfg.DATA_BLOCK_SIZE
  let free_bytes_in_last_block := cfg.DATA_BLOCK_SIZE - used_bytes_in_last_block
  let block := copy_into_block block used_bytes_in_last_block buf s.len_written
    free_bytes_in_last_block
  { s with
    block := block
    len_left := s.len_left - free_bytes_in_last_block
    len_written := s.len_written + free_bytes_in_last_block
    fp := { s.fp with offset := s.fp.offset + free_bytes_in_last_block }
    inode := { s.inode with size := s.inode.size + free_bytes_in_last_block }
    d := virtual_disk_write_block s.d s.br block }

/-- The other branch of the loop of `oufs_fwrite`: the last `len_left` bytes are
copied and the block is written; the loop ends. -/
def fwrite_last (cfg : Config) (buf : Nat → Nat) (s : WriteState) : WriteState :=
  let block := virtual_disk_read_block s.d s.br
  let used_bytes_in_last_block := s.fp.offset % cfg.DATA_BLOCK_SIZE
  let block := copy_into_block block used_bytes_in_last_block buf s.len_written s.len_left
  { s with
    block := block
    len_written := s.len_written + s.len_left
    fp := { s.fp with offset := s.fp.offset + s.len_left }
    inode := { s.inode with size := s.inode.size + s.len_left }
    len_left := 0
    d := virtual_disk_write_block s.d s.br block }

/-- The body of `if (i != MAX_BLOCKS_IN_FILE - 1)` in the loop of `oufs_fwrite`: the next
block is taken from the free list, recorded in the cache and linked behind the
current one. -/
def fwrite_link (cfg : Config) (i : Nat) (s : WriteState) : WriteState :=
  let a := oufs_allocate_new_block cfg s.d s.master
  let br := a.1
  let cache := setCache s.fp.block_reference_cache ((i : Int) + 1) br
  let block : BLOCK := { s.block with next_block := br }
  let d := virtual_disk_write_block s.d (cache (i : Int)) block
  let d := virtual_disk_write_block d br s.bufB
  { s with
    br := br
    master := a.2
    block := block
    fp := { s.fp with block_reference_cache := cache
                      n_data_blocks := s.fp.n_data_blocks + 1 }
    d := d }

/-- The `for` loop of `oufs_fwrite` from block index `i` on, `fuel` being
`MAX_BLOCKS_IN_FILE - i`. -/
def fwrite_loop (cfg : Config) (buf : Nat → Nat) : Nat → Nat → WriteState → WriteState
  | 0, _, s => s
  | fuel + 1, i, s =>
    if s.len_left > cfg.DATA_BLOCK_SIZE - s.fp.offset % cfg.DATA_BLOCK_SIZE then
      if i ≠ cfg.MAX_BLOCKS_IN_FILE - 1 then
        fwrite_loop cfg buf fuel (i + 1) (fwrite_link cfg i (fwrite_fill cfg buf s))
      else fwrite_loop cfg buf fuel (i + 1) (fwrite_fill cfg buf s)
    else fwrite_last cfg buf s

/-- The part of `oufs_fwrite` between reading the master block and the loop: the block
that the loop starts with is allocated or taken from the cache. -/
def fwrite_init (cfg : Config) (d : Disk) (fp : OUFILE) (inode : INODE) (len : Nat)
    (uninit_block uninit_bufB : BLOCK) : WriteState :=
  let current_block := fp.offset / cfg.DATA_BLOCK_SIZE
  let used_bytes_in_last_block := fp.offset % cfg.DATA_BLOCK_SIZE
  let master := virtual_disk_read_block d MASTER_BLOCK_REFERENCE
  if inode.content = cfg.UNALLOCATED_BLOCK then
    let a := oufs_allocate_new_block cfg d master
    let br := a.1
    let block : BLOCK := { uninit_block with next_block := cfg.UNALLOCATED_BLOCK }
    { d := virtual_disk_write_block d br block
      fp := { fp with block_reference_cache := setCache fp.block_reference_cache 0 br
                      n_data_blocks := fp.n_data_blocks + 1 }
      inode := { inode with content := br }
      master := a.2, block := block, bufB := uninit_bufB, br := br
      len_left := len, len_written := 0 }
  else if used_bytes_in_last_block = 0 then
    let a := oufs_allocate_new_block cfg d master
    let br := a.1
    let prev := fp.block_reference_cache ((current_block : Int) - 1)
    let bufB := virtual_disk_read_block d prev
    let bufB : BLOCK := { bufB with next_block := br }
    let cache := setCache fp.block_reference_cache (current_block : Int) br
    let block : BLOCK := { uninit_block with next_block := cfg.UNALLOCATED_BLOCK }
    let d := virtual_disk_write_block d (cache ((current_block : Int) - 1)) bufB
    let d := virtual_disk_write_block d br block
    { d := d
      fp := { fp with block_reference_cache := cache
                      n_data_blocks := fp.n_data_blocks + 1 }
      inode := inode, master := a.2, block := block, bufB := bufB, br := br
      len_left := len, len_written := 0 }
  else
    { d := d, fp := fp, inode := inode, master := master, block := uninit_block
      bufB := uninit_bufB, br := fp.block_reference_cache (current_block : Int)
      len_left := len, len_written := 0 }

/-- The function `oufs_fwrite`: the value returned, the handle and the disk afterwards.
`uninit_block` and `uninit_bufB` are the locals `block` and `bufB` at entry;
`buf` is the memory at the pointer `buf`, and `len` is not negative. -/
def oufs_fwrite (cfg : Config) (d : Disk) (fp : OUFILE) (buf : Nat → Nat) (len : Nat)
    (uninit_block uninit_bufB : BLOCK) : Int × OUFILE × Disk :=
  if fp.mode = 'r' then (0, fp, d)
  else
    let inode := oufs_read_inode_by_reference cfg d fp.inode_reference
    let current_block := fp.offset / cfg.DATA_BLOCK_SIZE
    if inode.type ≠ FILE_TYPE then (-1, fp, d)
    else if inode.size = cfg.DATA_BLOCK_SIZE * cfg.MAX_BLOCKS_IN_FILE then (0, fp, d)
    else
      let s0 := fwrite_init cfg d fp inode len uninit_block uninit_bufB
      let s := fwrite_loop cfg buf (cfg.MAX_BLOCKS_IN_FILE - current_block) current_block s0
      let d := virtual_disk_write_block s.d MASTER_BLOCK_REFERENCE s.master
      let d := oufs_write_inode_by_reference cfg d s.fp.inode_reference s.inode
      ((s.len_written : Int), s.fp, d)

/-- The call `memset(buf, 0, strlen(buf))`: the bytes before the first zero
byte become zero. -/
def clear_string (buf : Nat → Nat) : Nat → Nat :=
  fun j => if ∀ k ≤ j, buf k ≠ 0 then 0 else buf j

/-- The call `memcpy(buf + at, b.content.data.data + from, count)`. -/
def copy_from_block (buf : Nat → Nat) (pos : Nat) (b : BLOCK) (start count : Nat) : Nat → Nat :=
  fun j => if pos ≤ j ∧ j < pos + count then b.content.asData (start + (j - pos)) else buf j

/-- The variables of `oufs_fread` that its loop reads and writes. -/
structure ReadState where
  fp : OUFILE
  buf : Nat → Nat
  byte_offset_in_block : Nat
  len_read : Nat
  len_left : Nat

/-- The branch `len_left / (DATA_BLOCK_SIZE - byte_offset_in_block) >= 1` of the
loop of `oufs_fread`, with the update of `byte_offset_in_block` that follows it:
the rest of block `i` is copied. -/
def fread_rest (cfg : Config) (d : Disk) (i : Nat) (s : ReadState) : ReadState :=
  let b := virtual_disk_read_block d (s.fp.block_reference_cache (i : Int))
  let rest := cfg.DATA_BLOCK_SIZE - s.byte_offset_in_block
  { fp := { s.fp with offset := s.fp.offset + rest }
    buf := copy_from_block s.buf s.len_read b s.byte_offset_in_block rest
    len_read := s.len_read + rest
    len_left := s.len_left - rest
    byte_offset_in_block := (s.fp.offset + rest) % cfg.DATA_BLOCK_SIZE }

/-- The other branch of the loop of `oufs_fread`: the last `len_left` bytes are
copied; the loop ends. -/
def fread_last (d : Disk) (i : Nat) (s : ReadState) : ReadState :=
  let b := virtual_disk_read_block d (s.fp.block_reference_cache (i : Int))
  { s with
    buf := copy_from_block s.buf s.len_read b s.byte_offset_in_block s.len_left
    len_read := s.len_read + s.len_left
    fp := { s.fp with offset := s.fp.offset + s.len_left } }

/-- The `for` loop of `oufs_fread` from block index `i` on, `fuel` being
`n_data_blocks - i`. -/
def fread_loop (cfg : Config) (d : Disk) : Nat → Nat → ReadState → ReadState
  | 0, _, s => s
  | fuel + 1, i, s =>
    if s.len_left / (cfg.DATA_BLOCK_SIZE - s.byte_offset_in_block) ≥ 1 then
      fread_loop cfg d fuel (i + 1) (fread_rest cfg d i s)
    else fread_last d i s

/-- The function `oufs_fread`: the value returned, the handle and the buffer afterwards.
`len` is not negative, and the handle's offset is taken to be at most the file
size, as the comment of the source promises, so that `end_of_file - fp->offset`
is not negative. -/
def oufs_fread (cfg : Config) (d : Disk) (fp : OUFILE) (buf : Nat → Nat) (len : Nat) :
    Int × OUFILE × (Nat → Nat) :=
  if fp.mode ≠ 'r' then (0, fp, buf)
  else
    let inode := oufs_read_inode_by_reference cfg d fp.inode_reference
    let current_block := fp.offset / cfg.DATA_BLOCK_SIZE
    let byte_offset_in_block := fp.offset % cfg.DATA_BLOCK_SIZE
    let end_of_file := inode.size
    let len := min len (end_of_file - fp.offset)
    let buf := clear_string buf
    if inode.type ≠ FILE_TYPE then (-1, fp, buf)
    else if fp.offset = inode.size then (0, fp, buf)
    else
      let s := fread_loop cfg d (fp.n_data_blocks - current_block) current_block
        { fp := fp, buf := buf, byte_offset_in_block := byte_offset_in_block
          len_read := 0, len_left := len }
      ((s.len_read : Int), s.fp, s.buf)

/-- The function `oufs_rmdir`: status and disk afterwards. -/
def oufs_rmdir (cfg : Config) (d : Disk) (cwd path : List Char) : Int × Disk :=
  let fr := oufs_find_file cfg d cwd path
  if fr.ret < -1 then (-4, d)
  else
    let parent := fr.parent
    let child := fr.child
    let master := virtual_disk_read_block d MASTER_BLOCK_REFERENCE
    let c := oufs_read_inode_by_reference cfg d child
    let p := oufs_read_inode_by_reference cfg d parent
    let pb := virtual_disk_read_block d p.content
    if c.type ≠ DIRECTORY_TYPE then (-1, d)
    else if p.size ≤ 2 ∨ c.size > 2 then (-1, d)
    else if child = 0 ∨ child = cfg.UNALLOCATED_INODE then (-1, d)
    else
      let p : INODE := { p with size := p.size - 1 }
      let pb :=
        match first_reference_from pb.content.asDirectory child
            cfg.N_DIRECTORY_ENTRIES_PER_BLOCK 0 with
        | some i => pb.withDirectory (setAt pb.content.asDirectory i (clearedEntry cfg))
        | none => pb
      let master := master.withMaster
        { master.content.asMaster with
          inode_allocated_flag := clear_inode_flag master.content.asMaster.inode_allocated_flag child }
      let r := oufs_deallocate_block cfg d master c.content
      let master := r.2.1
      let d := r.2.2
      let c : INODE := { zeroInode with content := cfg.UNALLOCATED_BLOCK }
      let d := oufs_write_inode_by_reference cfg d child c
      let d := virtual_disk_write_block d MASTER_BLOCK_REFERENCE master
      let d := virtual_disk_write_block d p.content pb
      let d := oufs_write_inode_by_reference cfg d parent p
      (0, d)

/-- The function `oufs_remove`: status and disk afterwards. -/
def oufs_remove (cfg : Config) (d : Disk) (cwd path : List Char) : Int × Disk :=
  let fr := oufs_find_file cfg d cwd path
  if fr.ret < -1 then (-3, d)
  else
    let parent := fr.parent
    let child := fr.child
    if child = cfg.UNALLOCATED_INODE then (-1, d)
    else
      let inode := oufs_read_inode_by_reference cfg d child
      if inode.type ≠ FILE_TYPE then (-2, d)
      else
        let inode_parent := oufs_read_inode_by_reference cfg d parent
        let block := virtual_disk_read_block d inode_parent.content
        let block :=
          match first_allocated_reference_from cfg block.content.asDirectory child
              cfg.N_DIRECTORY_ENTRIES_PER_BLOCK 0 with
          | some i => block.withDirectory (setAt block.content.asDirectory i (clearedEntry cfg))
          | none => block
        let inode_parent : INODE :=
          { inode_parent with size := decrement cfg.SIZE_RANGE inode_parent.size }
        let d := virtual_disk_write_block d inode_parent.content block
        let d := oufs_write_inode_by_reference cfg d parent inode_parent
        let inode : INODE :=
          { inode with n_references := decrement cfg.N_REFERENCES_RANGE inode.n_references }
        if inode.n_references = 0 then
          let master := virtual_disk_read_block d MASTER_BLOCK_REFERENCE
          let master := master.withMaster
            { master.content.asMaster with
              inode_allocated_flag :=
                clear_inode_flag master.content.asMaster.inode_allocated_flag child }
          let _freed := oufs_deallocate_blocks cfg d inode
          let inode : INODE := { zeroInode with content := cfg.UNALLOCATED_BLOCK }
          let d := oufs_write_inode_by_reference cfg d child inode
          let d := virtual_disk_write_block d MASTER_BLOCK_REFERENCE master
          (0, d)
        else (0, d)

/-- The function `oufs_link`: status and disk afterwards.  The source ends at its
`TODO` comment, so no branch writes to the disk. -/
def oufs_link (cfg : Config) (d : Disk) (cwd path_src path_dst : List Char) : Int × Disk :=
  let src := oufs_find_file cfg d cwd path_src
  if src.ret < -1 then (-5, d)
  else
    let dst := oufs_find_file cfg d cwd path_dst
    if dst.ret < -1 then (-6, d)
    else if src.child = cfg.UNALLOCATED_INODE then (-1, d)
    else if dst.parent = cfg.UNALLOCATED_INODE then (-2, d)
    else if dst.child ≠ cfg.UNALLOCATED_INODE then (-3, d)
    else
      let inode_dst := oufs_read_inode_by_reference cfg d dst.parent
      if inode_dst.size = cfg.N_DIRECTORY_ENTRIES_PER_BLOCK then (-4, d)
      else (0, d)

/-- The library function `strcmp` on strings without their terminator: the
difference of the first two bytes that differ, the terminator counting as
zero. -/
def strcmp : List Char → List Char → Int
  | [], [] => 0
  | [], b :: _ => -(b.toNat : Int)
  | a :: _, [] => (a.toNat : Int)
  | a :: as, b :: bs => if a = b then strcmp as bs else (a.toNat : Int) - (b.toNat : Int)

/-- The function `inode_compare_to`, the comparison handed to `qsort`. -/
def inode_compare_to (cfg : Config) (e1 e2 : DIRECTORY_ENTRY) : Int :=
  if e1.inode_reference = cfg.UNALLOCATED_INODE ∧ e2.inode_reference ≠ cfg.UNALLOCATED_INODE then 1
  else if e1.inode_reference ≠ cfg.UNALLOCATED_INODE ∧
      e2.inode_reference = cfg.UNALLOCATED_INODE then -1
  else if e1.inode_reference = cfg.UNALLOCATED_INODE ∧
      e2.inode_reference = cfg.UNALLOCATED_INODE then 0
  else strcmp e1.name e2.name

/-- The first loop of `oufs_list`: the allocated entries from index `i` on, in the
order of their slots, as copied into `items`. -/
def collect_items (cfg : Config) (entry : Nat → DIRECTORY_ENTRY) : Nat → Nat → List DIRECTORY_ENTRY
  | 0, _ => []
  | fuel + 1, i =>
    if (entry i).inode_reference ≠ cfg.UNALLOCATED_INODE then
      entry i :: collect_items cfg entry fuel (i + 1)
    else collect_items cfg entry fuel (i + 1)

/-- The second loop of `oufs_list`: one printed line per item, the name followed by
a slash when the item's inode is a directory. -/
def print_items (cfg : Config) (d : Disk) : List DIRECTORY_ENTRY → List (List Char)
  | [] => []
  | item :: rest =>
    let inode := oufs_read_inode_by_reference cfg d item.inode_reference
    (if inode.type = DIRECTORY_TYPE then item.name ++ ['/'] else item.name) ::
      print_items cfg d rest

/-- The function `oufs_list`: status and the lines printed on the standard output.
The library function `qsort` is an argument: it is called with the comparison
and the items.  The lookup is made with a null `local_name`, which changes
neither the status nor the two references that `oufs_find_file` returns. -/
def oufs_list (cfg : Config) (d : Disk) (cwd path : List Char)
    (qsort : (DIRECTORY_ENTRY → DIRECTORY_ENTRY → Int) → List DIRECTORY_ENTRY →
      List DIRECTORY_ENTRY) : Int × List (List Char) :=
  let fr := oufs_find_file cfg d cwd path
  if fr.ret = 0 ∧ fr.child ≠ cfg.UNALLOCATED_INODE then
    let inode := oufs_read_inode_by_reference cfg d fr.child
    let b := virtual_disk_read_block d inode.content
    let items := collect_items cfg b.content.asDirectory cfg.N_DIRECTORY_ENTRIES_PER_BLOCK 0
    let items := qsort (inode_compare_to cfg) items
    (fr.ret, print_items cfg d items)
  else (fr.ret, [])

/-! ## Specification-side notions -/

/-- Looking one path component up in the directory of inode `dir`, the way the
loop of `oufs_find_file` does it: the component is cut to the name length first. -/
def lookup_component (cfg : Config) (d : Disk) (dir : Nat) (c : List Char) : Nat :=
  oufs_find_directory_element cfg d (oufs_read_inode_by_reference cfg d dir)
    (truncate_name cfg c)

/-- The inode references found when the components are looked up in turn,
starting in the directory of inode `cur`. -/
def resolve_chain (cfg : Config) (d : Disk) : Nat → List (List Char) → List Nat
  | _, [] => []
  | cur, c :: cs =>
    lookup_component cfg d cur c :: resolve_chain cfg d (lookup_component cfg d cur c) cs

/-- The directory entries that `oufs_find_directory_element` scans for inode
`dir`. -/
def directory_of (cfg : Config) (d : Disk) (dir : Nat) : Nat → DIRECTORY_ENTRY :=
  (d (oufs_read_inode_by_reference cfg d dir).content).content.asDirectory

/-- The path fits the buffer `full_path` of `oufs_find_file` together with its
terminator: an absolute path on its own, a relative one behind `cwd` and a
slash. -/
def fits_buffer (cfg : Config) (cwd path : List Char) : Prop :=
  if path.head? = some '/' then path.length < cfg.MAX_PATH_LENGTH
  else cwd.length + 1 + path.length < cfg.MAX_PATH_LENGTH

instance (cfg : Config) (cwd path : List Char) : Decidable (fits_buffer cfg cwd path) := by
  unfold fits_buffer
  exact inferInstance

/-- The table block of inode `i`. -/
def table_block (cfg : Config) (i : Nat) : Nat := i / cfg.N_INODES_PER_BLOCK + 1

/-- The `k`-th block of the data chain that starts at `content`: the block
reached from `content` by following `next_block` `k` times. -/
def chain_block (d : Disk) (content : Nat) : Nat → Nat
  | 0 => content
  | k + 1 => (d (chain_block d content k)).next_block

/-- The `k`-th block of the free list of a disk. -/
def free_block (d : Disk) (k : Nat) : Nat :=
  chain_block d (d MASTER_BLOCK_REFERENCE).content.asMaster.unallocated_front k

/-- The byte of a file at position `p`, read through the data chain of its
inode. -/
def file_content (cfg : Config) (d : Disk) (inode : INODE) (p : Nat) : Nat :=
  (d (chain_block d inode.content (p / cfg.DATA_BLOCK_SIZE))).content.asData
    (p % cfg.DATA_BLOCK_SIZE)

/-- The byte of the file at position `p`, read through a block cache: byte
`p % DATA_BLOCK_SIZE` of the block cached at index `p / DATA_BLOCK_SIZE`. -/
def file_byte (cfg : Config) (d : Disk) (cache : Int → Nat) (p : Nat) : Nat :=
  (d (cache ((p / cfg.DATA_BLOCK_SIZE : Nat) : Int))).content.asData (p % cfg.DATA_BLOCK_SIZE)

/-- The number of blocks `oufs_fwrite` takes from the free list when it writes `n`
bytes to a fresh file: one for the first `DATA_BLOCK_SIZE` bytes or fewer
(also for none), one more for every further `DATA_BLOCK_SIZE` bytes begun. -/
def blocks_needed (cfg : Config) (n : Nat) : Nat :=
  max 1 ((n + cfg.DATA_BLOCK_SIZE - 1) / cfg.DATA_BLOCK_SIZE)

/-- The sequence of the round trip: `oufs_fopen` in mode `w`, one `oufs_fwrite` of `n`
bytes, `oufs_fclose`, `oufs_fopen` of the same path in mode `r`, `oufs_fread` with
`len = n`.  The result is the count written, the count read and the read
buffer; `none` when one of the two `oufs_fopen` calls returns `NULL`. -/
def write_then_read (cfg : Config) (d : Disk) (cwd path : List Char) (wbuf : Nat → Nat)
    (n : Nat) (rbuf : Nat → Nat) (uninit_fp1 uninit_fp2 : OUFILE)
    (uninit_name1 uninit_name2 : List Char) (lit_a : Char) (uninit_block uninit_bufB : BLOCK) :
    Option (Int × Int × (Nat → Nat)) :=
  match oufs_fopen cfg d cwd path ['w'] uninit_fp1 uninit_name1 lit_a with
  | (none, _) => none
  | (some fp, d1) =>
    let w := oufs_fwrite cfg d1 fp wbuf n uninit_block uninit_bufB
    let _closed := oufs_fclose cfg w.2.1
    match oufs_fopen cfg w.2.2 cwd path ['r'] uninit_fp2 uninit_name2 lit_a with
    | (none, _) => none
    | (some fp2, d3) =>
      let r := oufs_fread cfg d3 fp2 rbuf n
      some (w.1, r.1, r.2.2)

/-- The disk is ready for creating the file named by `path` and writing `n`
bytes to it.  `pre` and `cn` are the components of the path, `c` the inode that
the bitmap scan finds free (`flag` is the bitmap afterwards) and `slot` the
first free entry of the parent directory. -/
structure RoundTripReady (cfg : Config) (d : Disk) (cwd path : List Char) (n : Nat)
    (pre : List (List Char)) (cn : List Char) (c : Nat) (flag : Nat → Nat) (slot : Nat) :
    Prop where
  /-- Blocks hold at least one byte of data. -/
  data_block_size : 0 < cfg.DATA_BLOCK_SIZE
  /-- A file may have at least one block. -/
  max_blocks : 0 < cfg.MAX_BLOCKS_IN_FILE
  /-- The unallocated-inode value is not an inode reference. -/
  inode_range : cfg.N_INODES ≤ cfg.UNALLOCATED_INODE
  /-- The bytes fit a file. -/
  length : n ≤ cfg.DATA_BLOCK_SIZE * cfg.MAX_BLOCKS_IN_FILE
  /-- The components of the path. -/
  tokens : strtok (full_path cfg cwd path) = pre ++ [cn]
  /-- The directories on the path exist. -/
  resolves : ∀ r ∈ resolve_chain cfg d 0 pre, r ≠ cfg.UNALLOCATED_INODE
  /-- The file does not exist yet. -/
  is_new : lookup_component cfg d ((resolve_chain cfg d 0 pre).getLastD 0) cn
    = cfg.UNALLOCATED_INODE
  /-- The parent directory is not full according to its size. -/
  room : (oufs_read_inode_by_reference cfg d ((resolve_chain cfg d 0 pre).getLastD 0)).size
    ≠ cfg.N_DIRECTORY_ENTRIES_PER_BLOCK
  /-- The parent directory has an unallocated entry. -/
  free_slot : first_unallocated_from cfg
    (directory_of cfg d ((resolve_chain cfg d 0 pre).getLastD 0))
    cfg.N_DIRECTORY_ENTRIES_PER_BLOCK 0 = some slot
  /-- The bitmap has a free inode. -/
  free_inode : scan_inode_flags (d MASTER_BLOCK_REFERENCE).content.asMaster.inode_allocated_flag
    (cfg.N_INODES / 8) 0 = some (c, flag)
  /-- The free inode is none of the directories on the path. -/
  inode_unused : c ∉ 0 :: resolve_chain cfg d 0 pre
  /-- The free list holds enough blocks. -/
  free_blocks : ∀ k < blocks_needed cfg n, free_block d k ≠ cfg.UNALLOCATED_BLOCK
  /-- The free list does not repeat a block. -/
  free_distinct : ∀ a < blocks_needed cfg n, ∀ b < blocks_needed cfg n,
    free_block d a = free_block d b → a = b
  /-- The master block is not on the free list. -/
  free_not_master : ∀ k < blocks_needed cfg n, free_block d k ≠ MASTER_BLOCK_REFERENCE
  /-- The inode table blocks in use are not on the free list. -/
  free_not_table : ∀ k < blocks_needed cfg n, ∀ v ∈ c :: 0 :: resolve_chain cfg d 0 pre,
    free_block d k ≠ table_block cfg v
  /-- The directory blocks on the path are not on the free list. -/
  free_not_directory : ∀ k < blocks_needed cfg n, ∀ v ∈ 0 :: resolve_chain cfg d 0 pre,
    free_block d k ≠ (oufs_read_inode_by_reference cfg d v).content
  /-- No directory on the path lives in the master block. -/
  directory_not_master : ∀ v ∈ 0 :: resolve_chain cfg d 0 pre,
    (oufs_read_inode_by_reference cfg d v).content ≠ MASTER_BLOCK_REFERENCE
  /-- No directory on the path lives in an inode table block in use. -/
  directory_not_table : ∀ v ∈ 0 :: resolve_chain cfg d 0 pre,
    ∀ u ∈ c :: 0 :: resolve_chain cfg d 0 pre,
    (oufs_read_inode_by_reference cfg d v).content ≠ table_block cfg u

/-! ## Notions used in the proofs -/

/-- The disk that `oufs_create_file` leaves when it allocates inode `c` (bitmap
`flag` afterwards) and enters the name in entry `slot` of the parent's
directory block. -/
def created_disk (cfg : Config) (d : Disk) (parent : Nat) (local_name : List Char)
    (c : Nat) (flag : Nat → Nat) (slot : Nat) : Disk :=
  let inode := oufs_read_inode_by_reference cfg d parent
  let block := (d MASTER_BLOCK_REFERENCE).withMaster
    { (d MASTER_BLOCK_REFERENCE).content.asMaster with inode_allocated_flag := flag }
  let pBlock := (d inode.content).withDirectory
    (setAt (d inode.content).content.asDirectory slot ⟨local_name, c⟩)
  let d1 := virtual_disk_write_block d MASTER_BLOCK_REFERENCE block
  let d2 := oufs_write_inode_by_reference cfg d1 c ⟨FILE_TYPE, 1, cfg.UNALLOCATED_BLOCK, 0⟩
  let d3 := virtual_disk_write_block d2 inode.content pBlock
  oufs_write_inode_by_reference cfg d3 parent { inode with size := inode.size + 1 }

/-- The numbers the loop of `oufs_fwrite` keeps: bytes written, bytes left, the handle's
offset and the inode's size, and the two fields it never changes. -/
structure WriteCount where
  len_written : Nat
  len_left : Nat
  offset : Nat
  size : Nat
  inode_reference : Nat
  type : INODE_TYPE
  deriving DecidableEq

/-- The numbers of a loop state. -/
def WriteState.count (s : WriteState) : WriteCount :=
  ⟨s.len_written, s.len_left, s.fp.offset, s.inode.size, s.fp.inode_reference, s.inode.type⟩

/-- The state of the loop of `oufs_fwrite` on entering iteration `i` while it
writes the `n` bytes of `wbuf` to a fresh file of inode `c`, the blocks being
taken in the order `F 0, F 1, ...` from the free list of the disk `d1`. -/
structure WriteInv (cfg : Config) (d1 : Disk) (F : Nat → Nat) (wbuf : Nat → Nat)
    (n c i : Nat) (s : WriteState) : Prop where
  br : s.br = F i
  written : s.len_written = i * cfg.DATA_BLOCK_SIZE
  left : s.len_left = n - i * cfg.DATA_BLOCK_SIZE
  offset : s.fp.offset = i * cfg.DATA_BLOCK_SIZE
  more : i = 0 ∨ i * cfg.DATA_BLOCK_SIZE < n
  front : s.master.content.asMaster.unallocated_front = F (i + 1)
  cache : ∀ k ≤ i, s.fp.block_reference_cache (k : Int) = F k
  links : ∀ k < i, (s.d (F k)).next_block = F (k + 1)
  data : ∀ k < i, ∀ t < cfg.DATA_BLOCK_SIZE,
    (s.d (F k)).content.asData t = wbuf (k * cfg.DATA_BLOCK_SIZE + t)
  frame : ∀ r, (∀ k ≤ i, r ≠ F k) → s.d r = d1 r
  inode : s.inode = ⟨FILE_TYPE, 1, F 0, i * cfg.DATA_BLOCK_SIZE⟩
  ref : s.fp.inode_reference = c

/-- The state of `oufs_fwrite` when its loop has ended, under the same reading. -/
structure WritePost (cfg : Config) (d1 : Disk) (F : Nat → Nat) (wbuf : Nat → Nat)
    (n c K : Nat) (s : WriteState) : Prop where
  written : s.len_written = n
  inode : s.inode = ⟨FILE_TYPE, 1, F 0, n⟩
  ref : s.fp.inode_reference = c
  data : ∀ p < n, (s.d (F (p / cfg.DATA_BLOCK_SIZE))).content.asData (p % cfg.DATA_BLOCK_SIZE)
    = wbuf p
  links : ∀ k, (k + 1) * cfg.DATA_BLOCK_SIZE < n → (s.d (F k)).next_block = F (k + 1)
  frame : ∀ r, (∀ k < K, r ≠ F k) → s.d r = d1 r

/-! ## Sample disks -/

/-- The disk that `oufs_format_disk` leaves under `stdConfig`, written out: master
record with inode 0 allocated and the free list 6, 7, ..., 127; inode 0 the
root directory in block 5; every other inode unused with content
`UNALLOCATED_INODE`. -/
def sampleDisk : Disk := fun k =>
  if k = 0 then ⟨65534, CONTENT.master ⟨fun i => if i = 0 then 128 else 0, 6, 127⟩⟩
  else if k = 1 then
    ⟨0, CONTENT.inodes (fun i =>
      if i = 0 then ⟨DIRECTORY_TYPE, 1, 5, 2⟩
      else if i < 31 then ⟨UNUSED_TYPE, 0, 65535, 0⟩ else zeroInode)⟩
  else if k ≤ 4 then
    ⟨0, CONTENT.inodes (fun i => if i < 31 then ⟨UNUSED_TYPE, 0, 65535, 0⟩ else zeroInode)⟩
  else if k = 5 then (oufs_init_directory_structures stdConfig 5 0 0).2
  else if k < 127 then ⟨k + 1, CONTENT.data (fun _ => 0)⟩
  else if k = 127 then ⟨65534, CONTENT.data (fun _ => 0)⟩
  else zeroBlock

/-- The disk that `oufs_format_disk` makes of a zeroed store under `stdConfig`. -/
def formattedDisk : Disk := (oufs_format_disk stdConfig (fun _ => zeroBlock)).2

/-- A name of thirty characters, one more than a directory entry holds under
`stdConfig`. -/
def longName : List Char := List.replicate 30 'a'

/-- The sample disk after `oufs_mkdir` of the path `/` followed by `longName`. -/
def nameDisk : Disk := (oufs_mkdir stdConfig sampleDisk ['/'] ('/' :: longName) []).2

/-- The memory that `malloc` hands to `oufs_fopen` in the examples. -/
def junkFile : OUFILE := ⟨0, 'x', 0, 0, fun _ => 0⟩

/-- The sample disk after `oufs_fopen("/", "f", "w")` has created the file `/f`. -/
def fileDisk : Disk := (oufs_fopen stdConfig sampleDisk ['/'] ['f'] ['w'] junkFile [] 'a').2

/-- The handle that this call returns. -/
def fileHandle : OUFILE :=
  (oufs_fopen stdConfig sampleDisk ['/'] ['f'] ['w'] junkFile [] 'a').1.getD junkFile

/-- The disk `fileDisk` after one byte 1 has been written to `/f` (block 6). -/
def stepDisk1 : Disk :=
  (oufs_fwrite stdConfig fileDisk fileHandle (fun _ => 1) 1 zeroBlock zeroBlock).2.2

/-- Then the file `/g` is created. -/
def stepDisk2 : Disk := (oufs_fopen stdConfig stepDisk1 ['/'] ['g'] ['w'] junkFile [] 'a').2

/-- The handle of `/g`. -/
def stepHandle2 : OUFILE :=
  (oufs_fopen stdConfig stepDisk1 ['/'] ['g'] ['w'] junkFile [] 'a').1.getD junkFile

/-- Then one byte 2 is written to `/g` (block 7). -/
def stepDisk3 : Disk :=
  (oufs_fwrite stdConfig stepDisk2 stepHandle2 (fun _ => 2) 1 zeroBlock zeroBlock).2.2

/-- The handle of `/f` opened for append. -/
def stepHandle3 : OUFILE :=
  (oufs_fopen stdConfig stepDisk3 ['/'] ['f'] ['a'] junkFile [] 'a').1.getD junkFile

/-- Then 300 bytes 3 are appended to `/f`, whose chain becomes block 6, block 8
and whose size becomes 301. -/
def twoFileDisk : Disk :=
  (oufs_fwrite stdConfig stepDisk3 stepHandle3 (fun _ => 3) 300 zeroBlock zeroBlock).2.2

/-- The handle of `/f` on `twoFileDisk`, opened for reading. -/
def readHandle : OUFILE :=
  (oufs_fopen stdConfig twoFileDisk ['/'] ['f'] ['r'] junkFile [] 'a').1.getD junkFile

/-- The sample disk after `oufs_mkdir` of `/a`: the directory is inode 1 with
block 6, entered in slot 2 of the root. -/
def oneDirDisk : Disk := (oufs_mkdir stdConfig sampleDisk ['/'] ['/', 'a'] []).2

/-- Then `oufs_mkdir` of `/a/b`: inode 2 with block 7, entered in slot 2 of
`/a`. -/
def nestedDisk : Disk := (oufs_mkdir stdConfig oneDirDisk ['/'] ['/', 'a', '/', 'b'] []).2

/-- The disk `oneDirDisk` after `oufs_mkdir` of `/b`, `/c` and `/d`: the slots 2 to
5 of the root hold the four directories (inodes 1 to 4, blocks 6 to 9), slot 6
is unallocated and the root has size 6. -/
def fourDirDisk : Disk :=
  (oufs_mkdir stdConfig
    (oufs_mkdir stdConfig
      (oufs_mkdir stdConfig oneDirDisk ['/'] ['/', 'b'] []).2 ['/'] ['/', 'c'] []).2
    ['/'] ['/', 'd'] []).2

/-- The disk `fourDirDisk` after `oufs_fopen("/", "/f", "w")` has created the file
`/f` (inode 5) in slot 6: every slot of the root is allocated and its size is
7, the number of entries of a block. -/
def fullRootDisk : Disk :=
  (oufs_fopen stdConfig fourDirDisk ['/'] ['/', 'f'] ['w'] junkFile [] 'a').2

/-- The disk `stepDisk1` (the file `/f`, inode 1, one byte in block 6) with a
second name for the file: slot 3 of the root holds `h` with the reference 1,
the root has size 4 and inode 1 has two references. -/
def linkedDisk : Disk :=
  let d := stepDisk1
  let d := virtual_disk_write_block d 5
    ((d 5).withDirectory (setAt (d 5).content.asDirectory 3 ⟨['h'], 1⟩))
  let d := oufs_write_inode_by_reference stdConfig d 0
    { oufs_read_inode_by_reference stdConfig d 0 with size := 4 }
  oufs_write_inode_by_reference stdConfig d 1
    { oufs_read_inode_by_reference stdConfig d 1 with n_references := 2 }

/-- The sample disk after `oufs_mkdir` of `/x`, `/x/b`, `/x/a` and `/x/c`, in this
order. -/
def listDisk : Disk :=
  (oufs_mkdir stdConfig
    (oufs_mkdir stdConfig
      (oufs_mkdir stdConfig
        (oufs_mkdir stdConfig sampleDisk ['/'] ['/', 'x'] []).2
        ['/'] ['/', 'x', '/', 'b'] []).2
      ['/'] ['/', 'x', '/', 'a'] []).2
    ['/'] ['/', 'x', '/', 'c'] []).2

/-! ## Notions for the directory operations -/

/-- The allocated entries of a directory block with `n` entries, in the order of
their slots. -/
def valid_entries (cfg : Config) (entry : Nat → DIRECTORY_ENTRY) (n : Nat) :
    List DIRECTORY_ENTRY :=
  ((List.range n).filter
    (fun i => decide ((entry i).inode_reference ≠ cfg.UNALLOCATED_INODE))).map entry

/-- What the C library promises of a call of `qsort`: the array afterwards holds
the elements it held before, each as often, in an order in which no element
compares greater than a later one. -/
def sorted_by {α : Type} (cmp : α → α → Int) (before after : List α) : Prop :=
  after.Perm before ∧ after.Pairwise (fun a b => cmp a b ≤ 0)

/-- A sorting function to stand for `qsort` in the examples: insertion sort by
the comparison. -/
def insertion_qsort (cmp : DIRECTORY_ENTRY → DIRECTORY_ENTRY → Int)
    (l : List DIRECTORY_ENTRY) : List DIRECTORY_ENTRY :=
  l.insertionSort (fun a b => cmp a b ≤ 0)

/-- The bit of inode `r` in the allocation bitmap: bit `7 - r % 8` of byte
`r / 8`. -/
def inode_bit (flag : Nat → Nat) (r : Nat) : Bool := (flag (r / 8)).testBit (7 - r % 8)

/-- The disk that `oufs_rmdir` leaves when it removes the directory of inode
`child` from entry `slot` of the directory of inode `parent`. -/
def removed_disk (cfg : Config) (d : Disk) (parent child slot : Nat) : Disk :=
  let master := d MASTER_BLOCK_REFERENCE
  let c := oufs_read_inode_by_reference cfg d child
  let p := oufs_read_inode_by_reference cfg d parent
  let pb := (d p.content).withDirectory
    (setAt (d p.content).content.asDirectory slot (clearedEntry cfg))
  let master := master.withMaster
    { master.content.asMaster with
      inode_allocated_flag := clear_inode_flag master.content.asMaster.inode_allocated_flag child }
  let r := oufs_deallocate_block cfg d master c.content
  let d1 := oufs_write_inode_by_reference cfg r.2.2 child
    { zeroInode with content := cfg.UNALLOCATED_BLOCK }
  let d2 := virtual_disk_write_block d1 MASTER_BLOCK_REFERENCE r.2.1
  let d3 := virtual_disk_write_block d2 p.content pb
  oufs_write_inode_by_reference cfg d3 parent { p with size := p.size - 1 }

/-- The disk is ready for `oufs_rmdir` of the directory named by `path`.  `pre` and
`cn` are the components of the path, `parent` and `child` the inodes of the
directory that holds the last component and of the directory to remove, `slot`
the entry of the parent that references the child, and `n` the length of the
free list. -/
structure RmdirReady (cfg : Config) (d : Disk) (cwd path : List Char)
    (pre : List (List Char)) (cn : List Char) (parent child slot n : Nat) : Prop where
  /-- The components of the path. -/
  tokens : strtok (full_path cfg cwd path) = pre ++ [cn]
  /-- The directories on the path exist. -/
  resolves : ∀ r ∈ resolve_chain cfg d 0 pre, r ≠ cfg.UNALLOCATED_INODE
  /-- The directory in which the last component is looked up. -/
  parent_eq : parent = (resolve_chain cfg d 0 pre).getLastD 0
  /-- The inode that the path resolves to. -/
  child_eq : child = lookup_component cfg d parent cn
  /-- The path resolves. -/
  found : child ≠ cfg.UNALLOCATED_INODE
  /-- It does not resolve to the root. -/
  not_root : child ≠ 0
  /-- It resolves to a directory. -/
  is_directory : (oufs_read_inode_by_reference cfg d child).type = DIRECTORY_TYPE
  /-- The directory is empty. -/
  is_empty : (oufs_read_inode_by_reference cfg d child).size ≤ 2
  /-- The parent holds more than its own two entries. -/
  parent_size : 2 < (oufs_read_inode_by_reference cfg d parent).size
  /-- The entry of the parent that references the directory. -/
  entry_slot : slot < cfg.N_DIRECTORY_ENTRIES_PER_BLOCK ∧
    (directory_of cfg d parent slot).inode_reference = child
  /-- No other entry of the parent references the directory. -/
  unique_reference : ∀ j < cfg.N_DIRECTORY_ENTRIES_PER_BLOCK, j ≠ slot →
    (directory_of cfg d parent j).inode_reference ≠ child
  /-- No other allocated entry of the parent carries the name of that entry. -/
  unique_name : ∀ j < cfg.N_DIRECTORY_ENTRIES_PER_BLOCK, j ≠ slot →
    (directory_of cfg d parent j).inode_reference ≠ cfg.UNALLOCATED_INODE →
    (directory_of cfg d parent j).name ≠ (directory_of cfg d parent slot).name
  /-- No other directory on the path references the directory from a block
  other than the parent's. -/
  only_parent : ∀ v ∈ 0 :: resolve_chain cfg d 0 pre, v ≠ child →
    (oufs_read_inode_by_reference cfg d v).content
      ≠ (oufs_read_inode_by_reference cfg d parent).content →
    ∀ j < cfg.N_DIRECTORY_ENTRIES_PER_BLOCK, (directory_of cfg d v j).inode_reference ≠ child
  /-- The bytes of the bitmap are bytes. -/
  flag_byte : (d MASTER_BLOCK_REFERENCE).content.asMaster.inode_allocated_flag (child / 8) < 256
  /-- The bit of the directory's inode is set in the bitmap. -/
  bit_set : inode_bit (d MASTER_BLOCK_REFERENCE).content.asMaster.inode_allocated_flag child = true
  /-- The free list holds `n` blocks. -/
  free_blocks : ∀ k < n, free_block d k ≠ cfg.UNALLOCATED_BLOCK
  /-- The free list ends after them. -/
  free_stop : free_block d n = cfg.UNALLOCATED_BLOCK
  /-- The master record names the last of them as the end of the list. -/
  free_end : 0 < n →
    (d MASTER_BLOCK_REFERENCE).content.asMaster.unallocated_end = free_block d (n - 1)
  /-- The block of the directory is not on the free list. -/
  free_not_block : ∀ k < n, free_block d k ≠ (oufs_read_inode_by_reference cfg d child).content
  /-- The master block is not on the free list. -/
  free_not_master : ∀ k < n, free_block d k ≠ MASTER_BLOCK_REFERENCE
  /-- The block of the parent is not on the free list. -/
  free_not_parent : ∀ k < n,
    free_block d k ≠ (oufs_read_inode_by_reference cfg d parent).content
  /-- The block of the directory is not the master block. -/
  block_not_master : (oufs_read_inode_by_reference cfg d child).content ≠ MASTER_BLOCK_REFERENCE
  /-- The block of the directory is not the block of its parent. -/
  block_not_parent : (oufs_read_inode_by_reference cfg d child).content
    ≠ (oufs_read_inode_by_reference cfg d parent).content
  /-- No directory on the path lives in the master block. -/
  directory_not_master : ∀ v ∈ 0 :: resolve_chain cfg d 0 pre,
    (oufs_read_inode_by_reference cfg d v).content ≠ MASTER_BLOCK_REFERENCE
  /-- No directory on the path lives in an inode table block in use. -/
  directory_not_table : ∀ v ∈ 0 :: resolve_chain cfg d 0 pre,
    ∀ u ∈ child :: 0 :: resolve_chain cfg d 0 pre,
    (oufs_read_inode_by_reference cfg d v).content ≠ table_block cfg u

/-! ## Notions for the free list -/

/-- The blocks `fs` are those that following `next_block` from the reference `b`
visits, in this order, before it reaches `UNALLOCATED_BLOCK`. -/
def chain_from (cfg : Config) (d : Disk) : Nat → List Nat → Prop
  | b, [] => b = cfg.UNALLOCATED_BLOCK
  | b, f :: fs => b = f ∧ f ≠ cfg.UNALLOCATED_BLOCK ∧ chain_from cfg d (d f).next_block fs

instance chain_from_decidable (cfg : Config) (d : Disk) :
    (b : Nat) → (fs : List Nat) → Decidable (chain_from cfg d b fs)
  | b, [] => inferInstanceAs (Decidable (b = cfg.UNALLOCATED_BLOCK))
  | b, f :: fs =>
    haveI := chain_from_decidable cfg d (d f).next_block fs
    inferInstanceAs (Decidable (b = f ∧ f ≠ cfg.UNALLOCATED_BLOCK ∧
      chain_from cfg d (d f).next_block fs))

/-- The free list of the master record `m` on the disk `d` is the list `fs`:
the chain from `unallocated_front` visits `fs`, no block twice, and
`unallocated_end` is the last block of a list that is not empty. -/
structure FreeList (cfg : Config) (d : Disk) (m : MASTER) (fs : List Nat) : Prop where
  /-- The chain from `unallocated_front`. -/
  chain : chain_from cfg d m.unallocated_front fs
  /-- No block is on the list twice. -/
  distinct : fs.Nodup
  /-- The end of a list that is not empty. -/
  last : fs ≠ [] → fs.getLast? = some m.unallocated_end

/-- The function `oufs_deallocate_block` called on the blocks of a list in turn, the
master block in memory being handed from call to call. -/
def deallocate_each (cfg : Config) : List Nat → BLOCK × Disk → BLOCK × Disk
  | [], s => s
  | r :: rs, s =>
    deallocate_each cfg rs
      ((oufs_deallocate_block cfg s.2 s.1 r).2.1, (oufs_deallocate_block cfg s.2 s.1 r).2.2)

/-- The function `oufs_allocate_new_block` called `count` times in succession: the
references returned, in the order of the calls, and the master block in
memory afterwards. -/
def allocate_each (cfg : Config) (d : Disk) : Nat → BLOCK → List Nat × BLOCK
  | 0, master_block => ([], master_block)
  | count + 1, master_block =>
    ((oufs_allocate_new_block cfg d master_block).1 ::
        (allocate_each cfg d count (oufs_allocate_new_block cfg d master_block).2).1,
      (allocate_each cfg d count (oufs_allocate_new_block cfg d master_block).2).2)

/-- A call of one of the two block functions. -/
inductive BlockCall where
  | allocate
  | deallocate (block_reference : Nat)

/-- The state between calls of the block functions: the master block in memory,
the disk, the blocks that `oufs_allocate_new_block` has returned and that have not
been given back since, and whether every `oufs_deallocate_block` so far was called
on a block allocated at that time. -/
structure AllocState where
  master_block : BLOCK
  disk : Disk
  allocated : List Nat
  valid : Bool

/-- A sequence of calls of `oufs_allocate_new_block` and `oufs_deallocate_block`. -/
def run_calls (cfg : Config) : List BlockCall → AllocState → AllocState
  | [], s => s
  | BlockCall.allocate :: rest, s =>
    run_calls cfg rest
      { s with
        master_block := (oufs_allocate_new_block cfg s.disk s.master_block).2
        allocated :=
          if (oufs_allocate_new_block cfg s.disk s.master_block).1 = cfg.UNALLOCATED_BLOCK then
            s.allocated
          else (oufs_allocate_new_block cfg s.disk s.master_block).1 :: s.allocated }
  | BlockCall.deallocate r :: rest, s =>
    run_calls cfg rest
      { master_block := (oufs_deallocate_block cfg s.disk s.master_block r).2.1
        disk := (oufs_deallocate_block cfg s.disk s.master_block r).2.2
        allocated := s.allocated.erase r
        valid := s.valid && decide (r ∈ s.allocated) }

/-- The disk `fileDisk` after 25400 bytes, the most a file holds, have been
written to `/f`: its chain is the blocks 6 to 105. -/
def bigFileDisk : Disk :=
  (oufs_fwrite stdConfig fileDisk fileHandle (fun _ => 1) 25400 zeroBlock zeroBlock).2.2

/-- Then the file `/g` is created and 5588 bytes are written to it: its chain is
the blocks 106 to 127, and the free list is empty. -/
def noFreeDisk : Disk :=
  (oufs_fwrite stdConfig
    (oufs_fopen stdConfig bigFileDisk ['/'] ['g'] ['w'] junkFile [] 'a').2
    ((oufs_fopen stdConfig bigFileDisk ['/'] ['g'] ['w'] junkFile [] 'a').1.getD junkFile)
    (fun _ => 2) 5588 zeroBlock zeroBlock).2.2

/-- The state in which calls of the block functions start on a freshly formatted
disk: the master block as read from the disk, and no block allocated. -/
def formatted_state (cfg : Config) (d : Disk) : AllocState :=
  { master_block := (oufs_format_disk cfg d).2 MASTER_BLOCK_REFERENCE
    disk := (oufs_format_disk cfg d).2
    allocated := []
    valid := true }

/-! ## Notions for the invariants -/

/-- The consistency of the inode bitmap with the inode table: for every inode
index below `N_INODES` the bit of the master block is set exactly when the record
of the inode has a type other than `UNUSED_TYPE`, and the bit of inode 0 is
set. -/
def bitmap_consistent (cfg : Config) (d : Disk) : Prop :=
  (∀ i, i < cfg.N_INODES →
    (inode_bit (d MASTER_BLOCK_REFERENCE).content.asMaster.inode_allocated_flag i = true ↔
      (oufs_read_inode_by_reference cfg d i).type ≠ UNUSED_TYPE)) ∧
  inode_bit (d MASTER_BLOCK_REFERENCE).content.asMaster.inode_allocated_flag 0 = true

instance bitmap_consistent_decidable (cfg : Config) (d : Disk) :
    Decidable (bitmap_consistent cfg d) := by
  unfold bitmap_consistent; infer_instance

/-- The number of entries in the directory block of inode `i` whose reference
is not `UNALLOCATED_INODE`. -/
def entry_count (cfg : Config) (d : Disk) (i : Nat) : Nat :=
  (valid_entries cfg (directory_of cfg d i) cfg.N_DIRECTORY_ENTRIES_PER_BLOCK).length

/-- The consistency of the directory sizes: every inode below `N_INODES` of type
directory has as its size the number of allocated entries of its block, and
this size lies between 2 and `N_DIRECTORY_ENTRIES_PER_BLOCK`. -/
def directory_sizes_consistent (cfg : Config) (d : Disk) : Prop :=
  ∀ i, i < cfg.N_INODES →
    (oufs_read_inode_by_reference cfg d i).type = DIRECTORY_TYPE →
      (oufs_read_inode_by_reference cfg d i).size = entry_count cfg d i ∧
      2 ≤ (oufs_read_inode_by_reference cfg d i).size ∧
      (oufs_read_inode_by_reference cfg d i).size ≤ cfg.N_DIRECTORY_ENTRIES_PER_BLOCK

instance directory_sizes_consistent_decidable (cfg : Config) (d : Disk) :
    Decidable (directory_sizes_consistent cfg d) := by
  unfold directory_sizes_consistent; infer_instance

/-- The disk after `oufs_mkdir` has been called for each of the paths in turn, in
the working directory `/`. -/
def mkdir_each (cfg : Config) : List (List Char) → Disk → Disk
  | [], d => d
  | p :: ps, d => mkdir_each cfg ps (oufs_mkdir cfg d ['/'] p []).2

/-- The formatted disk after `oufs_mkdir` of `/a`, `/b`, `/c` and `/d`: the slots 2
to 5 of the root hold the four directories and the root has size 6. -/
def fourMadeDisk : Disk :=
  mkdir_each stdConfig [['/', 'a'], ['/', 'b'], ['/', 'c'], ['/', 'd']] formattedDisk

/-- Then `oufs_mkdir` of `/e`. -/
def fiveMadeDisk : Disk := (oufs_mkdir stdConfig fourMadeDisk ['/'] ['/', 'e'] []).2

/-- The disk `fourMadeDisk` after `oufs_fopen("/", "/f", "w")` has created the file
`/f` in slot 6 of the root, whose size is then 7. -/
def crowdedDisk : Disk :=
  (oufs_fopen stdConfig fourMadeDisk ['/'] ['/', 'f'] ['w'] junkFile [] 'a').2

/-- Then `oufs_mkdir` of `/e`. -/
def overfullDisk : Disk := (oufs_mkdir stdConfig crowdedDisk ['/'] ['/', 'e'] []).2

/-- The step of the examples that creates a file and writes `len` bytes `v` to
it: `oufs_fopen` with mode `w` in the working directory `/`, then `oufs_fwrite` on
the handle returned.  The result is the value of `oufs_fwrite` and the disk. -/
def create_and_write (cfg : Config) (d : Disk) (path : List Char) (v len : Nat) : Int × Disk :=
  let o := oufs_fopen cfg d ['/'] path ['w'] junkFile [] 'a'
  let w := oufs_fwrite cfg o.2 (o.1.getD junkFile) (fun _ => v) len zeroBlock zeroBlock
  (w.1, w.2.2)

/-- The formatted disk after the file `/f` has been created and 25400 bytes
written to it (blocks 6 to 105), and the file `/g` has been created and 5588
bytes written to it (blocks 106 to 127): the free list is empty. -/
def exhaustedDisk : Disk :=
  (create_and_write stdConfig
    (create_and_write stdConfig formattedDisk ['/', 'f'] 1 25400).2 ['/', 'g'] 2 5588).2

/-- Then the file `/h` is created (inode 3) and one byte is written to it: with
no block left, `oufs_fwrite` stores the byte in the block `UNALLOCATED_BLOCK`, which
stays the content of the inode. -/
def lateFileDisk : Disk := (create_and_write stdConfig exhaustedDisk ['/', 'h'] 3 1).2

/-- Then `oufs_mkdir` of `/x`: inode 4, whose block is `UNALLOCATED_BLOCK` again. -/
def lateDirDisk : Disk := (oufs_mkdir stdConfig lateFileDisk ['/'] ['/', 'x'] []).2

/-- Then `oufs_rmdir` of `/x`: inode 4 is free again, and the block
`UNALLOCATED_BLOCK`, still the content of `/h`, keeps the entry `.` of the directory
removed. -/
def lateRemovedDisk : Disk := (oufs_rmdir stdConfig lateDirDisk ['/'] ['/', 'x']).2

/-- Then `oufs_mkdir` of `/h/./y`, whose parent is found to be the free
inode 4. -/
def staleParentDisk : Disk :=
  (oufs_mkdir stdConfig lateRemovedDisk ['/'] ['/', 'h', '/', '.', '/', 'y'] []).2

/-! ## Notions and sample disks for the amended claims -/

/-- The path fits the buffer `full_path` of `oufs_find_file` and the code terminates
it there: `strncpy` copies the terminator of an absolute path only when the
path is shorter than its bound `MAX_PATH_LENGTH - 1`; `strncat` always appends
one behind a relative path. -/
def fits_terminated (cfg : Config) (cwd path : List Char) : Prop :=
  if path.head? = some '/' then path.length + 1 < cfg.MAX_PATH_LENGTH
  else cwd.length + 1 + path.length < cfg.MAX_PATH_LENGTH

instance fits_terminated_decidable (cfg : Config) (cwd path : List Char) :
    Decidable (fits_terminated cfg cwd path) := by
  unfold fits_terminated
  exact inferInstance

/-- The handle of `/f` after the 25400 bytes of `bigFileDisk` have been written
through it: its offset is the ceiling. -/
def bigFileHandle : OUFILE :=
  (oufs_fwrite stdConfig fileDisk fileHandle (fun _ => 1) 25400 zeroBlock zeroBlock).2.1

/-- The disk `twoFileDisk` after `oufs_fopen("/", "f", "w")` on the existing file
`/f`, whose stored size stays 301. -/
def reopenedDisk : Disk := (oufs_fopen stdConfig twoFileDisk ['/'] ['f'] ['w'] junkFile [] 'a').2

/-- The handle that this call returns: inode 1, offset 0. -/
def reopenedHandle : OUFILE :=
  (oufs_fopen stdConfig twoFileDisk ['/'] ['f'] ['w'] junkFile [] 'a').1.getD junkFile

/-- The bitmap `after` differs from the bitmap `before` only in that the bit of
inode `r` is set: that bit is set, the bit of every other inode is as before,
and so is every byte other than byte `r / 8`. -/
def only_bit_set (before after : Nat → Nat) (r : Nat) : Prop :=
  inode_bit after r = true ∧
  (∀ q, q ≠ r → inode_bit after q = inode_bit before q) ∧
  (∀ i, i ≠ r / 8 → after i = before i)

/-- The formatted disk with the bitmap of a file system whose inodes 0 to 119
are allocated: the fifteen bytes that the scan covers are 255, and the
bits of the inodes 120 to 123, in byte 15, are clear. -/
def scannedFullDisk : Disk :=
  virtual_disk_write_block formattedDisk MASTER_BLOCK_REFERENCE
    ((formattedDisk MASTER_BLOCK_REFERENCE).withMaster
      { (formattedDisk MASTER_BLOCK_REFERENCE).content.asMaster with
        inode_allocated_flag := fun i => if i < 15 then 255 else 0 })

/-! # Theorems -/

/-! ## The sample disk is the formatted disk -/

/-- The sample disk agrees with the disk that `oufs_format_disk` produces in all
that the code reads from it: the links of all blocks, all inodes, the entries
of the root directory, the bitmap bytes and the two ends of the free list. -/
theorem sampleDisk_formatted :
    (oufs_format_disk stdConfig (fun _ => zeroBlock)).1 = 0 ∧
    (∀ k < 130, (formattedDisk k).next_block = (sampleDisk k).next_block) ∧
    (∀ i < 124, oufs_read_inode_by_reference stdConfig formattedDisk i
      = oufs_read_inode_by_reference stdConfig sampleDisk i) ∧
    (∀ j < 7, directory_of stdConfig formattedDisk 0 j = directory_of stdConfig sampleDisk 0 j) ∧
    (∀ i < 16, (formattedDisk 0).content.asMaster.inode_allocated_flag i
      = (sampleDisk 0).content.asMaster.inode_allocated_flag i) ∧
    (formattedDisk 0).content.asMaster.unallocated_front
      = (sampleDisk 0).content.asMaster.unallocated_front ∧
    (formattedDisk 0).content.asMaster.unallocated_end
      = (sampleDisk 0).content.asMaster.unallocated_end := by
  set_option maxRecDepth 1000000 in decide

/-! ## Path resolution: lemmas -/

theorem strtokFrom_append_slash (a b cur : List Char) :
    strtokFrom cur (a ++ '/' :: b) = strtokFrom cur a ++ strtok b := by
  induction a generalizing cur with
  | nil =>
    by_cases h : cur = [] <;> simp [strtokFrom, strtok, h]
  | cons c a ih =>
    by_cases hc : c = '/'
    · by_cases h : cur = [] <;> simp [strtokFrom, hc, h, ih, strtok]
    · simp [strtokFrom, hc, ih]

theorem strtok_append_slash (a b : List Char) :
    strtok (a ++ '/' :: b) = strtok a ++ strtok b :=
  strtokFrom_append_slash a b []

theorem strtok_slash (b : List Char) : strtok ('/' :: b) = strtok b := by
  simp [strtok, strtokFrom]

theorem full_path_absolute (cfg : Config) (cwd path : List Char)
    (habs : path.head? = some '/') (hlen : path.length < cfg.MAX_PATH_LENGTH) :
    full_path cfg cwd path = path := by
  unfold full_path
  rw [if_pos habs]
  exact List.take_of_length_le (by omega)

theorem strtok_full_path_relative (cfg : Config) (cwd path : List Char)
    (hrel : path.head? ≠ some '/')
    (hlen : cwd.length + 1 + path.length < cfg.MAX_PATH_LENGTH) :
    strtok (full_path cfg cwd path) =
      (if cwd.length > 1 then strtok cwd else []) ++ strtok path := by
  unfold full_path
  rw [if_neg hrel]
  by_cases h1 : cwd.length > 1
  · rw [if_pos h1, if_pos h1]
    have e1 : cwd.take (cfg.MAX_PATH_LENGTH - 1) = cwd := List.take_of_length_le (by omega)
    simp only [e1]
    have e2 : path.take (cfg.MAX_PATH_LENGTH - 1 - min (cwd ++ ['/']).length cfg.MAX_PATH_LENGTH)
        = path := by
      apply List.take_of_length_le
      simp only [List.length_append, List.length_singleton]
      omega
    rw [e2, List.append_assoc]
    exact strtok_append_slash cwd path
  · rw [if_neg h1, if_neg h1]
    have e2 : path.take (cfg.MAX_PATH_LENGTH - 2) = path := List.take_of_length_le (by omega)
    rw [e2]
    simp [strtok, strtokFrom]

theorem strtok_short_cwd (cwd : List Char) (hcwd : cwd.head? = some '/')
    (h1 : ¬ cwd.length > 1) : strtok cwd = [] := by
  match cwd, hcwd, h1 with
  | [c], hc, _ =>
    simp only [List.head?_cons, Option.some.injEq] at hc
    subst hc
    simp [strtok, strtokFrom]
  | _ :: _ :: _, _, h => simp at h

theorem strtok_full_path (cfg : Config) (cwd path : List Char)
    (hfit : fits_buffer cfg cwd path) :
    strtok (full_path cfg cwd path) =
      (if path.head? = some '/' then []
        else if cwd.length > 1 then strtok cwd else []) ++ strtok path := by
  unfold fits_buffer at hfit
  by_cases habs : path.head? = some '/'
  · rw [if_pos habs] at hfit
    rw [if_pos habs, full_path_absolute cfg cwd path habs hfit]
    rfl
  · rw [if_neg habs] at hfit
    rw [if_neg habs]
    exact strtok_full_path_relative cfg cwd path habs hfit

theorem find_file_loop_ret (cfg : Config) (d : Disk) (ts : List (List Char)) :
    ∀ (gp p c : Nat) (ln : Option (List Char)),
      (find_file_loop cfg d ts gp p c ln).ret = 0 ∨
      (find_file_loop cfg d ts gp p c ln).ret = -1 := by
  induction ts with
  | nil =>
    intro gp p c ln
    simp only [find_file_loop]
    split <;> simp
  | cons t ts ih =>
    intro gp p c ln
    simp only [find_file_loop]
    split
    · split <;> simp
    · exact ih _ _ _ _

theorem resolve_chain_append (cfg : Config) (d : Disk) (pre rest : List (List Char)) :
    ∀ c, resolve_chain cfg d c (pre ++ rest) =
      resolve_chain cfg d c pre ++
        resolve_chain cfg d ((resolve_chain cfg d c pre).getLastD c) rest := by
  induction pre with
  | nil => intro c; rfl
  | cons t pre ih =>
    intro c
    show _ :: resolve_chain cfg d _ (pre ++ rest) = _ :: _ ++ resolve_chain cfg d
      ((lookup_component cfg d c t ::
        resolve_chain cfg d (lookup_component cfg d c t) pre).getLastD c) rest
    rw [ih, List.getLastD_cons]
    rfl

theorem find_file_loop_resolved (cfg : Config) (d : Disk) (pre rest : List (List Char)) :
    ∀ (gp p c : Nat) (ln : Option (List Char)),
      (∀ r ∈ resolve_chain cfg d c pre, r ≠ cfg.UNALLOCATED_INODE) →
      ∃ gp1 p1 ln1, find_file_loop cfg d (pre ++ rest) gp p c ln =
        find_file_loop cfg d rest gp1 p1 ((resolve_chain cfg d c pre).getLastD c) ln1 := by
  induction pre with
  | nil => intro gp p c ln _; exact ⟨gp, p, ln, rfl⟩
  | cons t pre ih =>
    intro gp p c ln h
    have h1 : lookup_component cfg d c t ≠ cfg.UNALLOCATED_INODE :=
      h _ (by simp [resolve_chain])
    have h2 : ∀ r ∈ resolve_chain cfg d (lookup_component cfg d c t) pre,
        r ≠ cfg.UNALLOCATED_INODE := fun r hr => h r (by simp [resolve_chain, hr])
    obtain ⟨gp1, p1, ln1, e⟩ := ih p c (lookup_component cfg d c t)
      (some (truncate_name cfg t)) h2
    refine ⟨gp1, p1, ln1, ?_⟩
    have hstep : find_file_loop cfg d (t :: pre ++ rest) gp p c ln =
        find_file_loop cfg d (pre ++ rest) p c (lookup_component cfg d c t)
          (some (truncate_name cfg t)) := by
      have h1a : oufs_find_directory_element cfg d (oufs_read_inode_by_reference cfg d c)
          (truncate_name cfg t) ≠ cfg.UNALLOCATED_INODE := h1
      simp only [List.cons_append, find_file_loop]
      rw [if_neg h1a]
      rfl
    rw [hstep, e]
    show _ = find_file_loop cfg d rest gp1 p1
      ((lookup_component cfg d c t ::
        resolve_chain cfg d (lookup_component cfg d c t) pre).getLastD c) ln1
    rw [List.getLastD_cons]

theorem find_file_loop_found (cfg : Config) (d : Disk) (pre : List (List Char))
    (cn : List Char) (gp p c : Nat) (ln : Option (List Char))
    (hpre : ∀ r ∈ resolve_chain cfg d c pre, r ≠ cfg.UNALLOCATED_INODE)
    (hcn : lookup_component cfg d ((resolve_chain cfg d c pre).getLastD c) cn
      ≠ cfg.UNALLOCATED_INODE) :
    find_file_loop cfg d (pre ++ [cn]) gp p c ln =
      ⟨0, (resolve_chain cfg d c pre).getLastD c,
        lookup_component cfg d ((resolve_chain cfg d c pre).getLastD c) cn,
        some (truncate_name cfg cn)⟩ := by
  obtain ⟨gp1, p1, ln1, e⟩ :=
    find_file_loop_resolved cfg d pre [cn] gp p c ln hpre
  rw [e]
  have hcn1 : oufs_find_directory_element cfg d
      (oufs_read_inode_by_reference cfg d ((resolve_chain cfg d c pre).getLastD c))
      (truncate_name cfg cn) ≠ cfg.UNALLOCATED_INODE := hcn
  simp only [find_file_loop]
  rw [if_neg hcn1, if_neg hcn1]
  rfl

theorem find_file_loop_missing (cfg : Config) (d : Disk) (pre rest : List (List Char))
    (cm : List Char) (gp p c : Nat) (ln : Option (List Char))
    (hpre : ∀ r ∈ resolve_chain cfg d c pre, r ≠ cfg.UNALLOCATED_INODE)
    (hcm : lookup_component cfg d ((resolve_chain cfg d c pre).getLastD c) cm
      = cfg.UNALLOCATED_INODE) :
    find_file_loop cfg d (pre ++ cm :: rest) gp p c ln =
      ⟨if rest = [] then 0 else -1, (resolve_chain cfg d c pre).getLastD c,
        cfg.UNALLOCATED_INODE, some (truncate_name cfg cm)⟩ := by
  obtain ⟨gp1, p1, ln1, e⟩ :=
    find_file_loop_resolved cfg d pre (cm :: rest) gp p c ln hpre
  rw [e]
  simp only [find_file_loop]
  have hcm1 : oufs_find_directory_element cfg d
      (oufs_read_inode_by_reference cfg d ((resolve_chain cfg d c pre).getLastD c))
      (truncate_name cfg cm) = cfg.UNALLOCATED_INODE := hcm
  rw [if_pos hcm1, hcm1]
  by_cases hr : rest = [] <;> simp [hr]

theorem find_directory_element_from_absent (cfg : Config) (entry : Nat → DIRECTORY_ENTRY)
    (name : List Char) (fuel : Nat) :
    ∀ i, (∀ j, i ≤ j → j < i + fuel →
        (entry j).inode_reference = cfg.UNALLOCATED_INODE ∨ (entry j).name ≠ name) →
      find_directory_element_from cfg entry name fuel i = cfg.UNALLOCATED_INODE := by
  induction fuel with
  | zero => intro i _; rfl
  | succ fuel ih =>
    intro i h
    simp only [find_directory_element_from]
    have hi := h i (Nat.le_refl i) (by omega)
    have hneg : ¬((entry i).inode_reference ≠ cfg.UNALLOCATED_INODE ∧ (entry i).name = name) := by
      rintro ⟨h1, h2⟩
      rcases hi with hi | hi
      · exact h1 hi
      · exact hi h2
    rw [if_neg hneg]
    exact ih (i + 1) (fun j hj1 hj2 => h j (by omega) (by omega))

theorem lookup_component_absent (cfg : Config) (d : Disk) (dir : Nat) (c : List Char)
    (h : ∀ j < cfg.N_DIRECTORY_ENTRIES_PER_BLOCK,
      (directory_of cfg d dir j).inode_reference = cfg.UNALLOCATED_INODE ∨
      (directory_of cfg d dir j).name ≠ truncate_name cfg c) :
    lookup_component cfg d dir c = cfg.UNALLOCATED_INODE := by
  unfold lookup_component oufs_find_directory_element
  exact find_directory_element_from_absent cfg _ _ _ 0
    (fun j _ hj => h j (by omega))

/-! ## Path resolution: the claims -/

/-- C6 (counterexample).  On the sample disk after `mkdir` of a thirty-character
name, the root directory holds the name cut to twenty-nine characters; the
absolute path made of the thirty-character name resolves (status 0, child 1,
parent 0), yet the local name reported is the cut name, not the component. -/
theorem oufs_find_file_resolves_counterexample :
    strtok (full_path stdConfig ['/'] ('/' :: longName)) = [longName] ∧
    directory_of stdConfig nameDisk 0 2 = ⟨List.replicate 29 'a', 1⟩ ∧
    (∀ r ∈ resolve_chain stdConfig nameDisk 0 (strtok (full_path stdConfig ['/'] ('/' :: longName))),
      r ≠ stdConfig.UNALLOCATED_INODE) ∧
    oufs_find_file stdConfig nameDisk ['/'] ('/' :: longName) =
      ⟨0, 0, 1, some (List.replicate 29 'a')⟩ ∧
    (oufs_find_file stdConfig nameDisk ['/'] ('/' :: longName)).local_name ≠ some longName := by
  set_option maxRecDepth 100000 in decide

/-- C6 (amended).  For every path (in particular every absolute path) whose
components, as `oufs_find_file` splits them, all resolve in turn from the root
(each component, cut to the name length, is found in the directory of the
inode found before it): `oufs_find_file` returns 0; with no component, parent
= child = 0; otherwise child is the inode found for the last component,
parent the inode of the directory in which it was looked up (the root when
there is one component), and the local name is the last component cut to
`FILE_NAME_SIZE - 1` characters, which is the component itself when it is
shorter than `FILE_NAME_SIZE`. -/
theorem oufs_find_file_resolves (cfg : Config) (d : Disk) (cwd path : List Char)
    (hres : ∀ r ∈ resolve_chain cfg d 0 (strtok (full_path cfg cwd path)),
      r ≠ cfg.UNALLOCATED_INODE) :
    (strtok (full_path cfg cwd path) = [] →
      oufs_find_file cfg d cwd path = ⟨0, 0, 0, none⟩) ∧
    (∀ pre cn, strtok (full_path cfg cwd path) = pre ++ [cn] →
      oufs_find_file cfg d cwd path =
        ⟨0, (resolve_chain cfg d 0 pre).getLastD 0,
          lookup_component cfg d ((resolve_chain cfg d 0 pre).getLastD 0) cn,
          some (truncate_name cfg cn)⟩ ∧
      (cn.length < cfg.FILE_NAME_SIZE → truncate_name cfg cn = cn)) ∧
    (path.head? = some '/' → path.length < cfg.MAX_PATH_LENGTH →
      strtok (full_path cfg cwd path) = strtok path) := by
  unfold oufs_find_file
  refine ⟨?_, ?_, ?_⟩
  · intro h
    rw [h]
    simp only [find_file_loop]
    split <;> rfl
  · intro pre cn h
    rw [h] at hres ⊢
    refine ⟨?_, ?_⟩
    · have hpre : ∀ r ∈ resolve_chain cfg d 0 pre, r ≠ cfg.UNALLOCATED_INODE := by
        intro r hr
        exact hres r (by rw [resolve_chain_append]; exact List.mem_append_left _ hr)
      have hcn : lookup_component cfg d ((resolve_chain cfg d 0 pre).getLastD 0) cn
          ≠ cfg.UNALLOCATED_INODE := by
        apply hres
        rw [resolve_chain_append]
        apply List.mem_append_right
        simp [resolve_chain]
      exact find_file_loop_found cfg d pre cn 0 0 0 none hpre hcn
    · intro hfit
      unfold truncate_name
      split
      · exact List.take_of_length_le (by omega)
      · rfl
  · intro habs hlen
    rw [full_path_absolute cfg cwd path habs hlen]

/-- C6 (witness): the path `/./..` on the sample disk. -/
theorem oufs_find_file_resolves_witness :
    (strtok (full_path stdConfig [] ['/', '.', '/', '.', '.']) = [] →
      oufs_find_file stdConfig sampleDisk [] ['/', '.', '/', '.', '.'] = ⟨0, 0, 0, none⟩) ∧
    (∀ pre cn, strtok (full_path stdConfig [] ['/', '.', '/', '.', '.']) = pre ++ [cn] →
      oufs_find_file stdConfig sampleDisk [] ['/', '.', '/', '.', '.'] =
        ⟨0, (resolve_chain stdConfig sampleDisk 0 pre).getLastD 0,
          lookup_component stdConfig sampleDisk
            ((resolve_chain stdConfig sampleDisk 0 pre).getLastD 0) cn,
          some (truncate_name stdConfig cn)⟩ ∧
      (cn.length < stdConfig.FILE_NAME_SIZE → truncate_name stdConfig cn = cn)) ∧
    ((['/', '.', '/', '.', '.'] : List Char).head? = some '/' →
      (['/', '.', '/', '.', '.'] : List Char).length < stdConfig.MAX_PATH_LENGTH →
      strtok (full_path stdConfig [] ['/', '.', '/', '.', '.'])
        = strtok ['/', '.', '/', '.', '.']) :=
  oufs_find_file_resolves stdConfig sampleDisk [] ['/', '.', '/', '.', '.'] (by decide)

/-- C7 (counterexample).  On the sample disk the root directory has no
allocated entry named `longName`, the only component of the path; the call
succeeds with child unallocated and parent the root, but the local name
reported is the component cut to twenty-nine characters, not the component. -/
theorem oufs_find_file_missing_last_counterexample :
    strtok (full_path stdConfig ['/'] ('/' :: longName)) = [] ++ [longName] ∧
    (∀ j < stdConfig.N_DIRECTORY_ENTRIES_PER_BLOCK,
      (directory_of stdConfig sampleDisk 0 j).inode_reference = stdConfig.UNALLOCATED_INODE ∨
      (directory_of stdConfig sampleDisk 0 j).name ≠ longName) ∧
    oufs_find_file stdConfig sampleDisk ['/'] ('/' :: longName) =
      ⟨0, 0, stdConfig.UNALLOCATED_INODE, some (List.replicate 29 'a')⟩ ∧
    (oufs_find_file stdConfig sampleDisk ['/'] ('/' :: longName)).local_name ≠ some longName := by
  set_option maxRecDepth 100000 in decide

/-- C7 (amended).  For every path whose components but the last resolve in turn
and whose last component, cut to `FILE_NAME_SIZE - 1` characters, names no
allocated entry of the directory reached: `oufs_find_file` returns 0 with child
= `UNALLOCATED_INODE`, parent = the inode of the directory reached (the root
when there is one component), and local name = the last component cut to
`FILE_NAME_SIZE - 1` characters, which is the component itself when it is
shorter than `FILE_NAME_SIZE`. -/
theorem oufs_find_file_missing_last (cfg : Config) (d : Disk) (cwd path : List Char)
    (pre : List (List Char)) (cn : List Char)
    (htok : strtok (full_path cfg cwd path) = pre ++ [cn])
    (hpre : ∀ r ∈ resolve_chain cfg d 0 pre, r ≠ cfg.UNALLOCATED_INODE)
    (habsent : ∀ j < cfg.N_DIRECTORY_ENTRIES_PER_BLOCK,
      (directory_of cfg d ((resolve_chain cfg d 0 pre).getLastD 0) j).inode_reference
        = cfg.UNALLOCATED_INODE ∨
      (directory_of cfg d ((resolve_chain cfg d 0 pre).getLastD 0) j).name
        ≠ truncate_name cfg cn) :
    oufs_find_file cfg d cwd path =
      ⟨0, (resolve_chain cfg d 0 pre).getLastD 0, cfg.UNALLOCATED_INODE,
        some (truncate_name cfg cn)⟩ ∧
    (cn.length < cfg.FILE_NAME_SIZE → truncate_name cfg cn = cn) := by
  refine ⟨?_, ?_⟩
  · unfold oufs_find_file
    rw [htok]
    have h := find_file_loop_missing cfg d pre [] cn 0 0 0 none hpre
      (lookup_component_absent cfg d _ cn habsent)
    rw [h]
    simp
  · intro hfit
    unfold truncate_name
    split
    · exact List.take_of_length_le (by omega)
    · rfl

/-- C7 (witness): the path `./f` from the working directory `/` on the sample
disk. -/
theorem oufs_find_file_missing_last_witness :
    oufs_find_file stdConfig sampleDisk ['/'] ['.', '/', 'f'] =
      ⟨0, (resolve_chain stdConfig sampleDisk 0 [['.']]).getLastD 0,
        stdConfig.UNALLOCATED_INODE, some (truncate_name stdConfig ['f'])⟩ ∧
    ((['f'] : List Char).length < stdConfig.FILE_NAME_SIZE →
      truncate_name stdConfig ['f'] = ['f']) :=
  oufs_find_file_missing_last stdConfig sampleDisk ['/'] ['.', '/', 'f'] [['.']] ['f']
    (by decide) (by decide) (by decide)

/-- C8.  For every path in which a component that is not the last one is not
found in the directory reached so far (the components before it resolve in
turn, the lookup of this one yields `UNALLOCATED_INODE`, and at least one
component follows), `oufs_find_file` fails: it returns -1, not 0. -/
theorem oufs_find_file_missing_middle (cfg : Config) (d : Disk) (cwd path : List Char)
    (pre post : List (List Char)) (cm : List Char)
    (htok : strtok (full_path cfg cwd path) = pre ++ cm :: post)
    (hpost : post ≠ [])
    (hpre : ∀ r ∈ resolve_chain cfg d 0 pre, r ≠ cfg.UNALLOCATED_INODE)
    (hmissing : lookup_component cfg d ((resolve_chain cfg d 0 pre).getLastD 0) cm
      = cfg.UNALLOCATED_INODE) :
    (oufs_find_file cfg d cwd path).ret = -1 ∧ (oufs_find_file cfg d cwd path).ret ≠ 0 := by
  have h : (oufs_find_file cfg d cwd path).ret = -1 := by
    unfold oufs_find_file
    rw [htok, find_file_loop_missing cfg d pre post cm 0 0 0 none hpre hmissing]
    simp [hpost]
  rw [h]
  exact ⟨rfl, by decide⟩

/-- C8 (witness): the path `/./a/b` on the sample disk, where `a` is missing. -/
theorem oufs_find_file_missing_middle_witness :
    (oufs_find_file stdConfig sampleDisk ['/'] ['/', '.', '/', 'a', '/', 'b']).ret = -1 ∧
    (oufs_find_file stdConfig sampleDisk ['/'] ['/', '.', '/', 'a', '/', 'b']).ret ≠ 0 :=
  oufs_find_file_missing_middle stdConfig sampleDisk ['/'] ['/', '.', '/', 'a', '/', 'b']
    [['.']] [['b']] ['a'] (by decide) (by decide) (by decide) (by decide)

theorem oufs_find_file_tokens (cfg : Config) (d : Disk) (cwd p q : List Char)
    (h : strtok (full_path cfg cwd p) = strtok (full_path cfg cwd q)) :
    oufs_find_file cfg d cwd p = oufs_find_file cfg d cwd q := by
  unfold oufs_find_file
  rw [h]

theorem oufs_find_file_same_components (cfg : Config) (d : Disk) (cwd p q : List Char)
    (hkind : p.head? = some '/' ↔ q.head? = some '/')
    (hp : fits_buffer cfg cwd p) (hq : fits_buffer cfg cwd q)
    (htok : strtok p = strtok q) :
    oufs_find_file cfg d cwd p = oufs_find_file cfg d cwd q := by
  apply oufs_find_file_tokens
  rw [strtok_full_path cfg cwd p hp, strtok_full_path cfg cwd q hq, htok]
  by_cases h : p.head? = some '/'
  · rw [if_pos h, if_pos (hkind.mp h)]
  · rw [if_neg h, if_neg (fun hq1 => h (hkind.mpr hq1))]

theorem fits_buffer_of_terminated (cfg : Config) (cwd path : List Char)
    (h : fits_terminated cfg cwd path) : fits_buffer cfg cwd path := by
  unfold fits_terminated at h
  unfold fits_buffer
  by_cases habs : path.head? = some '/'
  · rw [if_pos habs] at h ⊢; omega
  · rw [if_neg habs] at h ⊢; exact h

/-- C9 (counterexample).  On the disk with the single directory `/a`: (1) with
the working directory `x`, of one character, the relative path `a` is looked up
as `/a` and found, the working directory being dropped, while the path `x/a`
and the path `/x/a` are not found; (2) under the working directory `/a` the
paths `a` and `/a` have the same components and different results; (3) under
the same working directory the empty path leads to `/a`, and the empty path
with a slash appended leads to the root. -/
theorem oufs_find_file_normalises_counterexample :
    (['a'] : List Char).head? ≠ some '/' ∧
    (['x'] : List Char).length + 1 + (['a'] : List Char).length + 1 < stdConfig.MAX_PATH_LENGTH ∧
    oufs_find_file stdConfig oneDirDisk ['x'] ['a'] = ⟨0, 0, 1, some ['a']⟩ ∧
    oufs_find_file stdConfig oneDirDisk ['x'] (['x'] ++ '/' :: ['a'])
      = ⟨-1, 0, stdConfig.UNALLOCATED_INODE, some ['x']⟩ ∧
    oufs_find_file stdConfig oneDirDisk ['x'] ('/' :: (['x'] ++ '/' :: ['a']))
      = ⟨-1, 0, stdConfig.UNALLOCATED_INODE, some ['x']⟩ ∧
    oufs_find_file stdConfig oneDirDisk ['x'] ['a']
      ≠ oufs_find_file stdConfig oneDirDisk ['x'] (['x'] ++ '/' :: ['a']) ∧
    strtok ['a'] = strtok ['/', 'a'] ∧
    oufs_find_file stdConfig oneDirDisk ['/', 'a'] ['a']
      = ⟨0, 1, stdConfig.UNALLOCATED_INODE, some ['a']⟩ ∧
    oufs_find_file stdConfig oneDirDisk ['/', 'a'] ['/', 'a'] = ⟨0, 0, 1, some ['a']⟩ ∧
    oufs_find_file stdConfig oneDirDisk ['/', 'a'] ['a']
      ≠ oufs_find_file stdConfig oneDirDisk ['/', 'a'] ['/', 'a'] ∧
    oufs_find_file stdConfig oneDirDisk ['/', 'a'] [] = ⟨0, 0, 1, some ['a']⟩ ∧
    oufs_find_file stdConfig oneDirDisk ['/', 'a'] ([] ++ ['/']) = ⟨0, 0, 0, none⟩ ∧
    oufs_find_file stdConfig oneDirDisk ['/', 'a'] []
      ≠ oufs_find_file stdConfig oneDirDisk ['/', 'a'] ([] ++ ['/']) := by
  set_option maxRecDepth 100000 in decide

/-- C9 (amended).  Path normalisation.  (1) For a `cwd` that is absolute (it
starts with a slash) or empty and a relative path `p` such that `cwd/p` is
shorter than `MAX_PATH_LENGTH - 1`, `oufs_find_file cwd p` yields the same status,
parent, child and local name as `oufs_find_file` on the absolute path `cwd/p`
(whatever the working directory of that second call).  (2) For two paths of
the same kind (both absolute or both relative to the same `cwd`) that fit the
buffer with their terminator, the result depends only on the sequence of
their non-empty components.  (3) In particular doubling a slash, or appending
a slash to a non-empty path, does not change the result.  (4) In general the
result is a function of the component sequence of the absolute path that the
call builds from `cwd` and the path.  (5) For a `cwd` of more than one
character, absolute or not, and a relative path `p`, `oufs_find_file cwd p` yields
the result of `oufs_find_file` on the absolute path `/cwd/p`. -/
theorem oufs_find_file_normalises (cfg : Config) (d : Disk) :
    (∀ cwd p cwd2 : List Char, cwd = [] ∨ cwd.head? = some '/' → p.head? ≠ some '/' →
      cwd.length + 1 + p.length + 1 < cfg.MAX_PATH_LENGTH →
      oufs_find_file cfg d cwd p = oufs_find_file cfg d cwd2 (cwd ++ '/' :: p)) ∧
    (∀ cwd p q : List Char, (p.head? = some '/' ↔ q.head? = some '/') →
      fits_terminated cfg cwd p → fits_terminated cfg cwd q → strtok p = strtok q →
      oufs_find_file cfg d cwd p = oufs_find_file cfg d cwd q) ∧
    (∀ cwd a b : List Char, fits_terminated cfg cwd (a ++ '/' :: '/' :: b) →
      oufs_find_file cfg d cwd (a ++ '/' :: '/' :: b) =
        oufs_find_file cfg d cwd (a ++ '/' :: b)) ∧
    (∀ cwd a : List Char, a ≠ [] → fits_terminated cfg cwd (a ++ ['/']) →
      oufs_find_file cfg d cwd (a ++ ['/']) = oufs_find_file cfg d cwd a) ∧
    (∀ cwd1 p cwd2 q : List Char,
      strtok (full_path cfg cwd1 p) = strtok (full_path cfg cwd2 q) →
      oufs_find_file cfg d cwd1 p = oufs_find_file cfg d cwd2 q) ∧
    (∀ cwd p cwd2 : List Char, cwd.length > 1 → p.head? ≠ some '/' →
      cwd.length + 1 + p.length + 2 < cfg.MAX_PATH_LENGTH →
      oufs_find_file cfg d cwd p = oufs_find_file cfg d cwd2 ('/' :: (cwd ++ '/' :: p))) := by
  refine ⟨?_, ?_, ?_, ?_, ?_, ?_⟩
  · intro cwd p cwd2 hcwd hrel hlen
    unfold oufs_find_file
    have habs : (cwd ++ '/' :: p).head? = some '/' := by
      cases cwd with
      | nil => rfl
      | cons c cs =>
        rcases hcwd with h | h
        · exact absurd h (List.cons_ne_nil _ _)
        · simpa using h
    have hlen2 : (cwd ++ '/' :: p).length < cfg.MAX_PATH_LENGTH := by
      simp only [List.length_append, List.length_cons]
      omega
    rw [full_path_absolute cfg cwd2 _ habs hlen2,
      strtok_full_path_relative cfg cwd p hrel (by omega), strtok_append_slash]
    by_cases h1 : cwd.length > 1
    · rw [if_pos h1]
    · rw [if_neg h1]
      rcases hcwd with h | h
      · rw [h]; rfl
      · rw [strtok_short_cwd cwd h h1]
  · intro cwd p q hkind hp hq htok
    exact oufs_find_file_same_components cfg d cwd p q hkind
      (fits_buffer_of_terminated cfg cwd p hp) (fits_buffer_of_terminated cfg cwd q hq) htok
  · intro cwd a b hfit
    have hhead : (a ++ '/' :: '/' :: b).head? = (a ++ '/' :: b).head? := by
      cases a <;> rfl
    apply oufs_find_file_same_components cfg d cwd _ _ (by rw [hhead])
      (fits_buffer_of_terminated cfg cwd _ hfit)
    · unfold fits_terminated at hfit
      unfold fits_buffer
      rw [hhead] at hfit
      simp only [List.length_append, List.length_cons] at hfit ⊢
      split
      · rw [if_pos (by assumption)] at hfit; omega
      · rw [if_neg (by assumption)] at hfit; omega
    · rw [strtok_append_slash, strtok_append_slash, strtok_slash]
  · intro cwd a ha hfit
    have hhead : (a ++ ['/']).head? = a.head? := by
      cases a with
      | nil => exact absurd rfl ha
      | cons c cs => rfl
    apply oufs_find_file_same_components cfg d cwd _ _ (by rw [hhead])
      (fits_buffer_of_terminated cfg cwd _ hfit)
    · unfold fits_terminated at hfit
      unfold fits_buffer
      rw [hhead] at hfit
      simp only [List.length_append, List.length_singleton] at hfit
      split
      · rw [if_pos (by assumption)] at hfit; omega
      · rw [if_neg (by assumption)] at hfit; omega
    · rw [strtok_append_slash]
      simp [strtok, strtokFrom]
  · intro cwd1 p cwd2 q h
    unfold oufs_find_file
    rw [h]
  · intro cwd p cwd2 hcwd hrel hlen
    unfold oufs_find_file
    have hlen2 : ('/' :: (cwd ++ '/' :: p)).length < cfg.MAX_PATH_LENGTH := by
      simp only [List.length_append, List.length_cons]
      omega
    rw [full_path_absolute cfg cwd2 ('/' :: (cwd ++ '/' :: p)) rfl hlen2,
      strtok_full_path_relative cfg cwd p hrel (by omega), if_pos hcwd, strtok_slash,
      strtok_append_slash]

/-- C9 (witness): on the disk with the directory `/a`, from the working
directory `/x`: the relative path `a` and the absolute path `/x/a` give the same
result; so do `..//a/` and `../a/`; and so do `/a/` and `/a`.  From the working
directory `xy`, which is not absolute, the relative path `a` gives the result
of the absolute path `/xy/a`. -/
theorem oufs_find_file_normalises_witness :
    oufs_find_file stdConfig oneDirDisk ['/', 'x'] ['a'] =
      oufs_find_file stdConfig oneDirDisk [] (['/', 'x'] ++ '/' :: ['a']) ∧
    oufs_find_file stdConfig oneDirDisk ['/', 'x'] (['.', '.'] ++ '/' :: '/' :: ['a', '/']) =
      oufs_find_file stdConfig oneDirDisk ['/', 'x'] (['.', '.'] ++ '/' :: ['a', '/']) ∧
    oufs_find_file stdConfig oneDirDisk ['/', 'x'] (['/', 'a'] ++ ['/']) =
      oufs_find_file stdConfig oneDirDisk ['/', 'x'] ['/', 'a'] ∧
    oufs_find_file stdConfig oneDirDisk ['x', 'y'] ['a'] =
      oufs_find_file stdConfig oneDirDisk [] ('/' :: (['x', 'y'] ++ '/' :: ['a'])) :=
  ⟨(oufs_find_file_normalises stdConfig oneDirDisk).1 ['/', 'x'] ['a'] []
      (by decide) (by decide) (by decide),
    (oufs_find_file_normalises stdConfig oneDirDisk).2.2.1 ['/', 'x'] ['.', '.'] ['a', '/']
      (by decide),
    (oufs_find_file_normalises stdConfig oneDirDisk).2.2.2.1 ['/', 'x'] ['/', 'a']
      (by decide) (by decide),
    (oufs_find_file_normalises stdConfig oneDirDisk).2.2.2.2.2 ['x', 'y'] ['a'] []
      (by decide) (by decide) (by decide)⟩

/-! ## `oufs_mkdir` -/

theorem oufs_find_file_ret (cfg : Config) (d : Disk) (cwd path : List Char) :
    (oufs_find_file cfg d cwd path).ret = 0 ∨ (oufs_find_file cfg d cwd path).ret = -1 :=
  find_file_loop_ret cfg d _ 0 0 0 none

theorem oufs_mkdir_returns_zero (cfg : Config) (d : Disk) (cwd path uninit_name : List Char) :
    (oufs_mkdir cfg d cwd path uninit_name).1 = 0 := by
  unfold oufs_mkdir
  have h : ¬ (oufs_find_file cfg d cwd path).ret < -1 := by
    rcases oufs_find_file_ret cfg d cwd path with h | h <;> rw [h] <;> decide
  simp only [h, if_false]

/-- C10 (the code at the failing inputs).  On the sample disk, `/a/b` has the
missing intermediate component `a` (the lookup reports -1) and `/.` names an
existing entry of the root; `oufs_mkdir` returns 0 for both and changes the
disk: the first call creates the directory `a` in the root as inode 1, the
second raises the size of the root from 2 to 3 and allocates inode 1. -/
theorem oufs_mkdir_accepts_invalid_paths :
    (oufs_find_file stdConfig sampleDisk ['/'] ['/', 'a', '/', 'b']).ret = -1 ∧
    (oufs_mkdir stdConfig sampleDisk ['/'] ['/', 'a', '/', 'b'] []).1 = 0 ∧
    lookup_component stdConfig sampleDisk 0 ['a'] = stdConfig.UNALLOCATED_INODE ∧
    lookup_component stdConfig
      (oufs_mkdir stdConfig sampleDisk ['/'] ['/', 'a', '/', 'b'] []).2 0 ['a'] = 1 ∧
    (oufs_find_file stdConfig sampleDisk ['/'] ['/', '.']).child = 0 ∧
    (oufs_mkdir stdConfig sampleDisk ['/'] ['/', '.'] []).1 = 0 ∧
    (oufs_read_inode_by_reference stdConfig sampleDisk 0).size = 2 ∧
    (oufs_read_inode_by_reference stdConfig
      (oufs_mkdir stdConfig sampleDisk ['/'] ['/', '.'] []).2 0).size = 3 ∧
    (sampleDisk 0).content.asMaster.inode_allocated_flag 0 = 128 ∧
    ((oufs_mkdir stdConfig sampleDisk ['/'] ['/', '.'] []).2 0).content.asMaster.inode_allocated_flag 0
      = 192 := by
  set_option maxRecDepth 100000 in decide

/-! ## `oufs_fwrite`: how many bytes are written -/

theorem fwrite_link_count (cfg : Config) (i : Nat) (s : WriteState) :
    (fwrite_link cfg i s).count = s.count := rfl

theorem fwrite_fill_count (cfg : Config) (buf : Nat → Nat) (s : WriteState) :
    (fwrite_fill cfg buf s).count =
      { s.count with
        len_written := s.len_written + (cfg.DATA_BLOCK_SIZE - s.fp.offset % cfg.DATA_BLOCK_SIZE)
        len_left := s.len_left - (cfg.DATA_BLOCK_SIZE - s.fp.offset % cfg.DATA_BLOCK_SIZE)
        offset := s.fp.offset + (cfg.DATA_BLOCK_SIZE - s.fp.offset % cfg.DATA_BLOCK_SIZE)
        size := s.inode.size + (cfg.DATA_BLOCK_SIZE - s.fp.offset % cfg.DATA_BLOCK_SIZE) } := rfl

theorem fwrite_last_count (cfg : Config) (buf : Nat → Nat) (s : WriteState) :
    (fwrite_last cfg buf s).count =
      { s.count with
        len_written := s.len_written + s.len_left
        len_left := 0
        offset := s.fp.offset + s.len_left
        size := s.inode.size + s.len_left } := rfl

theorem offset_aligned_after_fill (D off : Nat) (hD : 0 < D) : (off + (D - off % D)) % D = 0 := by
  have h1 : off % D < D := Nat.mod_lt _ hD
  have h2 : off % D + D * (off / D) = off := Nat.mod_add_div off D
  have h3 : off + (D - off % D) = D * (off / D + 1) := by
    rw [Nat.mul_add, Nat.mul_one]
    omega
  rw [h3]
  exact Nat.mul_mod_right _ _

/-- The loop of `oufs_fwrite` writes as much of `len_left` as the blocks from
index `i` on can take. -/
theorem fwrite_loop_count (cfg : Config) (buf : Nat → Nat) (hD : 0 < cfg.DATA_BLOCK_SIZE) :
    ∀ (fuel i : Nat) (s : WriteState) (k : Nat),
      k = min s.len_left (fuel * cfg.DATA_BLOCK_SIZE - s.fp.offset % cfg.DATA_BLOCK_SIZE) →
      (fwrite_loop cfg buf fuel i s).len_written = s.len_written + k ∧
      (fwrite_loop cfg buf fuel i s).fp.offset = s.fp.offset + k ∧
      (fwrite_loop cfg buf fuel i s).inode.size = s.inode.size + k ∧
      (fwrite_loop cfg buf fuel i s).fp.inode_reference = s.fp.inode_reference ∧
      (fwrite_loop cfg buf fuel i s).inode.type = s.inode.type := by
  intro fuel
  induction fuel with
  | zero =>
    intro i s k hk
    have : k = 0 := by rw [hk]; simp
    subst this
    simp [fwrite_loop]
  | succ fuel ih =>
    intro i s k hk
    have hmod : s.fp.offset % cfg.DATA_BLOCK_SIZE < cfg.DATA_BLOCK_SIZE := Nat.mod_lt _ hD
    have hmul : (fuel + 1) * cfg.DATA_BLOCK_SIZE = fuel * cfg.DATA_BLOCK_SIZE + cfg.DATA_BLOCK_SIZE :=
      Nat.succ_mul _ _
    simp only [fwrite_loop]
    by_cases hc : s.len_left > cfg.DATA_BLOCK_SIZE - s.fp.offset % cfg.DATA_BLOCK_SIZE
    · rw [if_pos hc]
      have hfill := fwrite_fill_count cfg buf s
      have hal := offset_aligned_after_fill cfg.DATA_BLOCK_SIZE s.fp.offset hD
      have key : ∀ s1 : WriteState, s1.count = (fwrite_fill cfg buf s).count →
          (fwrite_loop cfg buf fuel (i + 1) s1).len_written = s.len_written + k ∧
          (fwrite_loop cfg buf fuel (i + 1) s1).fp.offset = s.fp.offset + k ∧
          (fwrite_loop cfg buf fuel (i + 1) s1).inode.size = s.inode.size + k ∧
          (fwrite_loop cfg buf fuel (i + 1) s1).fp.inode_reference = s.fp.inode_reference ∧
          (fwrite_loop cfg buf fuel (i + 1) s1).inode.type = s.inode.type := by
        intro s1 hs1
        rw [hfill] at hs1
        simp only [WriteState.count, WriteCount.mk.injEq] at hs1
        obtain ⟨e1, e2, e3, e4, e5, e6⟩ := hs1
        have hoff : s1.fp.offset % cfg.DATA_BLOCK_SIZE = 0 := by rw [e3]; exact hal
        obtain ⟨r1, r2, r3, r4, r5⟩ := ih (i + 1) s1
          (min s1.len_left (fuel * cfg.DATA_BLOCK_SIZE - s1.fp.offset % cfg.DATA_BLOCK_SIZE)) rfl
        rw [r1, r2, r3, r4, r5, hoff, e1, e2, e3, e4, e5, e6, hk]
        refine ⟨?_, ?_, ?_, rfl, rfl⟩ <;> omega
      by_cases hi : i ≠ cfg.MAX_BLOCKS_IN_FILE - 1
      · rw [if_pos hi]
        exact key _ (fwrite_link_count cfg i _)
      · rw [if_neg hi]
        exact key _ rfl
    · rw [if_neg hc]
      have hk2 : k = s.len_left := by rw [hk]; omega
      subst hk2
      simp [fwrite_last]

theorem fwrite_init_count (cfg : Config) (d : Disk) (fp : OUFILE) (inode : INODE) (len : Nat)
    (ub ubB : BLOCK) :
    (fwrite_init cfg d fp inode len ub ubB).count =
      ⟨0, len, fp.offset, inode.size, fp.inode_reference, inode.type⟩ := by
  unfold fwrite_init
  simp only []
  split
  · rfl
  · split <;> rfl

theorem read_inode_after_write (cfg : Config) (d : Disk) (i : Nat) (inode : INODE) :
    oufs_read_inode_by_reference cfg (oufs_write_inode_by_reference cfg d i inode) i = inode := by
  simp [oufs_read_inode_by_reference, oufs_write_inode_by_reference, virtual_disk_read_block,
    virtual_disk_write_block, CONTENT.asInodes, setAt]

theorem capacity_from_offset (D M off : Nat) (hD : 0 < D) (h : off < D * M) :
    (M - off / D) * D - off % D = D * M - off := by
  have h1 : off % D < D := Nat.mod_lt _ hD
  have h2 : off % D + D * (off / D) = off := Nat.mod_add_div off D
  have h3 : off / D < M := by
    rw [Nat.div_lt_iff_lt_mul hD, Nat.mul_comm]; exact h
  have h4 : (M - off / D) * D = D * M - D * (off / D) := by
    rw [Nat.sub_mul, Nat.mul_comm M D, Nat.mul_comm (off / D) D]
  have h5 : D * (off / D) + D ≤ D * M := by
    have : D * (off / D + 1) ≤ D * M := Nat.mul_le_mul_left D h3
    rw [Nat.mul_add, Nat.mul_one] at this
    exact this
  rw [h4]
  omega

/-- The value `oufs_fwrite` returns, the offset it leaves in the handle and the size
it leaves in the inode on disk, for a handle on a file inode whose size equals
the handle's offset. -/
theorem oufs_fwrite_result (cfg : Config) (d : Disk) (fp : OUFILE) (buf : Nat → Nat) (len : Nat)
    (ub ubB : BLOCK) (hD : 0 < cfg.DATA_BLOCK_SIZE) (hmode : fp.mode ≠ 'r')
    (htype : (oufs_read_inode_by_reference cfg d fp.inode_reference).type = FILE_TYPE)
    (hsize : (oufs_read_inode_by_reference cfg d fp.inode_reference).size = fp.offset)
    (hmax : fp.offset ≤ cfg.DATA_BLOCK_SIZE * cfg.MAX_BLOCKS_IN_FILE) :
    (oufs_fwrite cfg d fp buf len ub ubB).1 =
      ((min len (cfg.DATA_BLOCK_SIZE * cfg.MAX_BLOCKS_IN_FILE - fp.offset) : Nat) : Int) ∧
    (oufs_fwrite cfg d fp buf len ub ubB).2.1.offset =
      fp.offset + min len (cfg.DATA_BLOCK_SIZE * cfg.MAX_BLOCKS_IN_FILE - fp.offset) ∧
    (oufs_read_inode_by_reference cfg (oufs_fwrite cfg d fp buf len ub ubB).2.2
      fp.inode_reference).size =
      fp.offset + min len (cfg.DATA_BLOCK_SIZE * cfg.MAX_BLOCKS_IN_FILE - fp.offset) := by
  unfold oufs_fwrite
  rw [if_neg hmode]
  simp only []
  rw [if_neg (by rw [htype]; exact fun h => h rfl)]
  by_cases hfull : (oufs_read_inode_by_reference cfg d fp.inode_reference).size
      = cfg.DATA_BLOCK_SIZE * cfg.MAX_BLOCKS_IN_FILE
  · rw [if_pos hfull]
    rw [hsize] at hfull
    have e : min len (cfg.DATA_BLOCK_SIZE * cfg.MAX_BLOCKS_IN_FILE - fp.offset) = 0 := by
      rw [hfull]; simp
    rw [e]
    exact ⟨rfl, rfl, hsize⟩
  · rw [if_neg hfull]
    rw [hsize] at hfull
    have hlt : fp.offset < cfg.DATA_BLOCK_SIZE * cfg.MAX_BLOCKS_IN_FILE := by omega
    have hc := fwrite_init_count cfg d fp (oufs_read_inode_by_reference cfg d fp.inode_reference)
      len ub ubB
    simp only [WriteState.count, WriteCount.mk.injEq] at hc
    obtain ⟨c1, c2, c3, c4, c5, c6⟩ := hc
    obtain ⟨r1, r2, r3, r4, _⟩ := fwrite_loop_count cfg buf hD
      (cfg.MAX_BLOCKS_IN_FILE - fp.offset / cfg.DATA_BLOCK_SIZE) (fp.offset / cfg.DATA_BLOCK_SIZE)
      (fwrite_init cfg d fp (oufs_read_inode_by_reference cfg d fp.inode_reference) len ub ubB)
      _ rfl
    rw [c1, c2, c3, capacity_from_offset _ _ _ hD hlt] at r1
    rw [c2, c3, capacity_from_offset _ _ _ hD hlt] at r2
    rw [c2, c3, c4, hsize, capacity_from_offset _ _ _ hD hlt] at r3
    rw [c5] at r4
    simp only []
    refine ⟨?_, ?_, ?_⟩
    · rw [r1, Nat.zero_add]
    · exact r2
    · rw [r4, read_inode_after_write, r3]

theorem capacity_from_any_offset (D M off : Nat) (hD : 0 < D) :
    (M - off / D) * D - off % D = D * M - off := by
  by_cases h : off < D * M
  · exact capacity_from_offset D M off hD h
  · have h1 : M ≤ off / D := by
      rw [Nat.le_div_iff_mul_le hD, Nat.mul_comm]
      omega
    have h2 : M - off / D = 0 := by omega
    rw [h2, Nat.zero_mul]
    omega

/-- The value `oufs_fwrite` returns, the offset it leaves in the handle and the size
it leaves in the inode on disk, for a handle on a file inode whose stored size
is not the ceiling: the count is what fits behind the handle's offset. -/
theorem oufs_fwrite_count (cfg : Config) (d : Disk) (fp : OUFILE) (buf : Nat → Nat) (len : Nat)
    (ub ubB : BLOCK) (hD : 0 < cfg.DATA_BLOCK_SIZE) (hmode : fp.mode ≠ 'r')
    (htype : (oufs_read_inode_by_reference cfg d fp.inode_reference).type = FILE_TYPE)
    (hbelow : (oufs_read_inode_by_reference cfg d fp.inode_reference).size
      ≠ cfg.DATA_BLOCK_SIZE * cfg.MAX_BLOCKS_IN_FILE) :
    (oufs_fwrite cfg d fp buf len ub ubB).1 =
      ((min len (cfg.DATA_BLOCK_SIZE * cfg.MAX_BLOCKS_IN_FILE - fp.offset) : Nat) : Int) ∧
    (oufs_fwrite cfg d fp buf len ub ubB).2.1.offset =
      fp.offset + min len (cfg.DATA_BLOCK_SIZE * cfg.MAX_BLOCKS_IN_FILE - fp.offset) ∧
    (oufs_read_inode_by_reference cfg (oufs_fwrite cfg d fp buf len ub ubB).2.2
      fp.inode_reference).size =
      (oufs_read_inode_by_reference cfg d fp.inode_reference).size
        + min len (cfg.DATA_BLOCK_SIZE * cfg.MAX_BLOCKS_IN_FILE - fp.offset) := by
  unfold oufs_fwrite
  rw [if_neg hmode]
  simp only []
  rw [if_neg (by rw [htype]; exact fun h => h rfl), if_neg hbelow]
  have hc := fwrite_init_count cfg d fp (oufs_read_inode_by_reference cfg d fp.inode_reference)
    len ub ubB
  simp only [WriteState.count, WriteCount.mk.injEq] at hc
  obtain ⟨c1, c2, c3, c4, c5, c6⟩ := hc
  obtain ⟨r1, r2, r3, r4, _⟩ := fwrite_loop_count cfg buf hD
    (cfg.MAX_BLOCKS_IN_FILE - fp.offset / cfg.DATA_BLOCK_SIZE) (fp.offset / cfg.DATA_BLOCK_SIZE)
    (fwrite_init cfg d fp (oufs_read_inode_by_reference cfg d fp.inode_reference) len ub ubB)
    _ rfl
  rw [c1, c2, c3, capacity_from_any_offset _ _ _ hD] at r1
  rw [c2, c3, capacity_from_any_offset _ _ _ hD] at r2
  rw [c2, c3, c4, capacity_from_any_offset _ _ _ hD] at r3
  rw [c5] at r4
  simp only []
  refine ⟨?_, ?_, ?_⟩
  · rw [r1, Nat.zero_add]
  · exact r2
  · rw [r4, read_inode_after_write, r3]

/-- C2.  For a handle opened for write or append on a file inode whose size on
disk equals the handle's offset `s` (at most the ceiling
`DATA_BLOCK_SIZE * MAX_BLOCKS_IN_FILE`), and every `len`: `oufs_fwrite` returns
`n = min len (ceiling - s)`, the handle's offset afterwards is `s + n`, and so
is the size of the inode read back from the disk. -/
theorem oufs_fwrite_advances (cfg : Config) (d : Disk) (fp : OUFILE) (buf : Nat → Nat)
    (len s : Nat) (uninit_block uninit_bufB : BLOCK)
    (hD : 0 < cfg.DATA_BLOCK_SIZE) (hmode : fp.mode = 'w' ∨ fp.mode = 'a')
    (htype : (oufs_read_inode_by_reference cfg d fp.inode_reference).type = FILE_TYPE)
    (hoff : fp.offset = s)
    (hsize : (oufs_read_inode_by_reference cfg d fp.inode_reference).size = s)
    (hmax : s ≤ cfg.DATA_BLOCK_SIZE * cfg.MAX_BLOCKS_IN_FILE) :
    (oufs_fwrite cfg d fp buf len uninit_block uninit_bufB).1 =
      ((min len (cfg.DATA_BLOCK_SIZE * cfg.MAX_BLOCKS_IN_FILE - s) : Nat) : Int) ∧
    (oufs_fwrite cfg d fp buf len uninit_block uninit_bufB).2.1.offset =
      s + min len (cfg.DATA_BLOCK_SIZE * cfg.MAX_BLOCKS_IN_FILE - s) ∧
    (oufs_read_inode_by_reference cfg
      (oufs_fwrite cfg d fp buf len uninit_block uninit_bufB).2.2 fp.inode_reference).size =
      s + min len (cfg.DATA_BLOCK_SIZE * cfg.MAX_BLOCKS_IN_FILE - s) := by
  subst hoff
  have hm : fp.mode ≠ 'r' := by
    rcases hmode with h | h <;> rw [h] <;> decide
  exact oufs_fwrite_result cfg d fp buf len uninit_block uninit_bufB hD hm htype hsize hmax

/-- C2 (witness): 300 bytes written to the new file `/f` of the sample disk. -/
theorem oufs_fwrite_advances_witness :
    (oufs_fwrite stdConfig fileDisk fileHandle (fun _ => 1) 300 zeroBlock zeroBlock).1 =
      ((min 300 (stdConfig.DATA_BLOCK_SIZE * stdConfig.MAX_BLOCKS_IN_FILE - 0) : Nat) : Int) ∧
    (oufs_fwrite stdConfig fileDisk fileHandle (fun _ => 1) 300 zeroBlock zeroBlock).2.1.offset =
      0 + min 300 (stdConfig.DATA_BLOCK_SIZE * stdConfig.MAX_BLOCKS_IN_FILE - 0) ∧
    (oufs_read_inode_by_reference stdConfig
      (oufs_fwrite stdConfig fileDisk fileHandle (fun _ => 1) 300 zeroBlock zeroBlock).2.2
      fileHandle.inode_reference).size =
      0 + min 300 (stdConfig.DATA_BLOCK_SIZE * stdConfig.MAX_BLOCKS_IN_FILE - 0) :=
  oufs_fwrite_advances stdConfig fileDisk fileHandle (fun _ => 1) 300 0 zeroBlock zeroBlock
    (by decide) (by decide) (by decide) (by decide) (by decide) (by decide)

/-- C3 (counterexample).  The new file `/f` of the sample disk is empty; a call
with one byte more than the ceiling of 25400 bytes would take it beyond the
ceiling, and returns 25400, not 0.  On `stepDisk3` the file `/f` holds one byte
in block 6, its last valid block; 25400 bytes 9 offered through the handle
opened for append (offset 1) would take it beyond the ceiling: the call
returns 25399, and block 6 afterwards holds the byte 9 at position 1, where it
held 0, behind the byte it had. -/
theorem oufs_fwrite_at_ceiling_counterexample :
    (oufs_read_inode_by_reference stdConfig fileDisk fileHandle.inode_reference).size + 25401
      > stdConfig.DATA_BLOCK_SIZE * stdConfig.MAX_BLOCKS_IN_FILE ∧
    (oufs_fwrite stdConfig fileDisk fileHandle (fun _ => 1) 25401 zeroBlock zeroBlock).1 = 25400 ∧
    (oufs_fwrite stdConfig fileDisk fileHandle (fun _ => 1) 25401 zeroBlock zeroBlock).1 ≠ 0 ∧
    oufs_read_inode_by_reference stdConfig stepDisk3 1 = ⟨FILE_TYPE, 1, 6, 1⟩ ∧
    (stepHandle3.inode_reference, stepHandle3.offset, stepHandle3.mode) = (1, 1, 'a') ∧
    (oufs_read_inode_by_reference stdConfig stepDisk3 1).size + 25400
      > stdConfig.DATA_BLOCK_SIZE * stdConfig.MAX_BLOCKS_IN_FILE ∧
    (oufs_fwrite stdConfig stepDisk3 stepHandle3 (fun _ => 9) 25400 zeroBlock zeroBlock).1 = 25399 ∧
    (stepDisk3 6).content.asData 0 = 1 ∧
    (stepDisk3 6).content.asData 1 = 0 ∧
    ((oufs_fwrite stdConfig stepDisk3 stepHandle3 (fun _ => 9) 25400 zeroBlock zeroBlock).2.2
      6).content.asData 0 = 1 ∧
    ((oufs_fwrite stdConfig stepDisk3 stepHandle3 (fun _ => 9) 25400 zeroBlock zeroBlock).2.2
      6).content.asData 1 = 9 := by
  have h := (oufs_fwrite_result stdConfig fileDisk fileHandle (fun _ => 1) 25401 zeroBlock
    zeroBlock (by decide) (by decide) (by decide) (by decide) (by decide)).1
  have e : (oufs_fwrite stdConfig fileDisk fileHandle (fun _ => 1) 25401 zeroBlock zeroBlock).1
      = 25400 := by
    rw [h]; decide
  refine ⟨by decide, e, ?_, ?_⟩
  · rw [e]; decide
  · set_option maxRecDepth 1000000 in decide!

/-- C3 (amended).  For a call of `oufs_fwrite`, on a handle not opened for reading
whose inode is a file, that would take the file beyond the ceiling
(`size + len > DATA_BLOCK_SIZE * MAX_BLOCKS_IN_FILE`).  (1) When the stored size
is the ceiling the call returns 0 and leaves the disk, hence every block of
the file, and the handle as they were.  (2) When the stored size is not the
ceiling the call returns `min len (ceiling - offset)`, the number of bytes
between the handle's offset and the ceiling that `len` covers, and adds it to
the offset and to the stored size.  (3) When the stored size is below the
ceiling and the handle's offset equals it, this number is `ceiling - size`,
which is not 0, and the offset and the stored size become the ceiling. -/
theorem oufs_fwrite_at_ceiling (cfg : Config) (d : Disk) (fp : OUFILE) (buf : Nat → Nat)
    (len : Nat) (uninit_block uninit_bufB : BLOCK)
    (hD : 0 < cfg.DATA_BLOCK_SIZE) (hmode : fp.mode ≠ 'r')
    (htype : (oufs_read_inode_by_reference cfg d fp.inode_reference).type = FILE_TYPE)
    (hover : (oufs_read_inode_by_reference cfg d fp.inode_reference).size + len
      > cfg.DATA_BLOCK_SIZE * cfg.MAX_BLOCKS_IN_FILE) :
    ((oufs_read_inode_by_reference cfg d fp.inode_reference).size
        = cfg.DATA_BLOCK_SIZE * cfg.MAX_BLOCKS_IN_FILE →
      oufs_fwrite cfg d fp buf len uninit_block uninit_bufB = (0, fp, d)) ∧
    ((oufs_read_inode_by_reference cfg d fp.inode_reference).size
        ≠ cfg.DATA_BLOCK_SIZE * cfg.MAX_BLOCKS_IN_FILE →
      (oufs_fwrite cfg d fp buf len uninit_block uninit_bufB).1 =
        ((min len (cfg.DATA_BLOCK_SIZE * cfg.MAX_BLOCKS_IN_FILE - fp.offset) : Nat) : Int) ∧
      (oufs_fwrite cfg d fp buf len uninit_block uninit_bufB).2.1.offset =
        fp.offset + min len (cfg.DATA_BLOCK_SIZE * cfg.MAX_BLOCKS_IN_FILE - fp.offset) ∧
      (oufs_read_inode_by_reference cfg
        (oufs_fwrite cfg d fp buf len uninit_block uninit_bufB).2.2 fp.inode_reference).size =
        (oufs_read_inode_by_reference cfg d fp.inode_reference).size
          + min len (cfg.DATA_BLOCK_SIZE * cfg.MAX_BLOCKS_IN_FILE - fp.offset)) ∧
    ((oufs_read_inode_by_reference cfg d fp.inode_reference).size
        < cfg.DATA_BLOCK_SIZE * cfg.MAX_BLOCKS_IN_FILE →
      fp.offset = (oufs_read_inode_by_reference cfg d fp.inode_reference).size →
      (oufs_fwrite cfg d fp buf len uninit_block uninit_bufB).1 =
        ((cfg.DATA_BLOCK_SIZE * cfg.MAX_BLOCKS_IN_FILE
          - (oufs_read_inode_by_reference cfg d fp.inode_reference).size : Nat) : Int) ∧
      (oufs_fwrite cfg d fp buf len uninit_block uninit_bufB).1 ≠ 0 ∧
      (oufs_fwrite cfg d fp buf len uninit_block uninit_bufB).2.1.offset =
        cfg.DATA_BLOCK_SIZE * cfg.MAX_BLOCKS_IN_FILE ∧
      (oufs_read_inode_by_reference cfg
        (oufs_fwrite cfg d fp buf len uninit_block uninit_bufB).2.2 fp.inode_reference).size =
        cfg.DATA_BLOCK_SIZE * cfg.MAX_BLOCKS_IN_FILE) := by
  refine ⟨?_, ?_, ?_⟩
  · intro hfull
    unfold oufs_fwrite
    rw [if_neg hmode]
    simp only []
    rw [if_neg (by rw [htype]; exact fun h => h rfl), if_pos hfull]
  · intro hne
    exact oufs_fwrite_count cfg d fp buf len uninit_block uninit_bufB hD hmode htype hne
  · intro hlt hoff
    obtain ⟨h1, h2, h3⟩ := oufs_fwrite_count cfg d fp buf len uninit_block uninit_bufB hD hmode
      htype (Nat.ne_of_lt hlt)
    have hmin : min len (cfg.DATA_BLOCK_SIZE * cfg.MAX_BLOCKS_IN_FILE - fp.offset)
        = cfg.DATA_BLOCK_SIZE * cfg.MAX_BLOCKS_IN_FILE
          - (oufs_read_inode_by_reference cfg d fp.inode_reference).size := by
      rw [hoff]; omega
    rw [hmin] at h1 h2 h3
    refine ⟨h1, ?_, ?_, ?_⟩
    · rw [h1]
      intro h0
      have : cfg.DATA_BLOCK_SIZE * cfg.MAX_BLOCKS_IN_FILE
          - (oufs_read_inode_by_reference cfg d fp.inode_reference).size = 0 := by
        exact_mod_cast h0
      omega
    · rw [h2, hoff]; omega
    · rw [h3]; omega

/-- C3 (witness).  One byte offered to the file `/f` of `bigFileDisk`, which is
at the ceiling: nothing changes.  25401 bytes offered to the empty file `/f` of
the sample disk: 25400 are written.  25200 bytes offered through the handle
that `oufs_fopen` in mode `w` returns for the existing file `/f` of 301 bytes
(offset 0, stored size 301): all 25200 are written. -/
theorem oufs_fwrite_at_ceiling_witness :
    oufs_fwrite stdConfig bigFileDisk bigFileHandle (fun _ => 1) 1 zeroBlock zeroBlock
      = (0, bigFileHandle, bigFileDisk) ∧
    ((oufs_fwrite stdConfig fileDisk fileHandle (fun _ => 1) 25401 zeroBlock zeroBlock).1 =
        ((stdConfig.DATA_BLOCK_SIZE * stdConfig.MAX_BLOCKS_IN_FILE
          - (oufs_read_inode_by_reference stdConfig fileDisk fileHandle.inode_reference).size
            : Nat) : Int) ∧
      (oufs_fwrite stdConfig fileDisk fileHandle (fun _ => 1) 25401 zeroBlock zeroBlock).1 ≠ 0 ∧
      (oufs_fwrite stdConfig fileDisk fileHandle (fun _ => 1) 25401 zeroBlock zeroBlock).2.1.offset
        = stdConfig.DATA_BLOCK_SIZE * stdConfig.MAX_BLOCKS_IN_FILE ∧
      (oufs_read_inode_by_reference stdConfig
        (oufs_fwrite stdConfig fileDisk fileHandle (fun _ => 1) 25401 zeroBlock zeroBlock).2.2
        fileHandle.inode_reference).size
        = stdConfig.DATA_BLOCK_SIZE * stdConfig.MAX_BLOCKS_IN_FILE) ∧
    ((oufs_fwrite stdConfig reopenedDisk reopenedHandle (fun _ => 4) 25200 zeroBlock zeroBlock).1 =
        ((min 25200 (stdConfig.DATA_BLOCK_SIZE * stdConfig.MAX_BLOCKS_IN_FILE
          - reopenedHandle.offset) : Nat) : Int) ∧
      (oufs_fwrite stdConfig reopenedDisk reopenedHandle (fun _ => 4) 25200 zeroBlock
        zeroBlock).2.1.offset =
        reopenedHandle.offset + min 25200 (stdConfig.DATA_BLOCK_SIZE * stdConfig.MAX_BLOCKS_IN_FILE
          - reopenedHandle.offset) ∧
      (oufs_read_inode_by_reference stdConfig
        (oufs_fwrite stdConfig reopenedDisk reopenedHandle (fun _ => 4) 25200 zeroBlock
          zeroBlock).2.2 reopenedHandle.inode_reference).size =
        (oufs_read_inode_by_reference stdConfig reopenedDisk reopenedHandle.inode_reference).size
          + min 25200 (stdConfig.DATA_BLOCK_SIZE * stdConfig.MAX_BLOCKS_IN_FILE
            - reopenedHandle.offset)) :=
  ⟨(oufs_fwrite_at_ceiling stdConfig bigFileDisk bigFileHandle (fun _ => 1) 1 zeroBlock zeroBlock
      (by decide) (by set_option maxRecDepth 100000 in decide) (by set_option maxRecDepth 100000 in decide) (by set_option maxRecDepth 100000 in decide)).1 (by set_option maxRecDepth 100000 in decide),
    (oufs_fwrite_at_ceiling stdConfig fileDisk fileHandle (fun _ => 1) 25401 zeroBlock zeroBlock
      (by decide) (by decide) (by decide) (by decide)).2.2 (by decide) (by decide),
    (oufs_fwrite_at_ceiling stdConfig reopenedDisk reopenedHandle (fun _ => 4) 25200 zeroBlock
      zeroBlock (by decide) (by decide) (by decide) (by decide)).2.1 (by decide)⟩

/-! ## `oufs_fread` -/

theorem div_mod_of_decomposition (D i r p : Nat) (hr : r < D) (hp : p = i * D + r) :
    p / D = i ∧ p % D = r := by
  subst hp
  have hD : 0 < D := by omega
  constructor
  · rw [Nat.mul_comm, Nat.mul_add_div hD, Nat.div_eq_of_lt hr, Nat.add_zero]
  · rw [Nat.mul_comm, Nat.mul_add_mod, Nat.mod_eq_of_lt hr]

theorem file_byte_of_decomposition (cfg : Config) (d : Disk) (cache : Int → Nat)
    (i r p : Nat) (hr : r < cfg.DATA_BLOCK_SIZE) (hp : p = i * cfg.DATA_BLOCK_SIZE + r) :
    file_byte cfg d cache p = (d (cache (i : Int))).content.asData r := by
  obtain ⟨h1, h2⟩ := div_mod_of_decomposition cfg.DATA_BLOCK_SIZE i r p hr hp
  unfold file_byte
  rw [h1, h2]

/-- The loop of `oufs_fread`, started at block index `i` with the offset inside
that block, and with enough cached blocks ahead for `len_left` bytes, copies
exactly the next `len_left` bytes of the file to `buf + len_read`. -/
theorem fread_loop_spec (cfg : Config) (d : Disk) :
    ∀ (fuel i : Nat) (s : ReadState),
      s.fp.offset = i * cfg.DATA_BLOCK_SIZE + s.byte_offset_in_block →
      s.byte_offset_in_block < cfg.DATA_BLOCK_SIZE →
      s.len_left + s.fp.offset ≤ i * cfg.DATA_BLOCK_SIZE + fuel * cfg.DATA_BLOCK_SIZE →
      (fread_loop cfg d fuel i s).len_read = s.len_read + s.len_left ∧
      (fread_loop cfg d fuel i s).fp = { s.fp with offset := s.fp.offset + s.len_left } ∧
      ∀ j, (fread_loop cfg d fuel i s).buf j =
        if s.len_read ≤ j ∧ j < s.len_read + s.len_left then
          file_byte cfg d s.fp.block_reference_cache (s.fp.offset + (j - s.len_read))
        else s.buf j := by
  intro fuel
  induction fuel with
  | zero =>
    intro i s h1 h2 h3
    have h0 : s.len_left = 0 := by omega
    rw [h0]
    refine ⟨rfl, rfl, ?_⟩
    intro j
    rw [if_neg (by omega)]
    rfl
  | succ fuel ih =>
    intro i s h1 h2 h3
    have hm1 : (fuel + 1) * cfg.DATA_BLOCK_SIZE = fuel * cfg.DATA_BLOCK_SIZE + cfg.DATA_BLOCK_SIZE :=
      Nat.succ_mul _ _
    have hm2 : (i + 1) * cfg.DATA_BLOCK_SIZE = i * cfg.DATA_BLOCK_SIZE + cfg.DATA_BLOCK_SIZE :=
      Nat.succ_mul _ _
    have hrest : 0 < cfg.DATA_BLOCK_SIZE - s.byte_offset_in_block := by omega
    simp only [fread_loop]
    by_cases hc : s.len_left / (cfg.DATA_BLOCK_SIZE - s.byte_offset_in_block) ≥ 1
    · rw [if_pos hc]
      have hge : cfg.DATA_BLOCK_SIZE - s.byte_offset_in_block ≤ s.len_left := by
        have := (Nat.le_div_iff_mul_le hrest).mp hc
        omega
      have hoff : s.fp.offset + (cfg.DATA_BLOCK_SIZE - s.byte_offset_in_block)
          = (i + 1) * cfg.DATA_BLOCK_SIZE := by omega
      have hmod : (s.fp.offset + (cfg.DATA_BLOCK_SIZE - s.byte_offset_in_block))
          % cfg.DATA_BLOCK_SIZE = 0 := by
        rw [hoff]; exact Nat.mul_mod_left _ _
      obtain ⟨r1, r2, r3⟩ := ih (i + 1) (fread_rest cfg d i s)
        (by simp only [fread_rest]; rw [hmod]; omega)
        (by simp only [fread_rest]; rw [hmod]; omega)
        (by simp only [fread_rest]; omega)
      rw [r1, r2]
      refine ⟨?_, ?_, ?_⟩
      · simp only [fread_rest]; omega
      · simp only [fread_rest]
        congr 1
        omega
      · intro j
        rw [r3]
        simp only [fread_rest, copy_from_block, virtual_disk_read_block]
        by_cases hj1 : s.len_read ≤ j ∧ j < s.len_read + s.len_left
        · rw [if_pos hj1]
          by_cases hj2 : s.len_read + (cfg.DATA_BLOCK_SIZE - s.byte_offset_in_block) ≤ j
          · rw [if_pos (by omega)]
            congr 1
            omega
          · rw [if_neg (by omega), if_pos (by omega)]
            symm
            exact file_byte_of_decomposition cfg d _ i _ _ (by omega) (by omega)
        · rw [if_neg hj1, if_neg (by omega), if_neg (by omega)]
    · rw [if_neg hc]
      have hlt : s.len_left < cfg.DATA_BLOCK_SIZE - s.byte_offset_in_block := by
        by_contra hcon
        exact hc ((Nat.le_div_iff_mul_le hrest).mpr (by omega))
      refine ⟨rfl, rfl, ?_⟩
      intro j
      simp only [fread_last, copy_from_block, virtual_disk_read_block]
      by_cases hj1 : s.len_read ≤ j ∧ j < s.len_read + s.len_left
      · rw [if_pos hj1, if_pos hj1]
        symm
        exact file_byte_of_decomposition cfg d _ i _ _ (by omega) (by omega)
      · rw [if_neg hj1, if_neg hj1]

theorem size_le_blocks (D size : Nat) (hD : 0 < D) : size ≤ (size + D - 1) / D * D := by
  have h := Nat.div_add_mod (size + D - 1) D
  have h2 : (size + D - 1) % D < D := Nat.mod_lt _ hD
  rw [Nat.mul_comm] at h
  omega

/-- What `oufs_fread` does for a handle opened for reading on a file inode, with
the offset at most the size and at least `size` bytes of blocks in the cache. -/
theorem oufs_fread_result (cfg : Config) (d : Disk) (fp : OUFILE) (buf : Nat → Nat) (len : Nat)
    (hD : 0 < cfg.DATA_BLOCK_SIZE) (hmode : fp.mode = 'r')
    (htype : (oufs_read_inode_by_reference cfg d fp.inode_reference).type = FILE_TYPE)
    (hoff : fp.offset ≤ (oufs_read_inode_by_reference cfg d fp.inode_reference).size)
    (hn : (oufs_read_inode_by_reference cfg d fp.inode_reference).size
      ≤ fp.n_data_blocks * cfg.DATA_BLOCK_SIZE) :
    (oufs_fread cfg d fp buf len).1 =
      ((min len ((oufs_read_inode_by_reference cfg d fp.inode_reference).size - fp.offset) : Nat)
        : Int) ∧
    (oufs_fread cfg d fp buf len).2.1 =
      { fp with
        offset := fp.offset +
          min len ((oufs_read_inode_by_reference cfg d fp.inode_reference).size - fp.offset) } ∧
    ∀ j, (oufs_fread cfg d fp buf len).2.2 j =
      if j < min len ((oufs_read_inode_by_reference cfg d fp.inode_reference).size - fp.offset)
      then file_byte cfg d fp.block_reference_cache (fp.offset + j)
      else clear_string buf j := by
  unfold oufs_fread
  rw [if_neg (by rw [hmode]; exact fun h => h rfl)]
  simp only []
  rw [if_neg (by rw [htype]; exact fun h => h rfl)]
  by_cases heq : fp.offset = (oufs_read_inode_by_reference cfg d fp.inode_reference).size
  · rw [if_pos heq]
    have e : min len ((oufs_read_inode_by_reference cfg d fp.inode_reference).size - fp.offset)
        = 0 := by rw [← heq]; simp
    rw [e]
    refine ⟨rfl, rfl, ?_⟩
    intro j
    rw [if_neg (by omega)]
  · rw [if_neg heq]
    have hmodlt : fp.offset % cfg.DATA_BLOCK_SIZE < cfg.DATA_BLOCK_SIZE := Nat.mod_lt _ hD
    have hdm : fp.offset / cfg.DATA_BLOCK_SIZE * cfg.DATA_BLOCK_SIZE
        + fp.offset % cfg.DATA_BLOCK_SIZE = fp.offset := by
      rw [Nat.mul_comm]; exact Nat.div_add_mod _ _
    have hbud : fp.n_data_blocks * cfg.DATA_BLOCK_SIZE ≤
        fp.offset / cfg.DATA_BLOCK_SIZE * cfg.DATA_BLOCK_SIZE +
        (fp.n_data_blocks - fp.offset / cfg.DATA_BLOCK_SIZE) * cfg.DATA_BLOCK_SIZE := by
      rw [← Nat.add_mul]
      exact Nat.mul_le_mul_right _ (by omega)
    obtain ⟨r1, r2, r3⟩ := fread_loop_spec cfg d
      (fp.n_data_blocks - fp.offset / cfg.DATA_BLOCK_SIZE) (fp.offset / cfg.DATA_BLOCK_SIZE)
      { fp := fp, buf := clear_string buf,
        byte_offset_in_block := fp.offset % cfg.DATA_BLOCK_SIZE,
        len_read := 0,
        len_left := min len
          ((oufs_read_inode_by_reference cfg d fp.inode_reference).size - fp.offset) }
      hdm.symm hmodlt (by simp only []; omega)
    simp only [] at r1 r2 r3
    rw [r1, r2]
    refine ⟨by rw [Nat.zero_add], rfl, ?_⟩
    intro j
    show (fread_loop cfg d _ _ _).buf j = _
    rw [r3 j]
    simp only [Nat.zero_le, true_and, Nat.zero_add, Nat.sub_zero]

/-- C4.  For a handle opened for reading on a file inode of size `s`, with
offset at most `s` and a cache that holds the `ceil(s / DATA_BLOCK_SIZE)`
blocks of the inode's data chain in order, and every `len`: `oufs_fread`
returns `m = min len (s - offset)`; the first `m` bytes of the buffer become
the file's bytes at positions `offset .. offset + m - 1`, and the buffer beyond
them receives no file byte (it only went through the initial `memset`); the
handle's offset advances by `m` and nothing else in the handle changes; at
`offset = s` the call returns 0. -/
theorem oufs_fread_reads (cfg : Config) (d : Disk) (fp : OUFILE) (buf : Nat → Nat)
    (len s : Nat) (hD : 0 < cfg.DATA_BLOCK_SIZE) (hmode : fp.mode = 'r')
    (htype : (oufs_read_inode_by_reference cfg d fp.inode_reference).type = FILE_TYPE)
    (hsize : (oufs_read_inode_by_reference cfg d fp.inode_reference).size = s)
    (hoff : fp.offset ≤ s)
    (hn : fp.n_data_blocks = (s + cfg.DATA_BLOCK_SIZE - 1) / cfg.DATA_BLOCK_SIZE)
    (hcache : ∀ k < fp.n_data_blocks, fp.block_reference_cache (k : Int) =
      chain_block d (oufs_read_inode_by_reference cfg d fp.inode_reference).content k) :
    (oufs_fread cfg d fp buf len).1 = ((min len (s - fp.offset) : Nat) : Int) ∧
    (oufs_fread cfg d fp buf len).2.1 = { fp with offset := fp.offset + min len (s - fp.offset) } ∧
    (∀ j < min len (s - fp.offset), (oufs_fread cfg d fp buf len).2.2 j =
      file_content cfg d (oufs_read_inode_by_reference cfg d fp.inode_reference)
        (fp.offset + j)) ∧
    (∀ j ≥ min len (s - fp.offset), (oufs_fread cfg d fp buf len).2.2 j = clear_string buf j) ∧
    (fp.offset = s → (oufs_fread cfg d fp buf len).1 = 0) := by
  have hblocks := size_le_blocks cfg.DATA_BLOCK_SIZE s hD
  rw [← hn] at hblocks
  obtain ⟨r1, r2, r3⟩ := oufs_fread_result cfg d fp buf len hD hmode htype
    (by rw [hsize]; exact hoff) (by rw [hsize]; exact hblocks)
  rw [hsize] at r1 r2 r3
  refine ⟨r1, r2, ?_, ?_, ?_⟩
  · intro j hj
    rw [r3 j, if_pos hj]
    unfold file_byte file_content
    rw [hcache]
    have hp : fp.offset + j < fp.n_data_blocks * cfg.DATA_BLOCK_SIZE := by omega
    exact (Nat.div_lt_iff_lt_mul hD).mpr hp
  · intro j hj
    rw [r3 j, if_neg (by omega)]
  · intro h
    rw [r1, h]
    simp

/-- C4 (witness): 400 bytes requested from `/f` on `twoFileDisk`, a file of 301
bytes whose chain is block 6, block 8. -/
theorem oufs_fread_reads_witness :
    (oufs_fread stdConfig twoFileDisk readHandle (fun _ => 7) 400).1 =
      ((min 400 (301 - readHandle.offset) : Nat) : Int) ∧
    (oufs_fread stdConfig twoFileDisk readHandle (fun _ => 7) 400).2.1 =
      { readHandle with offset := readHandle.offset + min 400 (301 - readHandle.offset) } ∧
    (∀ j < min 400 (301 - readHandle.offset),
      (oufs_fread stdConfig twoFileDisk readHandle (fun _ => 7) 400).2.2 j =
      file_content stdConfig twoFileDisk
        (oufs_read_inode_by_reference stdConfig twoFileDisk readHandle.inode_reference)
        (readHandle.offset + j)) ∧
    (∀ j ≥ min 400 (301 - readHandle.offset),
      (oufs_fread stdConfig twoFileDisk readHandle (fun _ => 7) 400).2.2 j
        = clear_string (fun _ => 7) j) ∧
    (readHandle.offset = 301 →
      (oufs_fread stdConfig twoFileDisk readHandle (fun _ => 7) 400).1 = 0) :=
  oufs_fread_reads stdConfig twoFileDisk readHandle (fun _ => 7) 400 301
    (by decide) (by decide) (by decide) (by decide) (by decide) (by decide)
    (by set_option maxRecDepth 100000 in decide)

/-- C5 (the code at the failing input).  On `twoFileDisk` the file `/f` is
inode 1 with size 301 and the data chain block 6, block 8; block 7 belongs to
`/g`.  `oufs_fopen` in mode `w` returns a handle on inode 1 with offset 0, but
the inode on disk keeps size 301; block 7, outside the chain, is zeroed; and
block 8, in the chain, keeps its bytes. -/
theorem oufs_fopen_truncate_evaluated :
    oufs_read_inode_by_reference stdConfig twoFileDisk 1 = ⟨FILE_TYPE, 1, 6, 301⟩ ∧
    oufs_read_inode_by_reference stdConfig twoFileDisk 2 = ⟨FILE_TYPE, 1, 7, 1⟩ ∧
    chain_block twoFileDisk 6 1 = 8 ∧
    ((oufs_fopen stdConfig twoFileDisk ['/'] ['f'] ['w'] junkFile [] 'a').1.map
      (fun fp => (fp.inode_reference, fp.offset))) = some (1, 0) ∧
    oufs_read_inode_by_reference stdConfig
      (oufs_fopen stdConfig twoFileDisk ['/'] ['f'] ['w'] junkFile [] 'a').2 1
      = ⟨FILE_TYPE, 1, 6, 301⟩ ∧
    (twoFileDisk 7).content.asData 0 = 2 ∧
    ((oufs_fopen stdConfig twoFileDisk ['/'] ['f'] ['w'] junkFile [] 'a').2 7).content.asData 0
      = 0 ∧
    (twoFileDisk 8).content.asData 0 = 3 ∧
    ((oufs_fopen stdConfig twoFileDisk ['/'] ['f'] ['w'] junkFile [] 'a').2 8).content.asData 0
      = 3 := by
  set_option maxRecDepth 100000 in decide

/-! ## The round trip: what `oufs_fwrite` leaves on the disk -/

theorem write_block_same (d : Disk) (r : Nat) (b : BLOCK) :
    virtual_disk_write_block d r b r = b := by
  simp [virtual_disk_write_block]

theorem write_block_other (d : Disk) (r k : Nat) (b : BLOCK) (h : k ≠ r) :
    virtual_disk_write_block d r b k = d k := by
  simp [virtual_disk_write_block, h]

theorem fwrite_step_inv (cfg : Config) (d1 : Disk) (F : Nat → Nat) (wbuf : Nat → Nat)
    (n c K i : Nat) (s : WriteState)
    (hK : ∀ k, k * cfg.DATA_BLOCK_SIZE < n → k < K)
    (hchain : ∀ k, (d1 (F k)).next_block = F (k + 1))
    (halloc : ∀ k < K, F k ≠ cfg.UNALLOCATED_BLOCK)
    (hinj : ∀ a < K, ∀ b < K, F a = F b → a = b)
    (hinv : WriteInv cfg d1 F wbuf n c i s)
    (hmore : cfg.DATA_BLOCK_SIZE < n - i * cfg.DATA_BLOCK_SIZE) :
    WriteInv cfg d1 F wbuf n c (i + 1) (fwrite_link cfg i (fwrite_fill cfg wbuf s)) := by
  have hm : (i + 1) * cfg.DATA_BLOCK_SIZE = i * cfg.DATA_BLOCK_SIZE + cfg.DATA_BLOCK_SIZE :=
    Nat.succ_mul _ _
  have hi1 : i + 1 < K := hK _ (by omega)
  have hmod : s.fp.offset % cfg.DATA_BLOCK_SIZE = 0 := by
    rw [hinv.offset]; exact Nat.mul_mod_left _ _
  have hne : ∀ k ≤ i, F (i + 1) ≠ F k := by
    intro k hk h
    have := hinj (i + 1) hi1 k (by omega) h
    omega
  have hfront : (fwrite_fill cfg wbuf s).master.content.asMaster.unallocated_front
      ≠ cfg.UNALLOCATED_BLOCK := by
    show s.master.content.asMaster.unallocated_front ≠ _
    rw [hinv.front]
    exact halloc _ hi1
  have hbr : (oufs_allocate_new_block cfg (fwrite_fill cfg wbuf s).d
      (fwrite_fill cfg wbuf s).master).1 = F (i + 1) := by
    unfold oufs_allocate_new_block
    rw [if_neg hfront]
    exact hinv.front
  have hd1 : ∀ r, r ≠ F i → (fwrite_fill cfg wbuf s).d r = s.d r := by
    intro r hr
    show virtual_disk_write_block s.d s.br _ r = s.d r
    rw [hinv.br]
    exact write_block_other _ _ _ _ hr
  have hd2 : ∀ r, r ≠ F i → r ≠ F (i + 1) →
      (fwrite_link cfg i (fwrite_fill cfg wbuf s)).d r = s.d r := by
    intro r hr1 hr2
    show virtual_disk_write_block (virtual_disk_write_block _ _ _) _ _ r = s.d r
    rw [hbr, write_block_other _ _ _ _ hr2]
    have hc : setCache (fwrite_fill cfg wbuf s).fp.block_reference_cache ((i : Int) + 1)
        (F (i + 1)) (i : Int) = F i := by
      unfold setCache
      rw [if_neg (by omega)]
      exact hinv.cache i (Nat.le_refl i)
    rw [hc, write_block_other _ _ _ _ hr1]
    exact hd1 r hr1
  have hdi : (fwrite_link cfg i (fwrite_fill cfg wbuf s)).d (F i) =
      { (fwrite_fill cfg wbuf s).block with next_block := F (i + 1) } := by
    show virtual_disk_write_block (virtual_disk_write_block _ _ _) _ _ (F i) = _
    rw [hbr, write_block_other _ _ _ _ (fun h => hne i (Nat.le_refl i) h.symm)]
    have hc : setCache (fwrite_fill cfg wbuf s).fp.block_reference_cache ((i : Int) + 1)
        (F (i + 1)) (i : Int) = F i := by
      unfold setCache
      rw [if_neg (by omega)]
      exact hinv.cache i (Nat.le_refl i)
    rw [hc, write_block_same]
  refine ⟨hbr, ?_, ?_, ?_, Or.inr (by omega), ?_, ?_, ?_, ?_, ?_, ?_, hinv.ref⟩
  · show s.len_written + (cfg.DATA_BLOCK_SIZE - s.fp.offset % cfg.DATA_BLOCK_SIZE) = _
    rw [hmod, hinv.written]; omega
  · show s.len_left - (cfg.DATA_BLOCK_SIZE - s.fp.offset % cfg.DATA_BLOCK_SIZE) = _
    rw [hmod, hinv.left]; omega
  · show s.fp.offset + (cfg.DATA_BLOCK_SIZE - s.fp.offset % cfg.DATA_BLOCK_SIZE) = _
    rw [hmod, hinv.offset]; omega
  · show (oufs_allocate_new_block cfg (fwrite_fill cfg wbuf s).d
      (fwrite_fill cfg wbuf s).master).2.content.asMaster.unallocated_front = _
    unfold oufs_allocate_new_block
    rw [if_neg hfront]
    show ((fwrite_fill cfg wbuf s).d
      (fwrite_fill cfg wbuf s).master.content.asMaster.unallocated_front).next_block = _
    have e : (fwrite_fill cfg wbuf s).master.content.asMaster.unallocated_front = F (i + 1) :=
      hinv.front
    rw [e, hd1 _ (hne i (Nat.le_refl i)), hinv.frame _ hne]
    exact hchain (i + 1)
  · intro k hk
    show setCache s.fp.block_reference_cache ((i : Int) + 1) _ (k : Int) = F k
    unfold setCache
    by_cases hki : k = i + 1
    · subst hki
      rw [if_pos (by push_cast; rfl)]
      exact hbr
    · rw [if_neg (by omega)]
      exact hinv.cache k (by omega)
  · intro k hk
    by_cases hki : k = i
    · subst hki
      rw [hdi]
    · rw [hd2 _ (fun h => hki (hinj k (by omega) i (by omega) h))
        (fun h => (hne k (by omega)) h.symm)]
      exact hinv.links k (by omega)
  · intro k hk t ht
    by_cases hki : k = i
    · subst hki
      rw [hdi]
      show (copy_into_block _ _ wbuf _ _).content.asData t = _
      simp only [copy_into_block, CONTENT.asData]
      rw [hmod, hinv.written, if_pos (by omega)]
      congr 1
    · rw [hd2 _ (fun h => hki (hinj k (by omega) i (by omega) h))
        (fun h => (hne k (by omega)) h.symm)]
      exact hinv.data k (by omega) t ht
  · intro r hr
    rw [hd2 r (hr i (by omega)) (hr (i + 1) (Nat.le_refl _))]
    exact hinv.frame r (fun k hk => hr k (by omega))
  · show ({ s.inode with size := s.inode.size +
      (cfg.DATA_BLOCK_SIZE - s.fp.offset % cfg.DATA_BLOCK_SIZE) } : INODE) = _
    rw [hmod, hinv.inode, hm]
    rfl

theorem fwrite_last_post (cfg : Config) (d1 : Disk) (F : Nat → Nat) (wbuf : Nat → Nat)
    (n c K i : Nat) (s : WriteState) (hD : 0 < cfg.DATA_BLOCK_SIZE) (hK0 : 0 < K)
    (hK : ∀ k, k * cfg.DATA_BLOCK_SIZE < n → k < K)
    (hinj : ∀ a < K, ∀ b < K, F a = F b → a = b)
    (hinv : WriteInv cfg d1 F wbuf n c i s)
    (hlast : n - i * cfg.DATA_BLOCK_SIZE ≤ cfg.DATA_BLOCK_SIZE) :
    WritePost cfg d1 F wbuf n c K (fwrite_last cfg wbuf s) := by
  have hm : (i + 1) * cfg.DATA_BLOCK_SIZE = i * cfg.DATA_BLOCK_SIZE + cfg.DATA_BLOCK_SIZE :=
    Nat.succ_mul _ _
  have hile : i * cfg.DATA_BLOCK_SIZE ≤ n := by
    rcases hinv.more with h | h
    · rw [h, Nat.zero_mul]; exact Nat.zero_le _
    · omega
  have hiK : i < K := by
    rcases hinv.more with h | h
    · rw [h]; exact hK0
    · exact hK i h
  have hmod : s.fp.offset % cfg.DATA_BLOCK_SIZE = 0 := by
    rw [hinv.offset]; exact Nat.mul_mod_left _ _
  have hd : ∀ r, r ≠ F i → (fwrite_last cfg wbuf s).d r = s.d r := by
    intro r hr
    show virtual_disk_write_block s.d s.br _ r = s.d r
    rw [hinv.br]
    exact write_block_other _ _ _ _ hr
  have hdi : (fwrite_last cfg wbuf s).d (F i) =
      copy_into_block (s.d (F i)) 0 wbuf (i * cfg.DATA_BLOCK_SIZE)
        (n - i * cfg.DATA_BLOCK_SIZE) := by
    show virtual_disk_write_block s.d s.br _ (F i) = _
    rw [hinv.br, write_block_same]
    show copy_into_block (s.d (F i)) (s.fp.offset % cfg.DATA_BLOCK_SIZE) wbuf s.len_written
      s.len_left = _
    rw [hmod, hinv.written, hinv.left]
  refine ⟨?_, ?_, hinv.ref, ?_, ?_, ?_⟩
  · show s.len_written + s.len_left = n
    rw [hinv.written, hinv.left]; omega
  · show ({ s.inode with size := s.inode.size + s.len_left } : INODE) = _
    rw [hinv.inode, hinv.left]
    show (⟨FILE_TYPE, 1, F 0, i * cfg.DATA_BLOCK_SIZE + (n - i * cfg.DATA_BLOCK_SIZE)⟩ : INODE) = _
    congr 1
    omega
  · intro p hp
    have hdm : p / cfg.DATA_BLOCK_SIZE * cfg.DATA_BLOCK_SIZE + p % cfg.DATA_BLOCK_SIZE = p := by
      rw [Nat.mul_comm]; exact Nat.div_add_mod _ _
    have hmodlt : p % cfg.DATA_BLOCK_SIZE < cfg.DATA_BLOCK_SIZE := Nat.mod_lt _ hD
    have hq : p / cfg.DATA_BLOCK_SIZE ≤ i := by
      have : p / cfg.DATA_BLOCK_SIZE < i + 1 := by
        rw [Nat.div_lt_iff_lt_mul hD]; omega
      omega
    by_cases hqi : p / cfg.DATA_BLOCK_SIZE = i
    · rw [hqi, hdi]
      simp only [copy_into_block, CONTENT.asData]
      rw [hqi] at hdm
      rw [if_pos (by omega)]
      congr 1
    · have hlt : p / cfg.DATA_BLOCK_SIZE < i := by omega
      rw [hd _ (fun h => hqi (hinj _ (by omega) i hiK h))]
      rw [hinv.data _ hlt _ hmodlt, hdm]
  · intro k hk
    have hki : k < i := by
      by_contra hcon
      have : (i + 1) * cfg.DATA_BLOCK_SIZE ≤ (k + 1) * cfg.DATA_BLOCK_SIZE :=
        Nat.mul_le_mul_right _ (by omega)
      omega
    rw [hd _ (fun h => by have := hinj k (by omega) i hiK h; omega)]
    exact hinv.links k hki
  · intro r hr
    rw [hd r (hr i hiK)]
    exact hinv.frame r (fun k hk => hr k (by omega))

theorem fwrite_loop_post (cfg : Config) (d1 : Disk) (F : Nat → Nat) (wbuf : Nat → Nat)
    (n c K : Nat) (hD : 0 < cfg.DATA_BLOCK_SIZE) (hK0 : 0 < K)
    (hK : ∀ k, k * cfg.DATA_BLOCK_SIZE < n → k < K)
    (hchain : ∀ k, (d1 (F k)).next_block = F (k + 1))
    (halloc : ∀ k < K, F k ≠ cfg.UNALLOCATED_BLOCK)
    (hinj : ∀ a < K, ∀ b < K, F a = F b → a = b) :
    ∀ (fuel i : Nat) (s : WriteState), WriteInv cfg d1 F wbuf n c i s →
      n ≤ i * cfg.DATA_BLOCK_SIZE + fuel * cfg.DATA_BLOCK_SIZE →
      (i = 0 → 1 ≤ fuel) → i + fuel = cfg.MAX_BLOCKS_IN_FILE →
      WritePost cfg d1 F wbuf n c K (fwrite_loop cfg wbuf fuel i s) := by
  intro fuel
  induction fuel with
  | zero =>
    intro i s hinv h1 h2 _
    exfalso
    rw [Nat.zero_mul] at h1
    rcases hinv.more with h | h
    · have := h2 h; omega
    · omega
  | succ fuel ih =>
    intro i s hinv h1 _ h3
    have hm : (i + 1) * cfg.DATA_BLOCK_SIZE = i * cfg.DATA_BLOCK_SIZE + cfg.DATA_BLOCK_SIZE :=
      Nat.succ_mul _ _
    have hmf : (fuel + 1) * cfg.DATA_BLOCK_SIZE = fuel * cfg.DATA_BLOCK_SIZE + cfg.DATA_BLOCK_SIZE :=
      Nat.succ_mul _ _
    have hmod : s.fp.offset % cfg.DATA_BLOCK_SIZE = 0 := by
      rw [hinv.offset]; exact Nat.mul_mod_left _ _
    simp only [fwrite_loop]
    rw [hmod, hinv.left, Nat.sub_zero]
    by_cases hc : n - i * cfg.DATA_BLOCK_SIZE > cfg.DATA_BLOCK_SIZE
    · rw [if_pos hc]
      have hfuel : 1 ≤ fuel := by
        by_contra hcon
        have h0 : fuel = 0 := by omega
        have h00 : fuel * cfg.DATA_BLOCK_SIZE = 0 := by rw [h0, Nat.zero_mul]
        omega
      rw [if_pos (by omega)]
      exact ih (i + 1) _ (fwrite_step_inv cfg d1 F wbuf n c K i s hK hchain halloc hinj hinv hc)
        (by omega) (by omega) (by omega)
    · rw [if_neg hc]
      exact fwrite_last_post cfg d1 F wbuf n c K i s hD hK0 hK hinj hinv (by omega)

theorem fwrite_init_inv (cfg : Config) (d1 : Disk) (F : Nat → Nat) (wbuf : Nat → Nat)
    (n c : Nat) (fp : OUFILE) (uninit_block uninit_bufB : BLOCK)
    (hchain : ∀ k, (d1 (F k)).next_block = F (k + 1))
    (hfront : (d1 MASTER_BLOCK_REFERENCE).content.asMaster.unallocated_front = F 0)
    (halloc : F 0 ≠ cfg.UNALLOCATED_BLOCK)
    (hoff : fp.offset = 0) (href : fp.inode_reference = c) :
    WriteInv cfg d1 F wbuf n c 0
      (fwrite_init cfg d1 fp ⟨FILE_TYPE, 1, cfg.UNALLOCATED_BLOCK, 0⟩ n uninit_block
        uninit_bufB) := by
  have hbr : (oufs_allocate_new_block cfg d1 (virtual_disk_read_block d1 MASTER_BLOCK_REFERENCE)).1
      = F 0 := by
    unfold oufs_allocate_new_block virtual_disk_read_block
    rw [if_neg (by rw [hfront]; exact halloc)]
    exact hfront
  have hm : (oufs_allocate_new_block cfg d1
      (virtual_disk_read_block d1 MASTER_BLOCK_REFERENCE)).2.content.asMaster.unallocated_front
      = F 1 := by
    unfold oufs_allocate_new_block virtual_disk_read_block
    rw [if_neg (by rw [hfront]; exact halloc)]
    show (d1 (d1 MASTER_BLOCK_REFERENCE).content.asMaster.unallocated_front).next_block = _
    rw [hfront]
    exact hchain 0
  unfold fwrite_init
  simp only []
  rw [if_pos trivial]
  refine ⟨hbr, ?_, ?_, ?_, Or.inl rfl, hm, ?_, ?_, ?_, ?_, ?_, href⟩
  · show 0 = 0 * cfg.DATA_BLOCK_SIZE
    rw [Nat.zero_mul]
  · show n = n - 0 * cfg.DATA_BLOCK_SIZE
    rw [Nat.zero_mul, Nat.sub_zero]
  · show fp.offset = 0 * cfg.DATA_BLOCK_SIZE
    rw [Nat.zero_mul, hoff]
  · intro k hk
    have hk0 : k = 0 := by omega
    subst hk0
    show setCache fp.block_reference_cache 0 _ ((0 : Nat) : Int) = F 0
    simp only [setCache, Nat.cast_zero, if_true]
    exact hbr
  · intro k hk; omega
  · intro k hk; omega
  · intro r hr
    show virtual_disk_write_block d1 _ _ r = d1 r
    rw [hbr]
    exact write_block_other _ _ _ _ (hr 0 (Nat.le_refl 0))
  · show (⟨FILE_TYPE, 1, _, 0⟩ : INODE) = ⟨FILE_TYPE, 1, F 0, 0 * cfg.DATA_BLOCK_SIZE⟩
    rw [hbr, Nat.zero_mul]

theorem write_inode_other_block (cfg : Config) (d : Disk) (i r : Nat) (inode : INODE)
    (h : r ≠ table_block cfg i) : oufs_write_inode_by_reference cfg d i inode r = d r := by
  unfold oufs_write_inode_by_reference
  exact write_block_other _ _ _ _ h

theorem write_inode_next_block (cfg : Config) (d : Disk) (i r : Nat) (inode : INODE) :
    (oufs_write_inode_by_reference cfg d i inode r).next_block = (d r).next_block := by
  unfold oufs_write_inode_by_reference virtual_disk_write_block virtual_disk_read_block
  show (if r = i / cfg.N_INODES_PER_BLOCK + 1 then
    (⟨(d (i / cfg.N_INODES_PER_BLOCK + 1)).next_block, _⟩ : BLOCK) else d r).next_block = _
  split
  · next h => rw [h]
  · rfl

theorem read_inode_write_other (cfg : Config) (d : Disk) (i v : Nat) (inode : INODE)
    (h : v ≠ i) :
    oufs_read_inode_by_reference cfg (oufs_write_inode_by_reference cfg d i inode) v =
      oufs_read_inode_by_reference cfg d v := by
  unfold oufs_read_inode_by_reference oufs_write_inode_by_reference virtual_disk_write_block
    virtual_disk_read_block
  simp only []
  by_cases hb : v / cfg.N_INODES_PER_BLOCK + 1 = i / cfg.N_INODES_PER_BLOCK + 1
  · rw [if_pos hb]
    have he : v % cfg.N_INODES_PER_BLOCK ≠ i % cfg.N_INODES_PER_BLOCK := by
      intro he
      apply h
      have h1 := Nat.div_add_mod v cfg.N_INODES_PER_BLOCK
      have h2 := Nat.div_add_mod i cfg.N_INODES_PER_BLOCK
      have h3 : v / cfg.N_INODES_PER_BLOCK = i / cfg.N_INODES_PER_BLOCK := by omega
      rw [h3, he] at h1
      omega
    simp only [CONTENT.asInodes, setAt]
    rw [if_neg he, hb]
  · rw [if_neg hb]

theorem read_inode_of_block_eq (cfg : Config) (d d2 : Disk) (v : Nat)
    (h : d2 (table_block cfg v) = d (table_block cfg v)) :
    oufs_read_inode_by_reference cfg d2 v = oufs_read_inode_by_reference cfg d v := by
  unfold oufs_read_inode_by_reference virtual_disk_read_block
  unfold table_block at h
  simp only []
  rw [h]

/-- What the call of `oufs_fwrite` on a freshly created, empty file leaves behind:
the count returned, the inode, the bytes and links of the chain blocks, and
what stays untouched. -/
theorem oufs_fwrite_fresh (cfg : Config) (d1 : Disk) (F : Nat → Nat) (wbuf : Nat → Nat)
    (n c K : Nat) (fp : OUFILE) (ub ubB : BLOCK)
    (hD : 0 < cfg.DATA_BLOCK_SIZE) (hMAX : 0 < cfg.MAX_BLOCKS_IN_FILE)
    (hn : n ≤ cfg.DATA_BLOCK_SIZE * cfg.MAX_BLOCKS_IN_FILE) (hK0 : 0 < K)
    (hK : ∀ k, k * cfg.DATA_BLOCK_SIZE < n → k < K)
    (hchain : ∀ k, (d1 (F k)).next_block = F (k + 1))
    (halloc : ∀ k < K, F k ≠ cfg.UNALLOCATED_BLOCK)
    (hinj : ∀ a < K, ∀ b < K, F a = F b → a = b)
    (hfront : (d1 MASTER_BLOCK_REFERENCE).content.asMaster.unallocated_front = F 0)
    (hmode : fp.mode ≠ 'r') (hoff : fp.offset = 0) (href : fp.inode_reference = c)
    (hinode : oufs_read_inode_by_reference cfg d1 c = ⟨FILE_TYPE, 1, cfg.UNALLOCATED_BLOCK, 0⟩)
    (hF0 : ∀ k < K, F k ≠ MASTER_BLOCK_REFERENCE)
    (hFt : ∀ k < K, F k ≠ table_block cfg c) :
    (oufs_fwrite cfg d1 fp wbuf n ub ubB).1 = (n : Int) ∧
    oufs_read_inode_by_reference cfg (oufs_fwrite cfg d1 fp wbuf n ub ubB).2.2 c
      = ⟨FILE_TYPE, 1, F 0, n⟩ ∧
    (∀ p < n, ((oufs_fwrite cfg d1 fp wbuf n ub ubB).2.2
      (F (p / cfg.DATA_BLOCK_SIZE))).content.asData (p % cfg.DATA_BLOCK_SIZE) = wbuf p) ∧
    (∀ k, (k + 1) * cfg.DATA_BLOCK_SIZE < n →
      ((oufs_fwrite cfg d1 fp wbuf n ub ubB).2.2 (F k)).next_block = F (k + 1)) ∧
    (∀ r, (∀ k < K, r ≠ F k) → r ≠ MASTER_BLOCK_REFERENCE → r ≠ table_block cfg c →
      (oufs_fwrite cfg d1 fp wbuf n ub ubB).2.2 r = d1 r) ∧
    (∀ v, v ≠ c → (∀ k < K, table_block cfg v ≠ F k) →
      oufs_read_inode_by_reference cfg (oufs_fwrite cfg d1 fp wbuf n ub ubB).2.2 v =
        oufs_read_inode_by_reference cfg d1 v) := by
  have hpost := fwrite_loop_post cfg d1 F wbuf n c K hD hK0 hK hchain halloc hinj
    cfg.MAX_BLOCKS_IN_FILE 0 _
    (fwrite_init_inv cfg d1 F wbuf n c fp ub ubB hchain hfront (halloc 0 hK0) hoff href)
    (by rw [Nat.zero_mul, Nat.zero_add, Nat.mul_comm]; exact hn) (fun _ => hMAX)
    (Nat.zero_add _)
  have hfull : (0 : Nat) ≠ cfg.DATA_BLOCK_SIZE * cfg.MAX_BLOCKS_IN_FILE :=
    Nat.ne_of_lt (Nat.mul_pos hD hMAX)
  have hw : oufs_fwrite cfg d1 fp wbuf n ub ubB =
      (((fwrite_loop cfg wbuf cfg.MAX_BLOCKS_IN_FILE 0
          (fwrite_init cfg d1 fp ⟨FILE_TYPE, 1, cfg.UNALLOCATED_BLOCK, 0⟩ n ub ubB)).len_written
            : Int),
        (fwrite_loop cfg wbuf cfg.MAX_BLOCKS_IN_FILE 0
          (fwrite_init cfg d1 fp ⟨FILE_TYPE, 1, cfg.UNALLOCATED_BLOCK, 0⟩ n ub ubB)).fp,
        oufs_write_inode_by_reference cfg
          (virtual_disk_write_block
            (fwrite_loop cfg wbuf cfg.MAX_BLOCKS_IN_FILE 0
              (fwrite_init cfg d1 fp ⟨FILE_TYPE, 1, cfg.UNALLOCATED_BLOCK, 0⟩ n ub ubB)).d
            MASTER_BLOCK_REFERENCE
            (fwrite_loop cfg wbuf cfg.MAX_BLOCKS_IN_FILE 0
              (fwrite_init cfg d1 fp ⟨FILE_TYPE, 1, cfg.UNALLOCATED_BLOCK, 0⟩ n ub ubB)).master)
          c
          (fwrite_loop cfg wbuf cfg.MAX_BLOCKS_IN_FILE 0
            (fwrite_init cfg d1 fp ⟨FILE_TYPE, 1, cfg.UNALLOCATED_BLOCK, 0⟩ n ub ubB)).inode) := by
    unfold oufs_fwrite
    rw [if_neg hmode]
    simp only []
    rw [href, hinode]
    rw [if_neg (fun h => h rfl), if_neg hfull, hoff, Nat.zero_div, Nat.sub_zero, hpost.ref]
  rw [hw]
  simp only []
  have hdisk : ∀ r, r ≠ MASTER_BLOCK_REFERENCE → r ≠ table_block cfg c →
      oufs_write_inode_by_reference cfg
        (virtual_disk_write_block
          (fwrite_loop cfg wbuf cfg.MAX_BLOCKS_IN_FILE 0
            (fwrite_init cfg d1 fp ⟨FILE_TYPE, 1, cfg.UNALLOCATED_BLOCK, 0⟩ n ub ubB)).d
          MASTER_BLOCK_REFERENCE
          (fwrite_loop cfg wbuf cfg.MAX_BLOCKS_IN_FILE 0
            (fwrite_init cfg d1 fp ⟨FILE_TYPE, 1, cfg.UNALLOCATED_BLOCK, 0⟩ n ub ubB)).master)
        c
        (fwrite_loop cfg wbuf cfg.MAX_BLOCKS_IN_FILE 0
          (fwrite_init cfg d1 fp ⟨FILE_TYPE, 1, cfg.UNALLOCATED_BLOCK, 0⟩ n ub ubB)).inode r =
      (fwrite_loop cfg wbuf cfg.MAX_BLOCKS_IN_FILE 0
        (fwrite_init cfg d1 fp ⟨FILE_TYPE, 1, cfg.UNALLOCATED_BLOCK, 0⟩ n ub ubB)).d r := by
    intro r h0 ht
    rw [write_inode_other_block cfg _ c r _ ht, write_block_other _ _ _ _ h0]
  have hidx : ∀ p < n, p / cfg.DATA_BLOCK_SIZE < K := by
    intro p hp
    by_cases hq : p / cfg.DATA_BLOCK_SIZE = 0
    · rw [hq]; exact hK0
    · apply hK
      have := Nat.div_mul_le_self p cfg.DATA_BLOCK_SIZE
      omega
  refine ⟨by rw [hpost.written], ?_, ?_, ?_, ?_, ?_⟩
  · rw [read_inode_after_write, hpost.inode]
  · intro p hp
    rw [hdisk _ (hF0 _ (hidx p hp)) (hFt _ (hidx p hp))]
    exact hpost.data p hp
  · intro k hk
    have hkK : k < K := by
      apply hK
      have : (k + 1) * cfg.DATA_BLOCK_SIZE = k * cfg.DATA_BLOCK_SIZE + cfg.DATA_BLOCK_SIZE :=
        Nat.succ_mul k cfg.DATA_BLOCK_SIZE
      omega
    rw [hdisk _ (hF0 _ hkK) (hFt _ hkK)]
    exact hpost.links k hk
  · intro r hr h0 ht
    rw [hdisk r h0 ht]
    exact hpost.frame r hr
  · intro v hv hvF
    rw [read_inode_write_other cfg _ c v _ hv]
    apply read_inode_of_block_eq
    have hv0 : table_block cfg v ≠ MASTER_BLOCK_REFERENCE := Nat.succ_ne_zero _
    rw [write_block_other _ _ _ _ hv0]
    exact hpost.frame _ hvF

/-! ## The round trip: creating the file -/

theorem oufs_create_file_eq (cfg : Config) (d : Disk) (parent : Nat) (nm : List Char)
    (c : Nat) (flag : Nat → Nat) (slot : Nat)
    (hroom : (oufs_read_inode_by_reference cfg d parent).size ≠ cfg.N_DIRECTORY_ENTRIES_PER_BLOCK)
    (hscan : scan_inode_flags (d MASTER_BLOCK_REFERENCE).content.asMaster.inode_allocated_flag
      (cfg.N_INODES / 8) 0 = some (c, flag))
    (hslot : first_unallocated_from cfg (directory_of cfg d parent)
      cfg.N_DIRECTORY_ENTRIES_PER_BLOCK 0 = some slot) :
    oufs_create_file cfg d parent nm = (c, created_disk cfg d parent nm c flag slot) := by
  unfold directory_of at hslot
  unfold oufs_create_file created_disk virtual_disk_read_block
  rw [if_neg hroom]
  simp only [hscan, hslot]

theorem created_disk_next_block (cfg : Config) (d : Disk) (parent : Nat) (nm : List Char)
    (c : Nat) (flag : Nat → Nat) (slot r : Nat) :
    (created_disk cfg d parent nm c flag slot r).next_block = (d r).next_block := by
  unfold created_disk
  simp only []
  rw [write_inode_next_block]
  by_cases h1 : r = (oufs_read_inode_by_reference cfg d parent).content
  · rw [h1, write_block_same]
    rfl
  · rw [write_block_other _ _ _ _ h1, write_inode_next_block]
    by_cases h0 : r = MASTER_BLOCK_REFERENCE
    · rw [h0, write_block_same]
      rfl
    · rw [write_block_other _ _ _ _ h0]

theorem created_disk_block (cfg : Config) (d : Disk) (parent : Nat) (nm : List Char)
    (c : Nat) (flag : Nat → Nat) (slot r : Nat)
    (h0 : r ≠ MASTER_BLOCK_REFERENCE) (hc : r ≠ table_block cfg c)
    (hp : r ≠ table_block cfg parent) :
    created_disk cfg d parent nm c flag slot r =
      if r = (oufs_read_inode_by_reference cfg d parent).content then
        (d r).withDirectory (setAt (d r).content.asDirectory slot ⟨nm, c⟩)
      else d r := by
  unfold created_disk
  simp only []
  rw [write_inode_other_block cfg _ parent r _ hp]
  by_cases h1 : r = (oufs_read_inode_by_reference cfg d parent).content
  · rw [if_pos h1]
    rw [← h1, write_block_same]
  · rw [if_neg h1, write_block_other _ _ _ _ h1, write_inode_other_block cfg _ c r _ hc,
      write_block_other _ _ _ _ h0]

theorem created_disk_master (cfg : Config) (d : Disk) (parent : Nat) (nm : List Char)
    (c : Nat) (flag : Nat → Nat) (slot : Nat)
    (hpc : (oufs_read_inode_by_reference cfg d parent).content ≠ MASTER_BLOCK_REFERENCE) :
    (created_disk cfg d parent nm c flag slot MASTER_BLOCK_REFERENCE).content.asMaster.unallocated_front
      = (d MASTER_BLOCK_REFERENCE).content.asMaster.unallocated_front := by
  unfold created_disk
  simp only []
  have ht : ∀ i, MASTER_BLOCK_REFERENCE ≠ table_block cfg i := fun i => (Nat.succ_ne_zero _).symm
  rw [write_inode_other_block cfg _ parent _ _ (ht parent),
    write_block_other _ _ _ _ (fun h => hpc h.symm),
    write_inode_other_block cfg _ c _ _ (ht c), write_block_same]
  rfl

theorem created_disk_inode_new (cfg : Config) (d : Disk) (parent : Nat) (nm : List Char)
    (c : Nat) (flag : Nat → Nat) (slot : Nat) (hcp : c ≠ parent)
    (hpc : (oufs_read_inode_by_reference cfg d parent).content ≠ table_block cfg c) :
    oufs_read_inode_by_reference cfg (created_disk cfg d parent nm c flag slot) c =
      ⟨FILE_TYPE, 1, cfg.UNALLOCATED_BLOCK, 0⟩ := by
  unfold created_disk
  simp only []
  rw [read_inode_write_other cfg _ parent c _ hcp]
  rw [read_inode_of_block_eq cfg _ _ c (write_block_other _ _ _ _ (fun h => hpc h.symm))]
  exact read_inode_after_write _ _ _ _

theorem created_disk_inode_content (cfg : Config) (d : Disk) (parent : Nat) (nm : List Char)
    (c : Nat) (flag : Nat → Nat) (slot v : Nat) (hvc : v ≠ c)
    (hpc : (oufs_read_inode_by_reference cfg d parent).content ≠ table_block cfg v) :
    (oufs_read_inode_by_reference cfg (created_disk cfg d parent nm c flag slot) v).content =
      (oufs_read_inode_by_reference cfg d v).content := by
  unfold created_disk
  simp only []
  by_cases hvp : v = parent
  · rw [hvp, read_inode_after_write]
  · rw [read_inode_write_other cfg _ parent v _ hvp]
    rw [read_inode_of_block_eq cfg _ _ v (write_block_other _ _ _ _ (fun h => hpc h.symm))]
    rw [read_inode_write_other cfg _ c v _ hvc]
    have hv0 : table_block cfg v ≠ MASTER_BLOCK_REFERENCE := Nat.succ_ne_zero _
    rw [read_inode_of_block_eq cfg _ _ v (write_block_other _ _ _ _ hv0)]

theorem chain_block_congr (d d2 : Disk) (f : Nat)
    (h : ∀ r, (d2 r).next_block = (d r).next_block) :
    ∀ k, chain_block d2 f k = chain_block d f k := by
  intro k
  induction k with
  | zero => rfl
  | succ k ih =>
    show (d2 (chain_block d2 f k)).next_block = (d (chain_block d f k)).next_block
    rw [ih, h]

/-! ## The round trip: looking the new name up -/

theorem find_directory_element_from_found (cfg : Config) (entry : Nat → DIRECTORY_ENTRY)
    (name : List Char) (fuel : Nat) :
    ∀ i, find_directory_element_from cfg entry name fuel i ≠ cfg.UNALLOCATED_INODE ∨
      ∀ j, i ≤ j → j < i + fuel →
        ¬((entry j).inode_reference ≠ cfg.UNALLOCATED_INODE ∧ (entry j).name = name) := by
  induction fuel with
  | zero => intro i; right; intro j h1 h2; omega
  | succ fuel ih =>
    intro i
    simp only [find_directory_element_from]
    by_cases hm : (entry i).inode_reference ≠ cfg.UNALLOCATED_INODE ∧ (entry i).name = name
    · left
      rw [if_pos hm]
      exact hm.1
    · rw [if_neg hm]
      rcases ih (i + 1) with h | h
      · left; exact h
      · right
        intro j h1 h2
        by_cases hji : j = i
        · rw [hji]; exact hm
        · exact h j (by omega) (by omega)

theorem first_unallocated_from_some (cfg : Config) (entry : Nat → DIRECTORY_ENTRY)
    (fuel : Nat) : ∀ i slot, first_unallocated_from cfg entry fuel i = some slot →
      i ≤ slot ∧ slot < i + fuel ∧ (entry slot).inode_reference = cfg.UNALLOCATED_INODE := by
  induction fuel with
  | zero => intro i slot h; simp [first_unallocated_from] at h
  | succ fuel ih =>
    intro i slot h
    simp only [first_unallocated_from] at h
    by_cases hu : (entry i).inode_reference = cfg.UNALLOCATED_INODE
    · rw [if_pos hu] at h
      have : i = slot := Option.some.inj h
      subst this
      exact ⟨Nat.le_refl _, by omega, hu⟩
    · rw [if_neg hu] at h
      obtain ⟨h1, h2, h3⟩ := ih (i + 1) slot h
      exact ⟨by omega, by omega, h3⟩

theorem find_directory_element_from_setAt_other (cfg : Config)
    (entry : Nat → DIRECTORY_ENTRY) (name nm : List Char) (c slot : Nat)
    (hslot : (entry slot).inode_reference = cfg.UNALLOCATED_INODE) (hne : nm ≠ name)
    (fuel : Nat) : ∀ i,
      find_directory_element_from cfg (setAt entry slot ⟨nm, c⟩) name fuel i =
        find_directory_element_from cfg entry name fuel i := by
  induction fuel with
  | zero => intro i; rfl
  | succ fuel ih =>
    intro i
    simp only [find_directory_element_from]
    rw [ih (i + 1)]
    by_cases hi : i = slot
    · subst hi
      have e : setAt entry i ⟨nm, c⟩ i = ⟨nm, c⟩ := by simp [setAt]
      rw [e, if_neg (fun h => hne h.2), if_neg (fun h => h.1 hslot)]
    · have e : setAt entry slot ⟨nm, c⟩ i = entry i := by simp [setAt, hi]
      rw [e]

theorem find_directory_element_from_setAt_new (cfg : Config)
    (entry : Nat → DIRECTORY_ENTRY) (nm : List Char) (c slot : Nat)
    (hc : c ≠ cfg.UNALLOCATED_INODE) (fuel : Nat) : ∀ i, i ≤ slot → slot < i + fuel →
      (∀ j, i ≤ j → j < i + fuel →
        ¬((entry j).inode_reference ≠ cfg.UNALLOCATED_INODE ∧ (entry j).name = nm)) →
      find_directory_element_from cfg (setAt entry slot ⟨nm, c⟩) nm fuel i = c := by
  induction fuel with
  | zero => intro i h1 h2; omega
  | succ fuel ih =>
    intro i h1 h2 habs
    simp only [find_directory_element_from]
    by_cases hi : i = slot
    · subst hi
      have e : setAt entry i ⟨nm, c⟩ i = ⟨nm, c⟩ := by simp [setAt]
      rw [e, if_pos ⟨hc, rfl⟩]
    · have e : setAt entry slot ⟨nm, c⟩ i = entry i := by simp [setAt, hi]
      rw [e, if_neg (habs i (Nat.le_refl i) (by omega))]
      exact ih (i + 1) (by omega) (by omega) (fun j hj1 hj2 => habs j (by omega) (by omega))

theorem resolve_chain_congr (cfg : Config) (d d2 : Disk) (pre : List (List Char)) :
    ∀ cur, (∀ v ∈ cur :: resolve_chain cfg d cur pre, ∀ t,
        lookup_component cfg d v t ≠ cfg.UNALLOCATED_INODE →
        lookup_component cfg d2 v t = lookup_component cfg d v t) →
      (∀ r ∈ resolve_chain cfg d cur pre, r ≠ cfg.UNALLOCATED_INODE) →
      resolve_chain cfg d2 cur pre = resolve_chain cfg d cur pre := by
  induction pre with
  | nil => intro cur _ _; rfl
  | cons t pre ih =>
    intro cur hl hr
    have h1 : lookup_component cfg d cur t ≠ cfg.UNALLOCATED_INODE :=
      hr _ (by simp [resolve_chain])
    have e1 : lookup_component cfg d2 cur t = lookup_component cfg d cur t :=
      hl cur (by simp) t h1
    show lookup_component cfg d2 cur t :: resolve_chain cfg d2 (lookup_component cfg d2 cur t) pre
      = lookup_component cfg d cur t :: resolve_chain cfg d (lookup_component cfg d cur t) pre
    rw [e1]
    congr 1
    apply ih
    · intro v hv
      apply hl
      simp only [resolve_chain, List.mem_cons] at hv ⊢
      right
      exact hv
    · intro r hr1
      exact hr r (by simp [resolve_chain, hr1])

theorem getLastD_mem_cons (l : List Nat) (a : Nat) : l.getLastD a ∈ a :: l := by
  induction l generalizing a with
  | nil => simp
  | cons b l ih =>
    rw [List.getLastD_cons]
    exact List.mem_cons_of_mem _ (ih b)

/-! ## The round trip: reopening and reading -/

theorem scan_inode_flags_bound (flag : Nat → Nat) (fuel : Nat) :
    ∀ i c fl, scan_inode_flags flag fuel i = some (c, fl) → c < (i + fuel) * 8 := by
  induction fuel with
  | zero => intro i c fl h; simp [scan_inode_flags] at h
  | succ fuel ih =>
    intro i c fl h
    simp only [scan_inode_flags] at h
    split at h
    · next bit _ =>
      have hc : i * 8 + (7 - bit % 8) = c := (Prod.mk.inj (Option.some.inj h)).1
      omega
    · have := ih (i + 1) c fl h
      omega

theorem fill_cache_spec (cfg : Config) (d : Disk) (G : Nat → Nat) (fuel : Nat) :
    ∀ (i : Nat) (b : BLOCK) (cache : Int → Nat), 1 ≤ i → b = d (G (i - 1)) →
      (∀ k, k + 1 < i + fuel → (d (G k)).next_block = G (k + 1)) →
      (∀ k, k < i + fuel → G k ≠ cfg.UNALLOCATED_BLOCK) →
      (∀ k < i, cache (k : Int) = G k) →
      ∀ k < i + fuel, fill_cache cfg d fuel i b cache (k : Int) = G k := by
  induction fuel with
  | zero =>
    intro i b cache _ _ _ _ hc k hk
    exact hc k (by omega)
  | succ fuel ih =>
    intro i b cache hi hb hlink halloc hc k hk
    have hnext : b.next_block = G i := by
      rw [hb, hlink (i - 1) (by omega)]
      congr 1
      omega
    simp only [fill_cache]
    rw [hnext, if_pos (halloc i (by omega))]
    apply ih (i + 1) _ _ (by omega) rfl
      (fun k hk => hlink k (by omega)) (fun k hk => halloc k (by omega)) _ k (by omega)
    intro k hk
    unfold setCache
    by_cases hki : k = i
    · rw [if_pos (by rw [hki]), hki]
    · rw [if_neg (by omega)]
      exact hc k (by omega)

theorem open_cache_spec (cfg : Config) (d : Disk) (G : Nat → Nat) (inode : INODE)
    (nb : Nat) (cache : Int → Nat) (h0 : G 0 = inode.content)
    (hlink : ∀ k, k + 1 < nb → (d (G k)).next_block = G (k + 1))
    (halloc : ∀ k, k < nb → G k ≠ cfg.UNALLOCATED_BLOCK) :
    ∀ k < nb, open_cache cfg d inode nb cache (k : Int) = G k := by
  intro k hk
  unfold open_cache virtual_disk_read_block
  apply fill_cache_spec cfg d G (nb - 1) 1 _ _ (Nat.le_refl 1) (by rw [h0])
    (fun k hk => hlink k (by omega)) (fun k hk => halloc k (by omega)) _ k (by omega)
  intro k hk
  have hk0 : k = 0 := by omega
  subst hk0
  simp [setCache, h0]

theorem lt_blocks_iff (D n a : Nat) (hD : 0 < D) : a < (n + D - 1) / D ↔ a * D < n := by
  have h : a + 1 ≤ (n + D - 1) / D ↔ (a + 1) * D ≤ n + D - 1 := Nat.le_div_iff_mul_le hD
  have hm : (a + 1) * D = a * D + D := Nat.succ_mul a D
  constructor
  · intro h1
    have := h.mp h1
    omega
  · intro h1
    have := h.mpr (by omega)
    omega

theorem oufs_fopen_w_new (cfg : Config) (d d1 : Disk) (cwd path : List Char)
    (parent c : Nat) (nm : List Char) (m : OUFILE) (nm0 : List Char) (la : Char)
    (hfind : oufs_find_file cfg d cwd path = ⟨0, parent, cfg.UNALLOCATED_INODE, some nm⟩)
    (hparent : parent ≠ cfg.UNALLOCATED_INODE)
    (hcreate : oufs_create_file cfg d parent nm = (c, d1))
    (hc : c ≠ cfg.UNALLOCATED_INODE) :
    oufs_fopen cfg d cwd path ['w'] m nm0 la =
      (some ⟨c, 'w', 0, 0, m.block_reference_cache⟩, d1) := by
  unfold oufs_fopen
  simp only [List.headD, hfind, Option.getD_some, hcreate]
  rw [if_neg (by decide), if_neg (by decide), if_neg hparent, if_neg (by decide),
    if_neg (by decide), if_pos trivial, if_neg hc]

theorem oufs_fopen_r_existing (cfg : Config) (d : Disk) (cwd path : List Char)
    (parent c : Nat) (nm : Option (List Char)) (m : OUFILE) (nm0 : List Char) (la : Char)
    (hfind : oufs_find_file cfg d cwd path = ⟨0, parent, c, nm⟩)
    (hparent : parent ≠ cfg.UNALLOCATED_INODE) (hc : c ≠ cfg.UNALLOCATED_INODE)
    (htype : (oufs_read_inode_by_reference cfg d c).type = FILE_TYPE) :
    oufs_fopen cfg d cwd path ['r'] m nm0 la =
      (some ⟨c, 'r', 0,
        ((oufs_read_inode_by_reference cfg d c).size + cfg.DATA_BLOCK_SIZE - 1)
          / cfg.DATA_BLOCK_SIZE,
        open_cache cfg d (oufs_read_inode_by_reference cfg d c)
          (((oufs_read_inode_by_reference cfg d c).size + cfg.DATA_BLOCK_SIZE - 1)
            / cfg.DATA_BLOCK_SIZE) m.block_reference_cache⟩, d) := by
  unfold oufs_fopen
  simp only [List.headD, hfind]
  rw [if_neg (by decide), if_neg (by decide), if_neg hparent, if_neg (by decide),
    if_pos trivial, if_neg hc, if_neg (by rw [htype]; exact fun h => h rfl)]

/-! ## The round trip: assembling the pieces -/

theorem directory_after_write (cfg : Config) (d d2 : Disk) (cwd path : List Char) (n : Nat)
    (pre : List (List Char)) (cn : List Char) (c : Nat) (flag : Nat → Nat) (slot : Nat)
    (h : RoundTripReady cfg d cwd path n pre cn c flag slot)
    (hframe : ∀ r, (∀ k < blocks_needed cfg n, r ≠ free_block d k) →
      r ≠ MASTER_BLOCK_REFERENCE → r ≠ table_block cfg c →
      d2 r = created_disk cfg d ((resolve_chain cfg d 0 pre).getLastD 0)
        (truncate_name cfg cn) c flag slot r)
    (hinodes : ∀ v, v ≠ c → (∀ k < blocks_needed cfg n, table_block cfg v ≠ free_block d k) →
      oufs_read_inode_by_reference cfg d2 v =
        oufs_read_inode_by_reference cfg
          (created_disk cfg d ((resolve_chain cfg d 0 pre).getLastD 0)
            (truncate_name cfg cn) c flag slot) v) :
    ∀ v ∈ 0 :: resolve_chain cfg d 0 pre,
      directory_of cfg d2 v =
        if (oufs_read_inode_by_reference cfg d v).content =
            (oufs_read_inode_by_reference cfg d ((resolve_chain cfg d 0 pre).getLastD 0)).content
        then setAt (directory_of cfg d ((resolve_chain cfg d 0 pre).getLastD 0)) slot
          ⟨truncate_name cfg cn, c⟩
        else directory_of cfg d v := by
  intro v hv
  have hparentV : (resolve_chain cfg d 0 pre).getLastD 0 ∈ 0 :: resolve_chain cfg d 0 pre :=
    getLastD_mem_cons _ _
  have hvc : v ≠ c := fun e => h.inode_unused (e ▸ hv)
  have hvV : v ∈ c :: 0 :: resolve_chain cfg d 0 pre := List.mem_cons_of_mem _ hv
  have hcV : c ∈ c :: 0 :: resolve_chain cfg d 0 pre := List.mem_cons_self _ _
  have hpV : (resolve_chain cfg d 0 pre).getLastD 0 ∈ c :: 0 :: resolve_chain cfg d 0 pre :=
    List.mem_cons_of_mem _ hparentV
  have e1 : (oufs_read_inode_by_reference cfg d2 v).content =
      (oufs_read_inode_by_reference cfg d v).content := by
    rw [hinodes v hvc (fun k hk e => h.free_not_table k hk v hvV e.symm)]
    exact created_disk_inode_content cfg d _ _ c flag slot v hvc
      (h.directory_not_table _ hparentV v hvV)
  unfold directory_of
  rw [e1, hframe _ (fun k hk e => h.free_not_directory k hk v hv e.symm)
    (h.directory_not_master v hv) (h.directory_not_table v hv c hcV),
    created_disk_block cfg d _ _ c flag slot _ (h.directory_not_master v hv)
      (h.directory_not_table v hv c hcV) (h.directory_not_table v hv _ hpV)]
  by_cases hpc : (oufs_read_inode_by_reference cfg d v).content =
      (oufs_read_inode_by_reference cfg d ((resolve_chain cfg d 0 pre).getLastD 0)).content
  · rw [if_pos hpc, if_pos hpc, hpc]
    rfl
  · rw [if_neg hpc, if_neg hpc]

theorem lookup_component_eq (cfg : Config) (d : Disk) (v : Nat) (t : List Char) :
    lookup_component cfg d v t =
      find_directory_element_from cfg (directory_of cfg d v) (truncate_name cfg t)
        cfg.N_DIRECTORY_ENTRIES_PER_BLOCK 0 := rfl

theorem lookup_after_write (cfg : Config) (d d2 : Disk) (cwd path : List Char) (n : Nat)
    (pre : List (List Char)) (cn : List Char) (c : Nat) (flag : Nat → Nat) (slot : Nat)
    (h : RoundTripReady cfg d cwd path n pre cn c flag slot)
    (hc : c ≠ cfg.UNALLOCATED_INODE)
    (hdir : ∀ v ∈ 0 :: resolve_chain cfg d 0 pre,
      directory_of cfg d2 v =
        if (oufs_read_inode_by_reference cfg d v).content =
            (oufs_read_inode_by_reference cfg d ((resolve_chain cfg d 0 pre).getLastD 0)).content
        then setAt (directory_of cfg d ((resolve_chain cfg d 0 pre).getLastD 0)) slot
          ⟨truncate_name cfg cn, c⟩
        else directory_of cfg d v) :
    (∀ v ∈ 0 :: resolve_chain cfg d 0 pre, ∀ t,
      lookup_component cfg d v t ≠ cfg.UNALLOCATED_INODE →
      lookup_component cfg d2 v t = lookup_component cfg d v t) ∧
    lookup_component cfg d2 ((resolve_chain cfg d 0 pre).getLastD 0) cn = c := by
  have hparentV : (resolve_chain cfg d 0 pre).getLastD 0 ∈ 0 :: resolve_chain cfg d 0 pre :=
    getLastD_mem_cons _ _
  obtain ⟨hs1, hs2, hs3⟩ := first_unallocated_from_some cfg _ _ 0 slot h.free_slot
  have hnew := h.is_new
  rw [lookup_component_eq] at hnew
  refine ⟨?_, ?_⟩
  · intro v hv t ht
    rw [lookup_component_eq, hdir v hv]
    by_cases hpc : (oufs_read_inode_by_reference cfg d v).content =
        (oufs_read_inode_by_reference cfg d ((resolve_chain cfg d 0 pre).getLastD 0)).content
    · rw [if_pos hpc]
      have hsame : directory_of cfg d v
          = directory_of cfg d ((resolve_chain cfg d 0 pre).getLastD 0) := by
        unfold directory_of
        rw [hpc]
      have hne : truncate_name cfg cn ≠ truncate_name cfg t := by
        intro e
        apply ht
        rw [lookup_component_eq, hsame, ← e]
        exact hnew
      rw [find_directory_element_from_setAt_other cfg _ _ _ c slot hs3 hne,
        lookup_component_eq, hsame]
    · rw [if_neg hpc, lookup_component_eq]
  · rw [lookup_component_eq, hdir _ hparentV, if_pos rfl]
    apply find_directory_element_from_setAt_new cfg _ _ c slot hc _ 0 hs1 hs2
    rcases find_directory_element_from_found cfg
      (directory_of cfg d ((resolve_chain cfg d 0 pre).getLastD 0)) (truncate_name cfg cn)
      cfg.N_DIRECTORY_ENTRIES_PER_BLOCK 0 with hf | hf
    · exact absurd hnew hf
    · exact hf

theorem blocks_needed_bound (cfg : Config) (n k : Nat) (hD : 0 < cfg.DATA_BLOCK_SIZE)
    (h : k * cfg.DATA_BLOCK_SIZE < n) : k < blocks_needed cfg n := by
  have := (lt_blocks_iff cfg.DATA_BLOCK_SIZE n k hD).mpr h
  unfold blocks_needed
  omega

/-- C1.  Write/read round trip.  On a disk that is ready for it (the path names
a new file in an existing directory with a free entry, a free inode exists,
and the free list is well formed and holds the blocks needed), for every
`n ≤ DATA_BLOCK_SIZE * MAX_BLOCKS_IN_FILE` and every buffer `wbuf`: creating
the file with `oufs_fopen` in mode `w`, writing `n` bytes with one `oufs_fwrite`,
closing, reopening the same path in mode `r` and calling `oufs_fread` with
`len = n` succeeds, both calls return `n`, and the first `n` bytes of the read
buffer are the bytes written.  `n = 0` and every `n` that straddles a block
boundary are included. -/
theorem oufs_write_read_round_trip (cfg : Config) (d : Disk) (cwd path : List Char)
    (wbuf rbuf : Nat → Nat) (n : Nat) (pre : List (List Char)) (cn : List Char) (c : Nat)
    (flag : Nat → Nat) (slot : Nat) (m1 m2 : OUFILE) (nm1 nm2 : List Char) (la : Char)
    (ub ubB : BLOCK) (h : RoundTripReady cfg d cwd path n pre cn c flag slot) :
    ∃ buf, write_then_read cfg d cwd path wbuf n rbuf m1 m2 nm1 nm2 la ub ubB
        = some ((n : Int), (n : Int), buf) ∧ ∀ j < n, buf j = wbuf j := by
  have hD := h.data_block_size
  have hparentV : (resolve_chain cfg d 0 pre).getLastD 0 ∈ 0 :: resolve_chain cfg d 0 pre :=
    getLastD_mem_cons _ _
  have hcV : c ∈ c :: 0 :: resolve_chain cfg d 0 pre := List.mem_cons_self _ _
  have hcU : c ≠ cfg.UNALLOCATED_INODE := by
    have h1 := scan_inode_flags_bound _ _ 0 c flag h.free_inode
    have h2 := Nat.div_mul_le_self cfg.N_INODES 8
    have h3 := h.inode_range
    omega
  have h0U : (0 : Nat) ≠ cfg.UNALLOCATED_INODE := by
    have h1 := scan_inode_flags_bound _ _ 0 c flag h.free_inode
    have h2 := Nat.div_mul_le_self cfg.N_INODES 8
    have h3 := h.inode_range
    omega
  have hparentU : (resolve_chain cfg d 0 pre).getLastD 0 ≠ cfg.UNALLOCATED_INODE := by
    rcases List.mem_cons.mp hparentV with e | e
    · rw [e]; exact h0U
    · exact h.resolves _ e
  have hcp : c ≠ (resolve_chain cfg d 0 pre).getLastD 0 :=
    fun e => h.inode_unused (e ▸ hparentV)
  -- the first open creates the file
  have hfind1 : oufs_find_file cfg d cwd path =
      ⟨0, (resolve_chain cfg d 0 pre).getLastD 0, cfg.UNALLOCATED_INODE,
        some (truncate_name cfg cn)⟩ := by
    unfold oufs_find_file
    rw [h.tokens, find_file_loop_missing cfg d pre [] cn 0 0 0 none h.resolves h.is_new]
    simp
  have hcreate := oufs_create_file_eq cfg d ((resolve_chain cfg d 0 pre).getLastD 0)
    (truncate_name cfg cn) c flag slot h.room h.free_inode h.free_slot
  have hopen1 := oufs_fopen_w_new cfg d _ cwd path _ c _ m1 nm1 la hfind1 hparentU hcreate hcU
  -- the write
  obtain ⟨w1, w2, w3, w4, w5, w6⟩ := oufs_fwrite_fresh cfg
    (created_disk cfg d ((resolve_chain cfg d 0 pre).getLastD 0) (truncate_name cfg cn)
      c flag slot)
    (free_block d) wbuf n c (blocks_needed cfg n)
    ⟨c, 'w', 0, 0, m1.block_reference_cache⟩ ub ubB hD h.max_blocks h.length
    (by unfold blocks_needed; omega)
    (fun k hk => blocks_needed_bound cfg n k hD hk)
    (fun k => by rw [created_disk_next_block]; rfl)
    h.free_blocks h.free_distinct
    (by rw [created_disk_master cfg d _ _ c flag slot (h.directory_not_master _ hparentV)]; rfl)
    (show ('w' : Char) ≠ 'r' by decide) rfl rfl
    (created_disk_inode_new cfg d _ _ c flag slot hcp (h.directory_not_table _ hparentV c hcV))
    h.free_not_master
    (fun k hk => h.free_not_table k hk c hcV)
  generalize hd2 : (oufs_fwrite cfg
    (created_disk cfg d ((resolve_chain cfg d 0 pre).getLastD 0) (truncate_name cfg cn)
      c flag slot) ⟨c, 'w', 0, 0, m1.block_reference_cache⟩ wbuf n ub ubB).2.2 = d2
    at w2 w3 w4 w5 w6
  -- the path resolves to the new inode afterwards
  have hdir := directory_after_write cfg d d2 cwd path n pre cn c flag slot h w5 w6
  obtain ⟨hl1, hl2⟩ := lookup_after_write cfg d d2 cwd path n pre cn c flag slot h hcU hdir
  have hchain2 : resolve_chain cfg d2 0 pre = resolve_chain cfg d 0 pre :=
    resolve_chain_congr cfg d d2 pre 0 hl1 h.resolves
  have hfind2 : oufs_find_file cfg d2 cwd path =
      ⟨0, (resolve_chain cfg d 0 pre).getLastD 0, c, some (truncate_name cfg cn)⟩ := by
    unfold oufs_find_file
    rw [h.tokens, find_file_loop_found cfg d2 pre cn 0 0 0 none
      (by rw [hchain2]; exact h.resolves) (by rw [hchain2, hl2]; exact hcU), hchain2, hl2]
  have hopen2 := oufs_fopen_r_existing cfg d2 cwd path _ c _ m2 nm2 la hfind2 hparentU hcU
    (by rw [w2])
  rw [w2] at hopen2
  simp only [] at hopen2
  -- the read
  have hcache := open_cache_spec cfg d2 (free_block d) ⟨FILE_TYPE, 1, free_block d 0, n⟩
    ((n + cfg.DATA_BLOCK_SIZE - 1) / cfg.DATA_BLOCK_SIZE) m2.block_reference_cache rfl
    (fun k hk => w4 k ((lt_blocks_iff _ _ _ hD).mp hk))
    (fun k hk => h.free_blocks k (by unfold blocks_needed; omega))
  obtain ⟨r1, _, r3⟩ := oufs_fread_result cfg d2
    ⟨c, 'r', 0, (n + cfg.DATA_BLOCK_SIZE - 1) / cfg.DATA_BLOCK_SIZE,
      open_cache cfg d2 ⟨FILE_TYPE, 1, free_block d 0, n⟩
        ((n + cfg.DATA_BLOCK_SIZE - 1) / cfg.DATA_BLOCK_SIZE) m2.block_reference_cache⟩
    rbuf n hD rfl (by rw [w2]) (by rw [w2]; exact Nat.zero_le _)
    (by rw [w2]; exact size_le_blocks _ _ hD)
  rw [w2] at r1 r3
  simp only [Nat.sub_zero, Nat.min_self, Nat.zero_add] at r1 r3
  refine ⟨(oufs_fread cfg d2
    ⟨c, 'r', 0, (n + cfg.DATA_BLOCK_SIZE - 1) / cfg.DATA_BLOCK_SIZE,
      open_cache cfg d2 ⟨FILE_TYPE, 1, free_block d 0, n⟩
        ((n + cfg.DATA_BLOCK_SIZE - 1) / cfg.DATA_BLOCK_SIZE) m2.block_reference_cache⟩
    rbuf n).2.2, ?_, ?_⟩
  · unfold write_then_read
    rw [hopen1]
    simp only []
    rw [hd2, hopen2]
    simp only []
    rw [w1, r1]
  · intro j hj
    rw [r3 j, if_pos hj]
    unfold file_byte
    have hjb : j / cfg.DATA_BLOCK_SIZE < (n + cfg.DATA_BLOCK_SIZE - 1) / cfg.DATA_BLOCK_SIZE := by
      rw [lt_blocks_iff _ _ _ hD]
      have := Nat.div_mul_le_self j cfg.DATA_BLOCK_SIZE
      omega
    rw [hcache _ hjb]
    exact w3 j hj

/-- C1 (witness): 300 bytes, more than one block, written to the new file `f`
in the root of the sample disk. -/
theorem oufs_write_read_round_trip_witness :
    ∃ buf, write_then_read stdConfig sampleDisk ['/'] ['f'] (fun j => j % 251 + 1) 300
        (fun _ => 7) junkFile junkFile [] [] 'a' zeroBlock zeroBlock
        = some (((300 : Nat) : Int), ((300 : Nat) : Int), buf) ∧
      ∀ j < 300, buf j = (fun j => j % 251 + 1) j :=
  oufs_write_read_round_trip stdConfig sampleDisk ['/'] ['f'] (fun j => j % 251 + 1)
    (fun _ => 7) 300 [] ['f'] 1
    (setAt (sampleDisk MASTER_BLOCK_REFERENCE).content.asMaster.inode_allocated_flag 0
      ((sampleDisk MASTER_BLOCK_REFERENCE).content.asMaster.inode_allocated_flag 0 + 2 ^ 6))
    2 junkFile junkFile [] [] 'a' zeroBlock zeroBlock
    { data_block_size := by decide
      max_blocks := by decide
      inode_range := by decide
      length := by decide
      tokens := by decide
      resolves := by decide
      is_new := by decide
      room := by decide
      free_slot := by decide
      free_inode := rfl
      inode_unused := by decide
      free_blocks := by decide
      free_distinct := by decide
      free_not_master := by decide
      free_not_table := by decide
      free_not_directory := by decide
      directory_not_master := by decide
      directory_not_table := by decide }

/-! ## `oufs_mkdir`: the slot of the new entry -/

/-- C11 (the code at the failing input).  On `fourDirDisk` the root exists, its
slot 6 is unallocated (the lowest unallocated slot at an index from 2 on), the
name `e` is absent, inode 5 is free and block 10 heads the free list.
`oufs_mkdir` of `/e` returns 0, allocates inode 5 as a directory in block 10
and raises the size of the root from 6 to 7, but its loop over the slots stops
before the last one: slot 6 stays unallocated, no entry carries the name, and
the path still resolves to no inode. -/
theorem oufs_mkdir_skips_last_slot :
    oufs_find_file stdConfig fourDirDisk ['/'] ['/', 'e'] = ⟨0, 0, 65535, some ['e']⟩ ∧
    first_unallocated_from stdConfig (directory_of stdConfig fourDirDisk 0) 5 2 = some 6 ∧
    (scan_inode_flags (fourDirDisk 0).content.asMaster.inode_allocated_flag 15 0).map Prod.fst
      = some 5 ∧
    free_block fourDirDisk 0 = 10 ∧
    (oufs_read_inode_by_reference stdConfig fourDirDisk 0).size = 6 ∧
    (oufs_mkdir stdConfig fourDirDisk ['/'] ['/', 'e'] []).1 = 0 ∧
    oufs_read_inode_by_reference stdConfig
      (oufs_mkdir stdConfig fourDirDisk ['/'] ['/', 'e'] []).2 5 = ⟨DIRECTORY_TYPE, 1, 10, 2⟩ ∧
    (oufs_read_inode_by_reference stdConfig
      (oufs_mkdir stdConfig fourDirDisk ['/'] ['/', 'e'] []).2 0).size = 7 ∧
    (directory_of stdConfig
      (oufs_mkdir stdConfig fourDirDisk ['/'] ['/', 'e'] []).2 0 6).inode_reference = 65535 ∧
    (∀ i < 7, (directory_of stdConfig
      (oufs_mkdir stdConfig fourDirDisk ['/'] ['/', 'e'] []).2 0 i).name ≠ ['e']) ∧
    (oufs_find_file stdConfig (oufs_mkdir stdConfig fourDirDisk ['/'] ['/', 'e'] []).2
      ['/'] ['/', 'e']).child = 65535 := by
  set_option maxRecDepth 100000 in decide

/-- C12 (the code at the failing input).  On `fullRootDisk` the root has size 7
and no unallocated slot.  `oufs_mkdir` of `/e` returns 0 and changes the disk:
the bit of inode 6 is set in the bitmap (252 becomes 254), block 10 leaves the
head of the free list, which moves on to block 11, and the size of the root
becomes 8. -/
theorem oufs_mkdir_into_full_directory :
    (oufs_read_inode_by_reference stdConfig fullRootDisk 0).size
      = stdConfig.N_DIRECTORY_ENTRIES_PER_BLOCK ∧
    first_unallocated_from stdConfig (directory_of stdConfig fullRootDisk 0) 7 0 = none ∧
    (oufs_find_file stdConfig fullRootDisk ['/'] ['/', 'e']) = ⟨0, 0, 65535, some ['e']⟩ ∧
    (oufs_mkdir stdConfig fullRootDisk ['/'] ['/', 'e'] []).1 = 0 ∧
    (fullRootDisk 0).content.asMaster.inode_allocated_flag 0 = 252 ∧
    ((oufs_mkdir stdConfig fullRootDisk ['/'] ['/', 'e'] []).2
      0).content.asMaster.inode_allocated_flag 0 = 254 ∧
    free_block fullRootDisk 0 = 10 ∧
    free_block (oufs_mkdir stdConfig fullRootDisk ['/'] ['/', 'e'] []).2 0 = 11 ∧
    (oufs_read_inode_by_reference stdConfig
      (oufs_mkdir stdConfig fullRootDisk ['/'] ['/', 'e'] []).2 0).size = 8 := by
  set_option maxRecDepth 100000 in decide

/-! ## `oufs_remove` and `oufs_link` at concrete disks -/

/-- C15 (the code at the failing input).  On `linkedDisk` the file of inode 1
has two references, the names `f` and `h` of the root.  `oufs_remove` of `/f`
returns 0 and clears the entry, but the decremented count stays in the local
copy of the inode: the record on disk still has `n_references = 2`, where the
claim has 1. -/
theorem oufs_remove_keeps_reference_count :
    oufs_read_inode_by_reference stdConfig linkedDisk 1 = ⟨FILE_TYPE, 2, 6, 1⟩ ∧
    oufs_find_file stdConfig linkedDisk ['/'] ['/', 'f'] = ⟨0, 0, 1, some ['f']⟩ ∧
    (oufs_remove stdConfig linkedDisk ['/'] ['/', 'f']).1 = 0 ∧
    oufs_read_inode_by_reference stdConfig
      (oufs_remove stdConfig linkedDisk ['/'] ['/', 'f']).2 1 = ⟨FILE_TYPE, 2, 6, 1⟩ ∧
    (directory_of stdConfig
      (oufs_remove stdConfig linkedDisk ['/'] ['/', 'f']).2 0 2).inode_reference = 65535 := by
  set_option maxRecDepth 100000 in decide

/-- C16 (the code at the failing input).  On `stepDisk1` the file `/f` is inode 1
with one reference and the data chain of the single block 6; the free list
runs from block 7 to block 127.  `oufs_remove` of `/f` returns 0, clears the bit
of inode 1 (192 becomes 128) and zeroes the record with content
`UNALLOCATED_BLOCK`, but block 6 is not appended to the free list: the list
still ends in block 127, whose link is still `UNALLOCATED_BLOCK`, and its head
is unchanged. -/
theorem oufs_remove_leaks_blocks :
    oufs_read_inode_by_reference stdConfig stepDisk1 1 = ⟨FILE_TYPE, 1, 6, 1⟩ ∧
    (stepDisk1 6).next_block = 65534 ∧
    (stepDisk1 0).content.asMaster.unallocated_front = 7 ∧
    (stepDisk1 0).content.asMaster.unallocated_end = 127 ∧
    (stepDisk1 0).content.asMaster.inode_allocated_flag 0 = 192 ∧
    (oufs_remove stdConfig stepDisk1 ['/'] ['/', 'f']).1 = 0 ∧
    oufs_read_inode_by_reference stdConfig
      (oufs_remove stdConfig stepDisk1 ['/'] ['/', 'f']).2 1 = ⟨UNUSED_TYPE, 0, 65534, 0⟩ ∧
    ((oufs_remove stdConfig stepDisk1 ['/'] ['/', 'f']).2
      0).content.asMaster.inode_allocated_flag 0 = 128 ∧
    ((oufs_remove stdConfig stepDisk1 ['/'] ['/', 'f']).2
      0).content.asMaster.unallocated_front = 7 ∧
    ((oufs_remove stdConfig stepDisk1 ['/'] ['/', 'f']).2
      0).content.asMaster.unallocated_end = 127 ∧
    ((oufs_remove stdConfig stepDisk1 ['/'] ['/', 'f']).2 127).next_block = 65534 ∧
    (∀ k < 121, free_block (oufs_remove stdConfig stepDisk1 ['/'] ['/', 'f']).2 k = 7 + k) ∧
    free_block (oufs_remove stdConfig stepDisk1 ['/'] ['/', 'f']).2 121 = 65534 := by
  set_option maxRecDepth 100000 in decide

/-- C17 (the code at the failing input).  On `linkedDisk` slot 2 of the root
holds `f` and slot 3 holds `h`, both with the reference 1.  `oufs_remove` of
`/h` returns 0 and lowers the size of the root from 4 to 3, but it clears the
first entry that references inode 1: slot 2, the entry `f`, becomes
unallocated, and slot 3, the entry named by the path, is unchanged, so that
`/h` still resolves to inode 1 and `/f` no longer resolves. -/
theorem oufs_remove_clears_first_reference :
    directory_of stdConfig linkedDisk 0 2 = ⟨['f'], 1⟩ ∧
    directory_of stdConfig linkedDisk 0 3 = ⟨['h'], 1⟩ ∧
    (oufs_read_inode_by_reference stdConfig linkedDisk 0).size = 4 ∧
    oufs_find_file stdConfig linkedDisk ['/'] ['/', 'h'] = ⟨0, 0, 1, some ['h']⟩ ∧
    (oufs_read_inode_by_reference stdConfig linkedDisk 1).type = FILE_TYPE ∧
    (oufs_remove stdConfig linkedDisk ['/'] ['/', 'h']).1 = 0 ∧
    directory_of stdConfig (oufs_remove stdConfig linkedDisk ['/'] ['/', 'h']).2 0 2
      = ⟨[], 65535⟩ ∧
    directory_of stdConfig (oufs_remove stdConfig linkedDisk ['/'] ['/', 'h']).2 0 3
      = ⟨['h'], 1⟩ ∧
    (oufs_read_inode_by_reference stdConfig
      (oufs_remove stdConfig linkedDisk ['/'] ['/', 'h']).2 0).size = 3 ∧
    (oufs_find_file stdConfig (oufs_remove stdConfig linkedDisk ['/'] ['/', 'h']).2
      ['/'] ['/', 'h']).child = 1 ∧
    (oufs_find_file stdConfig (oufs_remove stdConfig linkedDisk ['/'] ['/', 'h']).2
      ['/'] ['/', 'f']).child = 65535 := by
  set_option maxRecDepth 100000 in decide

/-- The function `oufs_link` writes nothing: whatever it returns, the disk is the one
it was given. -/
theorem oufs_link_disk (cfg : Config) (d : Disk) (cwd path_src path_dst : List Char) :
    (oufs_link cfg d cwd path_src path_dst).2 = d := by
  unfold oufs_link
  simp only []
  repeat' split
  all_goals rfl

/-- C18 (the code at the failing input).  On `stepDisk1` the source `/f` exists
(inode 1, one reference), the destination name `g` is absent and its parent,
the root, has size 3 of 7.  `oufs_link` returns 0 and leaves the disk as it was:
`/g` still resolves to no inode, no entry of the root carries the name or a
second reference to inode 1, and inode 1 still has one reference. -/
theorem oufs_link_does_nothing :
    oufs_find_file stdConfig stepDisk1 ['/'] ['/', 'f'] = ⟨0, 0, 1, some ['f']⟩ ∧
    oufs_find_file stdConfig stepDisk1 ['/'] ['/', 'g'] = ⟨0, 0, 65535, some ['g']⟩ ∧
    (oufs_read_inode_by_reference stdConfig stepDisk1 0).size = 3 ∧
    oufs_read_inode_by_reference stdConfig stepDisk1 1 = ⟨FILE_TYPE, 1, 6, 1⟩ ∧
    (oufs_link stdConfig stepDisk1 ['/'] ['/', 'f'] ['/', 'g']).1 = 0 ∧
    (oufs_find_file stdConfig (oufs_link stdConfig stepDisk1 ['/'] ['/', 'f'] ['/', 'g']).2
      ['/'] ['/', 'g']).child = 65535 ∧
    (∀ i < 7, i ≠ 2 → (directory_of stdConfig
      (oufs_link stdConfig stepDisk1 ['/'] ['/', 'f'] ['/', 'g']).2 0 i).inode_reference ≠ 1) ∧
    oufs_read_inode_by_reference stdConfig
      (oufs_link stdConfig stepDisk1 ['/'] ['/', 'f'] ['/', 'g']).2 1 = ⟨FILE_TYPE, 1, 6, 1⟩ := by
  set_option maxRecDepth 100000 in decide

/-! ## `oufs_rmdir` of a directory that is not empty -/

/-- C13: whenever the inode that the path resolves to has a size greater than
2, `oufs_rmdir` returns -1, a status other than 0, and the disk it leaves is the
disk it was given, block for block. -/
theorem oufs_rmdir_not_empty (cfg : Config) (d : Disk) (cwd path : List Char)
    (hsize : 2 < (oufs_read_inode_by_reference cfg d (oufs_find_file cfg d cwd path).child).size) :
    (oufs_rmdir cfg d cwd path).1 = -1 ∧ (oufs_rmdir cfg d cwd path).1 ≠ 0 ∧
    ∀ r, (oufs_rmdir cfg d cwd path).2 r = d r := by
  have hret : ¬ (oufs_find_file cfg d cwd path).ret < -1 := by
    rcases oufs_find_file_ret cfg d cwd path with h | h <;> rw [h] <;> decide
  have hcond : (oufs_read_inode_by_reference cfg d (oufs_find_file cfg d cwd path).parent).size ≤ 2 ∨
      (oufs_read_inode_by_reference cfg d (oufs_find_file cfg d cwd path).child).size > 2 :=
    Or.inr hsize
  have h : oufs_rmdir cfg d cwd path = (-1, d) := by
    unfold oufs_rmdir
    simp only [hret, if_false]
    by_cases ht : (oufs_read_inode_by_reference cfg d (oufs_find_file cfg d cwd path).child).type
        ≠ DIRECTORY_TYPE
    · rw [if_pos ht]
    · rw [if_neg ht, if_pos hcond]
  rw [h]
  exact ⟨rfl, (show (-1 : Int) ≠ 0 by decide), fun _ => rfl⟩

/-- C13 at a concrete input: on `nestedDisk` the path `/a` resolves to the
directory of inode 1, which holds `b` and has size 3. -/
theorem oufs_rmdir_not_empty_witness :
    2 < (oufs_read_inode_by_reference stdConfig nestedDisk
      (oufs_find_file stdConfig nestedDisk ['/'] ['/', 'a']).child).size ∧
    (oufs_rmdir stdConfig nestedDisk ['/'] ['/', 'a']).1 = -1 ∧
    (oufs_rmdir stdConfig nestedDisk ['/'] ['/', 'a']).1 ≠ 0 ∧
    ∀ r, (oufs_rmdir stdConfig nestedDisk ['/'] ['/', 'a']).2 r = nestedDisk r :=
  ⟨by set_option maxRecDepth 100000 in decide,
    oufs_rmdir_not_empty stdConfig nestedDisk ['/'] ['/', 'a']
      (by set_option maxRecDepth 100000 in decide)⟩

/-! ## `oufs_format_disk`: the inode table and the root directory -/

theorem format_inodes_read (cfg : Config) (fuel : Nat) : ∀ (d : Disk) (i j : Nat),
    oufs_read_inode_by_reference cfg (format_inodes cfg d fuel i) j =
      if i ≤ j ∧ j < i + fuel then { zeroInode with content := cfg.UNALLOCATED_INODE }
      else oufs_read_inode_by_reference cfg d j := by
  induction fuel with
  | zero =>
    intro d i j
    have h : ¬ (i ≤ j ∧ j < i + 0) := by omega
    rw [if_neg h]
    rfl
  | succ n ih =>
    intro d i j
    show oufs_read_inode_by_reference cfg (format_inodes cfg _ n (i + 1)) j = _
    rw [ih]
    by_cases hj : j = i
    · subst hj
      have h1 : ¬ (j + 1 ≤ j ∧ j < j + 1 + n) := by omega
      have h2 : j ≤ j ∧ j < j + (n + 1) := by omega
      rw [if_neg h1, if_pos h2, read_inode_after_write]
    · rw [read_inode_write_other cfg d i j _ hj]
      by_cases h : i ≤ j ∧ j < i + (n + 1)
      · have h1 : i + 1 ≤ j ∧ j < i + 1 + n := by omega
        rw [if_pos h, if_pos h1]
      · have h1 : ¬ (i + 1 ≤ j ∧ j < i + 1 + n) := by omega
        rw [if_neg h, if_neg h1]

theorem format_inodes_block (cfg : Config) (fuel : Nat) : ∀ (d : Disk) (i r : Nat),
    (∀ j, i ≤ j → j < i + fuel → r ≠ table_block cfg j) →
    format_inodes cfg d fuel i r = d r := by
  induction fuel with
  | zero => intro d i r _; rfl
  | succ n ih =>
    intro d i r h
    show format_inodes cfg _ n (i + 1) r = _
    rw [ih _ _ _ (fun j h1 h2 => h j (by omega) (by omega))]
    exact write_inode_other_block cfg d i r _ (h i (Nat.le_refl i) (by omega))

theorem format_free_block (cfg : Config) (fuel : Nat) : ∀ (d : Disk) (i r : Nat),
    r < i ∨ i + fuel ≤ r → format_free cfg d fuel i r = d r := by
  induction fuel with
  | zero => intro d i r _; rfl
  | succ n ih =>
    intro d i r h
    show format_free cfg _ n (i + 1) r = _
    rw [ih _ _ _ (by omega)]
    exact write_block_other d i r _ (by omega)

theorem table_block_mono (cfg : Config) (i j : Nat) (h : i ≤ j) :
    table_block cfg i ≤ table_block cfg j := by
  unfold table_block
  exact Nat.succ_le_succ (Nat.div_le_div_right h)

/-- What `oufs_format_disk` leaves in the inode table, for every store and every
configuration with the layout of the header: the call returns 0, inode 0 is a directory of size
2 with one reference and content `ROOT_DIRECTORY_BLOCK`; that block maps `.`
and `..` to inode 0 and every other slot of its entry array is unallocated;
and every inode from 1 up to `N_INODES - 1` is unused with no reference, size
0 and the content that the format stores as unallocated sentinel, which is
`UNALLOCATED_INODE`.  The layout of the header is assumed: the inode table
ends before the root directory block, which lies below block 6, the first
block of the free list, and a directory block has no more entries than a table
block has inodes. -/
theorem oufs_format_disk_inodes (cfg : Config) (d : Disk)
    (htable : table_block cfg (cfg.N_INODES - 1) < cfg.ROOT_DIRECTORY_BLOCK)
    (hroot : cfg.ROOT_DIRECTORY_BLOCK < 6)
    (hentries : cfg.N_DIRECTORY_ENTRIES_PER_BLOCK ≤ cfg.N_INODES_PER_BLOCK)
    (hinode : cfg.ROOT_DIRECTORY_INODE = 0) :
    (oufs_format_disk cfg d).1 = 0 ∧
    oufs_read_inode_by_reference cfg (oufs_format_disk cfg d).2 0
      = ⟨DIRECTORY_TYPE, 1, cfg.ROOT_DIRECTORY_BLOCK, 2⟩ ∧
    directory_of cfg (oufs_format_disk cfg d).2 0 0 = ⟨['.'], 0⟩ ∧
    directory_of cfg (oufs_format_disk cfg d).2 0 1 = ⟨['.', '.'], 0⟩ ∧
    (∀ j, 2 ≤ j → j < cfg.N_DIRECTORY_ENTRIES_PER_BLOCK →
      (directory_of cfg (oufs_format_disk cfg d).2 0 j).inode_reference
        = cfg.UNALLOCATED_INODE) ∧
    (∀ i, 1 ≤ i → i < cfg.N_INODES →
      oufs_read_inode_by_reference cfg (oufs_format_disk cfg d).2 i
        = ⟨UNUSED_TYPE, 0, cfg.UNALLOCATED_INODE, 0⟩) := by
  have ht0 : table_block cfg 0 < cfg.ROOT_DIRECTORY_BLOCK :=
    Nat.lt_of_le_of_lt (table_block_mono cfg 0 _ (Nat.zero_le _)) htable
  have ht1 : 1 ≤ table_block cfg 0 := Nat.succ_le_succ (Nat.zero_le _)
  -- inode 0 survives the two last loops
  have hzero : oufs_read_inode_by_reference cfg (oufs_format_disk cfg d).2 0
      = ⟨DIRECTORY_TYPE, 1, cfg.ROOT_DIRECTORY_BLOCK, 2⟩ := by
    unfold oufs_format_disk
    simp only []
    rw [format_inodes_read]
    have h : ¬ (1 ≤ 0 ∧ 0 < 1 + (cfg.N_INODES - 1)) := by omega
    rw [if_neg h]
    rw [read_inode_of_block_eq cfg _ _ 0
      (format_free_block cfg _ _ _ _ (Or.inl (by omega)))]
    rw [read_inode_of_block_eq cfg _ _ 0
      (write_block_other _ _ _ _ (by omega))]
    rw [read_inode_after_write]
    rfl
  -- the root block survives them too
  have hblock : (oufs_format_disk cfg d).2 cfg.ROOT_DIRECTORY_BLOCK
      = (oufs_init_directory_structures cfg cfg.ROOT_DIRECTORY_BLOCK
          cfg.ROOT_DIRECTORY_INODE cfg.ROOT_DIRECTORY_INODE).2 := by
    unfold oufs_format_disk
    simp only []
    rw [format_inodes_block cfg _ _ _ _ (fun j _ h2 => by
      have := table_block_mono cfg j (cfg.N_INODES - 1) (by omega)
      omega)]
    rw [format_free_block cfg _ _ _ _ (Or.inl hroot)]
    exact write_block_same _ _ _
  have hdir : directory_of cfg (oufs_format_disk cfg d).2 0
      = (oufs_init_directory_structures cfg cfg.ROOT_DIRECTORY_BLOCK 0 0).2.content.asDirectory := by
    unfold directory_of
    rw [hzero]
    show ((oufs_format_disk cfg d).2 cfg.ROOT_DIRECTORY_BLOCK).content.asDirectory = _
    rw [hblock, hinode]
  refine ⟨rfl, hzero, ?_, ?_, ?_, ?_⟩
  · rw [hdir]; rfl
  · rw [hdir]; rfl
  · intro j h2 hj
    rw [hdir]
    show (if 2 ≤ j ∧ j < cfg.N_INODES_PER_BLOCK then _ else _ : DIRECTORY_ENTRY).inode_reference = _
    rw [if_pos ⟨h2, Nat.lt_of_lt_of_le hj hentries⟩]
  · intro i h1 hi
    unfold oufs_format_disk
    simp only []
    rw [format_inodes_read]
    have h : 1 ≤ i ∧ i < 1 + (cfg.N_INODES - 1) := by omega
    rw [if_pos h]
    rfl

/-- The same under the constants of the course header, on a store of zeroed
blocks. -/
theorem oufs_format_disk_inodes_witness :
    (table_block stdConfig (stdConfig.N_INODES - 1) < stdConfig.ROOT_DIRECTORY_BLOCK ∧
      stdConfig.ROOT_DIRECTORY_BLOCK < 6 ∧
      stdConfig.N_DIRECTORY_ENTRIES_PER_BLOCK ≤ stdConfig.N_INODES_PER_BLOCK ∧
      stdConfig.ROOT_DIRECTORY_INODE = 0) ∧
    ((oufs_format_disk stdConfig (fun _ => zeroBlock)).1 = 0 ∧
    oufs_read_inode_by_reference stdConfig (oufs_format_disk stdConfig (fun _ => zeroBlock)).2 0
      = ⟨DIRECTORY_TYPE, 1, stdConfig.ROOT_DIRECTORY_BLOCK, 2⟩ ∧
    directory_of stdConfig (oufs_format_disk stdConfig (fun _ => zeroBlock)).2 0 0 = ⟨['.'], 0⟩ ∧
    directory_of stdConfig (oufs_format_disk stdConfig (fun _ => zeroBlock)).2 0 1
      = ⟨['.', '.'], 0⟩ ∧
    (∀ j, 2 ≤ j → j < stdConfig.N_DIRECTORY_ENTRIES_PER_BLOCK →
      (directory_of stdConfig (oufs_format_disk stdConfig (fun _ => zeroBlock)).2 0 j).inode_reference
        = stdConfig.UNALLOCATED_INODE) ∧
    (∀ i, 1 ≤ i → i < stdConfig.N_INODES →
      oufs_read_inode_by_reference stdConfig (oufs_format_disk stdConfig (fun _ => zeroBlock)).2 i
        = ⟨UNUSED_TYPE, 0, stdConfig.UNALLOCATED_INODE, 0⟩)) :=
  ⟨by decide,
    oufs_format_disk_inodes stdConfig (fun _ => zeroBlock)
      (by decide) (by decide) (by decide) (by decide)⟩

/-- C20 (the code at the failing input).  On the disk that `oufs_format_disk` makes
of a zeroed store, inode 0 and the root directory block are as the claim has
them, and every inode from 1 to `N_INODES - 1` is unused with no reference and
size 0.  The content stored in these inodes, a block reference, is
`UNALLOCATED_INODE` (65535), the sentinel of inode references, and not
`UNALLOCATED_BLOCK` (65534), the sentinel of block references: the one that
`oufs_create_file` stores in the inode of a new file and `oufs_rmdir` in the inode it
frees. -/
theorem oufs_format_disk_content_sentinel :
    (oufs_format_disk stdConfig (fun _ => zeroBlock)).1 = 0 ∧
    oufs_read_inode_by_reference stdConfig formattedDisk 0
      = ⟨DIRECTORY_TYPE, 1, stdConfig.ROOT_DIRECTORY_BLOCK, 2⟩ ∧
    directory_of stdConfig formattedDisk 0 0 = ⟨['.'], 0⟩ ∧
    directory_of stdConfig formattedDisk 0 1 = ⟨['.', '.'], 0⟩ ∧
    (∀ j, j < stdConfig.N_DIRECTORY_ENTRIES_PER_BLOCK → 2 ≤ j →
      (directory_of stdConfig formattedDisk 0 j).inode_reference
        = stdConfig.UNALLOCATED_INODE) ∧
    (∀ i, i < stdConfig.N_INODES → 1 ≤ i →
      oufs_read_inode_by_reference stdConfig formattedDisk i
        = ⟨UNUSED_TYPE, 0, stdConfig.UNALLOCATED_INODE, 0⟩) ∧
    stdConfig.UNALLOCATED_INODE = 65535 ∧
    stdConfig.UNALLOCATED_BLOCK = 65534 ∧
    (∀ i, i < stdConfig.N_INODES → 1 ≤ i →
      (oufs_read_inode_by_reference stdConfig formattedDisk i).content
        ≠ stdConfig.UNALLOCATED_BLOCK) ∧
    (oufs_create_file stdConfig formattedDisk 0 ['f']).1 = 1 ∧
    oufs_read_inode_by_reference stdConfig (oufs_create_file stdConfig formattedDisk 0 ['f']).2 1
      = ⟨FILE_TYPE, 1, stdConfig.UNALLOCATED_BLOCK, 0⟩ ∧
    (oufs_rmdir stdConfig (oufs_mkdir stdConfig formattedDisk ['/'] ['/', 'a'] []).2
      ['/'] ['/', 'a']).1 = 0 ∧
    oufs_read_inode_by_reference stdConfig
      (oufs_rmdir stdConfig (oufs_mkdir stdConfig formattedDisk ['/'] ['/', 'a'] []).2
        ['/'] ['/', 'a']).2 1
      = ⟨UNUSED_TYPE, 0, stdConfig.UNALLOCATED_BLOCK, 0⟩ := by
  set_option maxRecDepth 1000000 in decide!

/-! ## `oufs_list` -/

theorem collect_items_eq (cfg : Config) (entry : Nat → DIRECTORY_ENTRY) (fuel : Nat) :
    ∀ i, collect_items cfg entry fuel i =
      ((List.range' i fuel).filter
        (fun i => decide ((entry i).inode_reference ≠ cfg.UNALLOCATED_INODE))).map entry := by
  induction fuel with
  | zero => intro i; rfl
  | succ n ih =>
    intro i
    rw [List.range'_succ]
    by_cases h : (entry i).inode_reference ≠ cfg.UNALLOCATED_INODE
    · show (if _ then _ else _) = _
      rw [if_pos h, ih, List.filter_cons_of_pos (by simpa using h), List.map_cons]
    · show (if _ then _ else _) = _
      rw [if_neg h, ih, List.filter_cons_of_neg (by simpa using h)]

theorem collect_items_valid (cfg : Config) (entry : Nat → DIRECTORY_ENTRY) (n : Nat) :
    collect_items cfg entry n 0 = valid_entries cfg entry n := by
  rw [collect_items_eq, valid_entries, List.range_eq_range']

theorem print_items_eq (cfg : Config) (d : Disk) (items : List DIRECTORY_ENTRY) :
    print_items cfg d items = items.map (fun e =>
      if (oufs_read_inode_by_reference cfg d e.inode_reference).type = DIRECTORY_TYPE then
        e.name ++ ['/']
      else e.name) := by
  induction items with
  | nil => rfl
  | cons e rest ih =>
    show _ :: print_items cfg d rest = _
    rw [ih]
    rfl

theorem valid_entries_allocated (cfg : Config) (entry : Nat → DIRECTORY_ENTRY) (n : Nat)
    (e : DIRECTORY_ENTRY) (h : e ∈ valid_entries cfg entry n) :
    e.inode_reference ≠ cfg.UNALLOCATED_INODE := by
  unfold valid_entries at h
  rcases List.mem_map.mp h with ⟨i, hi, rfl⟩
  simpa using (List.mem_filter.mp hi).2

theorem inode_compare_to_allocated (cfg : Config) (a b : DIRECTORY_ENTRY)
    (ha : a.inode_reference ≠ cfg.UNALLOCATED_INODE)
    (hb : b.inode_reference ≠ cfg.UNALLOCATED_INODE) :
    inode_compare_to cfg a b = strcmp a.name b.name := by
  unfold inode_compare_to
  rw [if_neg (fun h => ha h.1), if_neg (fun h => hb h.2), if_neg (fun h => ha h.1)]

/-- C19: for every path that resolves, `oufs_list` returns 0 and prints the
lines of a list `items` of entries, one line per item in the order of the
list, where `items` holds exactly the allocated entries of the block of the
inode found, each once per slot, and no item has a name that `strcmp` puts
after the name of a later item; the line of an item is its name, followed by a
slash exactly when the item's inode has the type directory.  The call of
`qsort` is assumed to do what the C library promises. -/
theorem oufs_list_sorted (cfg : Config) (d : Disk) (cwd path : List Char)
    (qsort : (DIRECTORY_ENTRY → DIRECTORY_ENTRY → Int) → List DIRECTORY_ENTRY →
      List DIRECTORY_ENTRY)
    (hret : (oufs_find_file cfg d cwd path).ret = 0)
    (hchild : (oufs_find_file cfg d cwd path).child ≠ cfg.UNALLOCATED_INODE)
    (hq : sorted_by (inode_compare_to cfg)
      (collect_items cfg (directory_of cfg d (oufs_find_file cfg d cwd path).child)
        cfg.N_DIRECTORY_ENTRIES_PER_BLOCK 0)
      (qsort (inode_compare_to cfg)
        (collect_items cfg (directory_of cfg d (oufs_find_file cfg d cwd path).child)
          cfg.N_DIRECTORY_ENTRIES_PER_BLOCK 0))) :
    ∃ items : List DIRECTORY_ENTRY,
      oufs_list cfg d cwd path qsort = (0, items.map (fun e =>
        if (oufs_read_inode_by_reference cfg d e.inode_reference).type = DIRECTORY_TYPE then
          e.name ++ ['/']
        else e.name)) ∧
      items.Perm (valid_entries cfg (directory_of cfg d (oufs_find_file cfg d cwd path).child)
        cfg.N_DIRECTORY_ENTRIES_PER_BLOCK) ∧
      items.Pairwise (fun a b => strcmp a.name b.name ≤ 0) := by
  refine ⟨qsort (inode_compare_to cfg)
    (collect_items cfg (directory_of cfg d (oufs_find_file cfg d cwd path).child)
      cfg.N_DIRECTORY_ENTRIES_PER_BLOCK 0), ?_, ?_, ?_⟩
  · unfold oufs_list
    simp only []
    rw [if_pos ⟨hret, hchild⟩, print_items_eq, hret]
    rfl
  · rw [← collect_items_valid]
    exact hq.1
  · refine hq.2.imp_of_mem ?_
    intro a b ha hb hab
    have ha1 := valid_entries_allocated cfg _ _ a
      (collect_items_valid cfg _ _ ▸ hq.1.mem_iff.mp ha)
    have hb1 := valid_entries_allocated cfg _ _ b
      (collect_items_valid cfg _ _ ▸ hq.1.mem_iff.mp hb)
    rw [inode_compare_to_allocated cfg a b ha1 hb1] at hab
    exact hab

/-- C19 at a concrete input: `listDisk` has the directories `b`, `a` and `c`
made in this order under `/x`; with insertion sort for `qsort`, listing `/x`
prints `./`, `../`, `a/`, `b/`, `c/`. -/
theorem oufs_list_sorted_witness :
    ((oufs_find_file stdConfig listDisk ['/'] ['/', 'x']).ret = 0 ∧
      (oufs_find_file stdConfig listDisk ['/'] ['/', 'x']).child ≠ stdConfig.UNALLOCATED_INODE) ∧
    (∃ items : List DIRECTORY_ENTRY,
      oufs_list stdConfig listDisk ['/'] ['/', 'x'] insertion_qsort = (0, items.map (fun e =>
        if (oufs_read_inode_by_reference stdConfig listDisk e.inode_reference).type
            = DIRECTORY_TYPE then
          e.name ++ ['/']
        else e.name)) ∧
      items.Perm (valid_entries stdConfig
        (directory_of stdConfig listDisk (oufs_find_file stdConfig listDisk ['/'] ['/', 'x']).child)
        stdConfig.N_DIRECTORY_ENTRIES_PER_BLOCK) ∧
      items.Pairwise (fun a b => strcmp a.name b.name ≤ 0)) ∧
    (oufs_list stdConfig listDisk ['/'] ['/', 'x'] insertion_qsort).2 =
      [['.', '/'], ['.', '.', '/'], ['a', '/'], ['b', '/'], ['c', '/']] :=
  ⟨by set_option maxRecDepth 100000 in decide,
    oufs_list_sorted stdConfig listDisk ['/'] ['/', 'x'] insertion_qsort
      (by set_option maxRecDepth 100000 in decide)
      (by set_option maxRecDepth 100000 in decide)
      ⟨List.perm_insertionSort _ _, by set_option maxRecDepth 100000 in decide⟩,
    by set_option maxRecDepth 100000 in decide⟩

/-! ## `oufs_deallocate_block` -/

theorem deallocate_block_disk (cfg : Config) (d : Disk) (mb : BLOCK) (ref r : Nat) :
    (oufs_deallocate_block cfg d mb ref).2.2 r =
      ⟨if r = ref then cfg.UNALLOCATED_BLOCK
        else if mb.content.asMaster.unallocated_front ≠ cfg.UNALLOCATED_BLOCK ∧
            r = mb.content.asMaster.unallocated_end then ref
        else (d r).next_block,
        (d r).content⟩ := by
  unfold oufs_deallocate_block
  by_cases h2 : mb.content.asMaster.unallocated_front = cfg.UNALLOCATED_BLOCK
  · simp only [if_pos h2, virtual_disk_read_block, virtual_disk_write_block]
    by_cases h1 : r = ref
    · rw [if_pos h1, if_pos h1, h1]
    · rw [if_neg h1, if_neg h1, if_neg (fun h => h.1 h2)]
  · simp only [if_neg h2, virtual_disk_read_block, virtual_disk_write_block]
    by_cases h1 : r = ref
    · rw [if_pos h1, if_pos h1]
      subst h1
      by_cases h3 : r = mb.content.asMaster.unallocated_end
      · rw [if_pos h3, ← h3]
      · rw [if_neg h3]
    · rw [if_neg h1, if_neg h1]
      by_cases h3 : r = mb.content.asMaster.unallocated_end
      · rw [if_pos h3, if_pos ⟨h2, h3⟩, ← h3]
      · rw [if_neg h3, if_neg (fun h => h3 h.2)]

theorem deallocate_block_content (cfg : Config) (d : Disk) (mb : BLOCK) (ref r : Nat) :
    ((oufs_deallocate_block cfg d mb ref).2.2 r).content = (d r).content := by
  rw [deallocate_block_disk]

theorem deallocate_block_next (cfg : Config) (d : Disk) (mb : BLOCK) (ref r : Nat) :
    ((oufs_deallocate_block cfg d mb ref).2.2 r).next_block =
      if r = ref then cfg.UNALLOCATED_BLOCK
      else if mb.content.asMaster.unallocated_front ≠ cfg.UNALLOCATED_BLOCK ∧
          r = mb.content.asMaster.unallocated_end then ref
      else (d r).next_block := by
  rw [deallocate_block_disk]

theorem deallocate_block_master (cfg : Config) (d : Disk) (mb : BLOCK) (ref : Nat) :
    (oufs_deallocate_block cfg d mb ref).2.1 =
      ⟨mb.next_block, CONTENT.master
        ⟨mb.content.asMaster.inode_allocated_flag,
          if mb.content.asMaster.unallocated_front = cfg.UNALLOCATED_BLOCK then ref
          else mb.content.asMaster.unallocated_front,
          ref⟩⟩ := by
  unfold oufs_deallocate_block
  by_cases h2 : mb.content.asMaster.unallocated_front = cfg.UNALLOCATED_BLOCK
  · simp only [if_pos h2]
    rfl
  · simp only [if_neg h2]
    rfl

/-! ## The bitmap byte after a bit is subtracted -/

theorem clear_bit_byte : ∀ x < 256, ∀ j < 8, x.testBit j = true → ∀ i < 8,
    ((x + 256 - 2 ^ j) % 256).testBit i = (decide (i ≠ j) && x.testBit i) := by
  set_option maxRecDepth 1000000 in decide

theorem clear_inode_flag_bit (flag : Nat → Nat) (child : Nat)
    (hbyte : flag (child / 8) < 256) (hset : inode_bit flag child = true) :
    inode_bit (clear_inode_flag flag child) child = false ∧
    ∀ r, r ≠ child → inode_bit (clear_inode_flag flag child) r = inode_bit flag r := by
  have hj : 7 - child % 8 < 8 := by omega
  constructor
  · unfold inode_bit clear_inode_flag setAt
    rw [if_pos rfl, clear_bit_byte _ hbyte _ hj hset _ hj]
    simp
  · intro r hr
    unfold inode_bit clear_inode_flag setAt
    by_cases h : r / 8 = child / 8
    · rw [if_pos h, clear_bit_byte _ hbyte _ hj hset _ (by omega), h]
      have hne : 7 - r % 8 ≠ 7 - child % 8 := by omega
      simp [hne]
    · rw [if_neg h]

/-! ## Directory scans after an entry is cleared -/

theorem find_directory_element_from_hit (cfg : Config) (entry : Nat → DIRECTORY_ENTRY)
    (name : List Char) (fuel : Nat) : ∀ i,
    find_directory_element_from cfg entry name fuel i ≠ cfg.UNALLOCATED_INODE →
    ∃ j, i ≤ j ∧ j < i + fuel ∧ (entry j).inode_reference ≠ cfg.UNALLOCATED_INODE ∧
      (entry j).name = name ∧
      find_directory_element_from cfg entry name fuel i = (entry j).inode_reference := by
  induction fuel with
  | zero => intro i h; exact absurd rfl h
  | succ n ih =>
    intro i h
    by_cases hm : (entry i).inode_reference ≠ cfg.UNALLOCATED_INODE ∧ (entry i).name = name
    · refine ⟨i, Nat.le_refl i, by omega, hm.1, hm.2, ?_⟩
      show (if _ then _ else _) = _
      rw [if_pos hm]
    · have e : find_directory_element_from cfg entry name (n + 1) i =
          find_directory_element_from cfg entry name n (i + 1) := by
        show (if _ then _ else _) = _
        rw [if_neg hm]
      rw [e] at h ⊢
      rcases ih (i + 1) h with ⟨j, h1, h2, h3, h4, h5⟩
      exact ⟨j, by omega, by omega, h3, h4, h5⟩

theorem find_directory_element_from_cleared_other (cfg : Config)
    (entry : Nat → DIRECTORY_ENTRY) (name : List Char) (slot : Nat) (fuel : Nat) : ∀ i,
    find_directory_element_from cfg entry name fuel i ≠ (entry slot).inode_reference →
    find_directory_element_from cfg (setAt entry slot (clearedEntry cfg)) name fuel i =
      find_directory_element_from cfg entry name fuel i := by
  induction fuel with
  | zero => intro i _; rfl
  | succ n ih =>
    intro i h
    by_cases hi : i = slot
    · subst hi
      have hm : ¬ ((entry i).inode_reference ≠ cfg.UNALLOCATED_INODE ∧ (entry i).name = name) := by
        intro hm
        apply h
        show (if _ then _ else _) = _
        rw [if_pos hm]
      have e : find_directory_element_from cfg entry name (n + 1) i =
          find_directory_element_from cfg entry name n (i + 1) := by
        show (if _ then _ else _) = _
        rw [if_neg hm]
      rw [e] at h ⊢
      rw [← ih (i + 1) h]
      show (if _ then _ else _) = _
      have hs : setAt entry i (clearedEntry cfg) i = clearedEntry cfg := by
        unfold setAt; rw [if_pos rfl]
      rw [hs, if_neg (fun hc => hc.1 rfl)]
    · have hs : setAt entry slot (clearedEntry cfg) i = entry i := by
        unfold setAt; rw [if_neg hi]
      by_cases hm : (entry i).inode_reference ≠ cfg.UNALLOCATED_INODE ∧ (entry i).name = name
      · show (if _ then _ else _) = (if _ then _ else _)
        rw [hs, if_pos hm, if_pos hm]
      · have e : find_directory_element_from cfg entry name (n + 1) i =
            find_directory_element_from cfg entry name n (i + 1) := by
          show (if _ then _ else _) = _
          rw [if_neg hm]
        rw [e] at h ⊢
        rw [← ih (i + 1) h]
        show (if _ then _ else _) = _
        rw [hs, if_neg hm]

theorem find_directory_element_from_cleared_same (cfg : Config)
    (entry : Nat → DIRECTORY_ENTRY) (name : List Char) (slot fuel : Nat)
    (huniq : ∀ j < fuel, j ≠ slot → (entry j).inode_reference ≠ (entry slot).inode_reference)
    (hname : ∀ j < fuel, j ≠ slot → (entry j).inode_reference ≠ cfg.UNALLOCATED_INODE →
      (entry j).name ≠ (entry slot).name)
    (hfound : find_directory_element_from cfg entry name fuel 0 = (entry slot).inode_reference)
    (halloc : (entry slot).inode_reference ≠ cfg.UNALLOCATED_INODE) :
    find_directory_element_from cfg (setAt entry slot (clearedEntry cfg)) name fuel 0
      = cfg.UNALLOCATED_INODE := by
  rcases find_directory_element_from_hit cfg entry name fuel 0 (hfound ▸ halloc) with
    ⟨j, _, hj, _, hjn, hjr⟩
  have hjs : j = slot := by
    by_contra hne
    exact huniq j (by omega) hne (hjr ▸ hfound)
  subst hjs
  apply find_directory_element_from_absent
  intro k _ hk
  by_cases hks : k = j
  · left
    subst hks
    unfold setAt
    rw [if_pos rfl]
    rfl
  · unfold setAt
    rw [if_neg hks]
    by_cases ha : (entry k).inode_reference = cfg.UNALLOCATED_INODE
    · exact Or.inl ha
    · right
      rw [← hjn]
      exact hname k (by omega) hks ha

theorem first_reference_from_unique (entry : Nat → DIRECTORY_ENTRY) (child slot : Nat)
    (hslot : (entry slot).inode_reference = child) (fuel : Nat) : ∀ i,
    i ≤ slot → slot < i + fuel → (∀ j, i ≤ j → j < slot → (entry j).inode_reference ≠ child) →
    first_reference_from entry child fuel i = some slot := by
  induction fuel with
  | zero => intro i h1 h2; omega
  | succ n ih =>
    intro i h1 h2 h3
    by_cases hi : i = slot
    · subst hi
      show (if _ then _ else _) = _
      rw [if_pos hslot]
    · show (if _ then _ else _) = _
      rw [if_neg (h3 i (Nat.le_refl i) (by omega))]
      exact ih (i + 1) (by omega) (by omega) (fun j hj1 hj2 => h3 j (by omega) hj2)

/-! ## The path after its last directory is removed -/

theorem find_file_loop_removed (cfg : Config) (d d2 : Disk) (child : Nat) : ∀ (ts : List (List Char)) (cur gp par : Nat)
      (ln : Option (List Char)), ts ≠ [] → cur ≠ child →
    (∀ r ∈ resolve_chain cfg d cur ts, r ≠ cfg.UNALLOCATED_INODE) →
    (resolve_chain cfg d cur ts).getLastD cur = child →
    (∀ v ∈ cur :: resolve_chain cfg d cur ts, v ≠ child → ∀ t,
      (lookup_component cfg d v t ≠ child →
        lookup_component cfg d2 v t = lookup_component cfg d v t) ∧
      (lookup_component cfg d v t = child →
        lookup_component cfg d2 v t = cfg.UNALLOCATED_INODE)) →
    (find_file_loop cfg d2 ts gp par cur ln).child = cfg.UNALLOCATED_INODE := by
  intro ts
  induction ts with
  | nil => intro cur gp par ln h; exact absurd rfl h
  | cons t rest ih =>
    intro cur gp par ln _ hcur hres hlast hlook
    have hl := hlook cur (List.mem_cons_self _ _) hcur t
    by_cases hr : lookup_component cfg d cur t = child
    · have h2 : oufs_find_directory_element cfg d2
          (oufs_read_inode_by_reference cfg d2 cur) (truncate_name cfg t)
          = cfg.UNALLOCATED_INODE := hl.2 hr
      unfold find_file_loop
      simp only [h2, if_true]
      split <;> rfl
    · have h2 : oufs_find_directory_element cfg d2
          (oufs_read_inode_by_reference cfg d2 cur) (truncate_name cfg t)
          = lookup_component cfg d cur t := hl.1 hr
      have hne : lookup_component cfg d cur t ≠ cfg.UNALLOCATED_INODE :=
        hres _ (List.mem_cons_self _ _)
      have hrest : rest ≠ [] := by
        intro h
        subst h
        exact hr hlast
      unfold find_file_loop
      simp only [h2, if_neg hne]
      apply ih _ _ _ _ hrest hr
      · intro r hrm
        exact hres r (List.mem_cons_of_mem _ hrm)
      · have e : resolve_chain cfg d cur (t :: rest) =
            lookup_component cfg d cur t ::
              resolve_chain cfg d (lookup_component cfg d cur t) rest := rfl
        rw [e, List.getLastD_cons] at hlast
        exact hlast
      · intro v hv
        exact hlook v (List.mem_cons_of_mem _ hv)

/-! ## The disk that `oufs_rmdir` leaves -/

theorem read_inode_of_content_eq (cfg : Config) (d d2 : Disk) (v : Nat)
    (h : (d2 (table_block cfg v)).content = (d (table_block cfg v)).content) :
    oufs_read_inode_by_reference cfg d2 v = oufs_read_inode_by_reference cfg d v := by
  unfold oufs_read_inode_by_reference virtual_disk_read_block
  unfold table_block at h
  simp only []
  rw [h]

theorem table_block_ne_master (cfg : Config) (v : Nat) :
    table_block cfg v ≠ MASTER_BLOCK_REFERENCE :=
  Nat.succ_ne_zero _

theorem removed_disk_next (cfg : Config) (d : Disk) (parent child slot r : Nat) :
    (removed_disk cfg d parent child slot r).next_block =
      if r = (oufs_read_inode_by_reference cfg d parent).content then (d r).next_block
      else if r = MASTER_BLOCK_REFERENCE then (d r).next_block
      else if r = (oufs_read_inode_by_reference cfg d child).content then cfg.UNALLOCATED_BLOCK
      else if (d MASTER_BLOCK_REFERENCE).content.asMaster.unallocated_front
            ≠ cfg.UNALLOCATED_BLOCK ∧
          r = (d MASTER_BLOCK_REFERENCE).content.asMaster.unallocated_end then
        (oufs_read_inode_by_reference cfg d child).content
      else (d r).next_block := by
  unfold removed_disk
  simp only []
  rw [write_inode_next_block]
  by_cases h1 : r = (oufs_read_inode_by_reference cfg d parent).content
  · rw [if_pos h1, h1, write_block_same]
    rfl
  · rw [if_neg h1, write_block_other _ _ _ _ h1]
    by_cases h2 : r = MASTER_BLOCK_REFERENCE
    · rw [if_pos h2, h2, write_block_same, deallocate_block_master]
      rfl
    · rw [if_neg h2, write_block_other _ _ _ _ h2, write_inode_next_block,
        deallocate_block_next]
      rfl

theorem removed_disk_content (cfg : Config) (d : Disk) (parent child slot r : Nat)
    (h1 : r ≠ (oufs_read_inode_by_reference cfg d parent).content)
    (h2 : r ≠ MASTER_BLOCK_REFERENCE)
    (h3 : r ≠ table_block cfg child) (h4 : r ≠ table_block cfg parent) :
    (removed_disk cfg d parent child slot r).content = (d r).content := by
  unfold removed_disk
  simp only []
  rw [write_inode_other_block cfg _ _ _ _ h4, write_block_other _ _ _ _ h1,
    write_block_other _ _ _ _ h2, write_inode_other_block cfg _ _ _ _ h3,
    deallocate_block_content]

theorem removed_disk_parent (cfg : Config) (d : Disk) (parent child slot : Nat) :
    oufs_read_inode_by_reference cfg (removed_disk cfg d parent child slot) parent =
      { oufs_read_inode_by_reference cfg d parent with
        size := (oufs_read_inode_by_reference cfg d parent).size - 1 } := by
  unfold removed_disk
  simp only []
  rw [read_inode_after_write]

theorem removed_disk_child (cfg : Config) (d : Disk) (parent child slot : Nat)
    (hne : child ≠ parent)
    (hsep : table_block cfg child ≠ (oufs_read_inode_by_reference cfg d parent).content) :
    oufs_read_inode_by_reference cfg (removed_disk cfg d parent child slot) child =
      ⟨UNUSED_TYPE, 0, cfg.UNALLOCATED_BLOCK, 0⟩ := by
  unfold removed_disk
  simp only []
  rw [read_inode_write_other cfg _ _ _ _ hne]
  rw [read_inode_of_block_eq cfg _ _ child (write_block_other _ _ _ _ hsep)]
  rw [read_inode_of_block_eq cfg _ _ child
    (write_block_other _ _ _ _ (table_block_ne_master cfg child))]
  rw [read_inode_after_write]
  rfl

theorem removed_disk_inode (cfg : Config) (d : Disk) (parent child slot v : Nat)
    (h1 : v ≠ child) (h2 : v ≠ parent)
    (hsep : table_block cfg v ≠ (oufs_read_inode_by_reference cfg d parent).content) :
    oufs_read_inode_by_reference cfg (removed_disk cfg d parent child slot) v =
      oufs_read_inode_by_reference cfg d v := by
  unfold removed_disk
  simp only []
  rw [read_inode_write_other cfg _ _ _ _ h2]
  rw [read_inode_of_block_eq cfg _ _ v (write_block_other _ _ _ _ hsep)]
  rw [read_inode_of_block_eq cfg _ _ v
    (write_block_other _ _ _ _ (table_block_ne_master cfg v))]
  rw [read_inode_write_other cfg _ _ _ _ h1]
  exact read_inode_of_content_eq cfg _ _ v (deallocate_block_content _ _ _ _ _)

theorem removed_disk_master (cfg : Config) (d : Disk) (parent child slot : Nat)
    (hsep : (oufs_read_inode_by_reference cfg d parent).content ≠ MASTER_BLOCK_REFERENCE) :
    (removed_disk cfg d parent child slot MASTER_BLOCK_REFERENCE).content.asMaster =
      ⟨clear_inode_flag (d MASTER_BLOCK_REFERENCE).content.asMaster.inode_allocated_flag child,
        if (d MASTER_BLOCK_REFERENCE).content.asMaster.unallocated_front
            = cfg.UNALLOCATED_BLOCK then (oufs_read_inode_by_reference cfg d child).content
        else (d MASTER_BLOCK_REFERENCE).content.asMaster.unallocated_front,
        (oufs_read_inode_by_reference cfg d child).content⟩ := by
  unfold removed_disk
  simp only []
  rw [write_inode_other_block cfg _ _ _ _ (Ne.symm (table_block_ne_master cfg parent)),
    write_block_other _ _ _ _ (Ne.symm hsep), write_block_same, deallocate_block_master]
  rfl

theorem removed_disk_directory (cfg : Config) (d : Disk) (parent child slot : Nat)
    (hsep : (oufs_read_inode_by_reference cfg d parent).content ≠ table_block cfg parent) :
    (removed_disk cfg d parent child slot
      (oufs_read_inode_by_reference cfg d parent).content).content.asDirectory =
      setAt (directory_of cfg d parent) slot (clearedEntry cfg) := by
  unfold removed_disk
  simp only []
  rw [write_inode_other_block cfg _ _ _ _ hsep, write_block_same]
  rfl

theorem RmdirReady.parent_mem {cfg : Config} {d : Disk} {cwd path : List Char}
    {pre : List (List Char)} {cn : List Char} {parent child slot n : Nat}
    (h : RmdirReady cfg d cwd path pre cn parent child slot n) :
    parent ∈ 0 :: resolve_chain cfg d 0 pre := by
  rw [h.parent_eq]
  exact getLastD_mem_cons _ _

theorem RmdirReady.child_ne_parent {cfg : Config} {d : Disk} {cwd path : List Char}
    {pre : List (List Char)} {cn : List Char} {parent child slot n : Nat}
    (h : RmdirReady cfg d cwd path pre cn parent child slot n) : child ≠ parent := by
  intro e
  have h1 := h.is_empty
  have h2 := h.parent_size
  rw [e] at h1
  omega

theorem free_block_succ (d : Disk) (k : Nat) :
    free_block d (k + 1) = (d (free_block d k)).next_block := rfl

theorem removed_disk_free_list {cfg : Config} {d : Disk} {cwd path : List Char}
    {pre : List (List Char)} {cn : List Char} {parent child slot n : Nat}
    (h : RmdirReady cfg d cwd path pre cn parent child slot n) :
    (∀ k < n, free_block (removed_disk cfg d parent child slot) k = free_block d k) ∧
    free_block (removed_disk cfg d parent child slot) n
      = (oufs_read_inode_by_reference cfg d child).content ∧
    (removed_disk cfg d parent child slot
      (oufs_read_inode_by_reference cfg d child).content).next_block = cfg.UNALLOCATED_BLOCK ∧
    (removed_disk cfg d parent child slot MASTER_BLOCK_REFERENCE).content.asMaster.unallocated_end
      = (oufs_read_inode_by_reference cfg d child).content := by
  have hpm := h.directory_not_master parent h.parent_mem
  have hm := removed_disk_master cfg d parent child slot hpm
  have hcb : (removed_disk cfg d parent child slot
      (oufs_read_inode_by_reference cfg d child).content).next_block = cfg.UNALLOCATED_BLOCK := by
    rw [removed_disk_next, if_neg h.block_not_parent, if_neg h.block_not_master, if_pos rfl]
  have hfront : free_block (removed_disk cfg d parent child slot) 0 =
      if free_block d 0 = cfg.UNALLOCATED_BLOCK then
        (oufs_read_inode_by_reference cfg d child).content
      else free_block d 0 := by
    show (removed_disk cfg d parent child slot
      MASTER_BLOCK_REFERENCE).content.asMaster.unallocated_front = _
    rw [hm]
    rfl
  have hall : ∀ k, k < n →
      free_block (removed_disk cfg d parent child slot) k = free_block d k := by
    intro k
    induction k with
    | zero =>
      intro hk
      rw [hfront, if_neg (h.free_blocks 0 hk)]
    | succ k ih =>
      intro hk
      have hk1 : k < n := by omega
      rw [free_block_succ, ih hk1, removed_disk_next, if_neg (h.free_not_parent k hk1),
        if_neg (h.free_not_master k hk1), if_neg (h.free_not_block k hk1)]
      have hend : ¬ ((d MASTER_BLOCK_REFERENCE).content.asMaster.unallocated_front
            ≠ cfg.UNALLOCATED_BLOCK ∧
          free_block d k = (d MASTER_BLOCK_REFERENCE).content.asMaster.unallocated_end) := by
        intro hc
        have e1 := h.free_end (by omega)
        have e2 : free_block d (k + 1) = free_block d (n - 1 + 1) := by
          rw [free_block_succ, free_block_succ, hc.2, e1]
        have e3 : n - 1 + 1 = n := by omega
        rw [e3, h.free_stop] at e2
        exact h.free_blocks (k + 1) hk e2
      rw [if_neg hend]
      rfl
  refine ⟨hall, ?_, hcb, by rw [hm]⟩
  cases n with
  | zero =>
    rw [hfront, if_pos h.free_stop]
  | succ m =>
    have hm1 : m < m + 1 := Nat.lt_succ_self m
    have e1 := h.free_end (Nat.succ_pos m)
    have e3 : m + 1 - 1 = m := by omega
    rw [e3] at e1
    have hfr : (d MASTER_BLOCK_REFERENCE).content.asMaster.unallocated_front
        ≠ cfg.UNALLOCATED_BLOCK := h.free_blocks 0 (Nat.succ_pos m)
    rw [free_block_succ, hall m hm1, removed_disk_next, if_neg (h.free_not_parent m hm1),
      if_neg (h.free_not_master m hm1), if_neg (h.free_not_block m hm1),
      if_pos ⟨hfr, e1.symm⟩]

theorem removed_disk_directory_of {cfg : Config} {d : Disk} {cwd path : List Char}
    {pre : List (List Char)} {cn : List Char} {parent child slot n : Nat}
    (h : RmdirReady cfg d cwd path pre cn parent child slot n) (v : Nat)
    (hv : v ∈ 0 :: resolve_chain cfg d 0 pre) (hvc : v ≠ child) :
    directory_of cfg (removed_disk cfg d parent child slot) v =
      if (oufs_read_inode_by_reference cfg d v).content
          = (oufs_read_inode_by_reference cfg d parent).content then
        setAt (directory_of cfg d parent) slot (clearedEntry cfg)
      else directory_of cfg d v := by
  have hpar := h.parent_mem
  have hcontent : (oufs_read_inode_by_reference cfg (removed_disk cfg d parent child slot) v).content
      = (oufs_read_inode_by_reference cfg d v).content := by
    by_cases hvp : v = parent
    · rw [hvp, removed_disk_parent]
    · rw [removed_disk_inode cfg d parent child slot v hvc hvp
        (Ne.symm (h.directory_not_table parent hpar v (List.mem_cons_of_mem _ hv)))]
  unfold directory_of
  rw [hcontent]
  by_cases hb : (oufs_read_inode_by_reference cfg d v).content
      = (oufs_read_inode_by_reference cfg d parent).content
  · rw [if_pos hb, hb]
    exact removed_disk_directory cfg d parent child slot
      (h.directory_not_table parent hpar parent (List.mem_cons_of_mem _ hpar))
  · rw [if_neg hb]
    rw [removed_disk_content cfg d parent child slot _ hb (h.directory_not_master v hv)
      (h.directory_not_table v hv child (List.mem_cons_self _ _))
      (h.directory_not_table v hv parent (List.mem_cons_of_mem _ hpar))]

theorem removed_disk_lookup {cfg : Config} {d : Disk} {cwd path : List Char}
    {pre : List (List Char)} {cn : List Char} {parent child slot n : Nat}
    (h : RmdirReady cfg d cwd path pre cn parent child slot n) (v : Nat)
    (hv : v ∈ 0 :: resolve_chain cfg d 0 pre) (hvc : v ≠ child) (t : List Char) :
    (lookup_component cfg d v t ≠ child →
      lookup_component cfg (removed_disk cfg d parent child slot) v t
        = lookup_component cfg d v t) ∧
    (lookup_component cfg d v t = child →
      lookup_component cfg (removed_disk cfg d parent child slot) v t
        = cfg.UNALLOCATED_INODE) := by
  rw [lookup_component_eq, lookup_component_eq, removed_disk_directory_of h v hv hvc]
  by_cases hb : (oufs_read_inode_by_reference cfg d v).content
      = (oufs_read_inode_by_reference cfg d parent).content
  · have hdir : directory_of cfg d v = directory_of cfg d parent := by
      unfold directory_of
      rw [hb]
    rw [if_pos hb, hdir]
    constructor
    · intro hne
      exact find_directory_element_from_cleared_other cfg _ _ slot _ 0
        (by rw [h.entry_slot.2]; exact hne)
    · intro he
      exact find_directory_element_from_cleared_same cfg _ _ slot _
        (fun j hj hjs => by rw [h.entry_slot.2]; exact h.unique_reference j hj hjs)
        (h.unique_name)
        (by rw [h.entry_slot.2]; exact he)
        (by rw [h.entry_slot.2]; exact h.found)
  · rw [if_neg hb]
    constructor
    · intro _
      rfl
    · intro he
      exfalso
      rcases find_directory_element_from_hit cfg (directory_of cfg d v) (truncate_name cfg t)
        cfg.N_DIRECTORY_ENTRIES_PER_BLOCK 0 (by rw [he]; exact h.found) with
        ⟨j, _, hj, _, _, hjr⟩
      exact h.only_parent v hv hvc hb j (by omega) (by rw [← hjr]; exact he)

theorem oufs_find_file_of_ready {cfg : Config} {d : Disk} {cwd path : List Char}
    {pre : List (List Char)} {cn : List Char} {parent child slot n : Nat}
    (h : RmdirReady cfg d cwd path pre cn parent child slot n) :
    oufs_find_file cfg d cwd path = ⟨0, parent, child, some (truncate_name cfg cn)⟩ := by
  unfold oufs_find_file
  rw [h.tokens, find_file_loop_found cfg d pre cn 0 0 0 none h.resolves
    (by rw [← h.parent_eq, ← h.child_eq]; exact h.found), ← h.parent_eq, ← h.child_eq]

theorem oufs_rmdir_eq {cfg : Config} {d : Disk} {cwd path : List Char}
    {pre : List (List Char)} {cn : List Char} {parent child slot n : Nat}
    (h : RmdirReady cfg d cwd path pre cn parent child slot n) :
    oufs_rmdir cfg d cwd path = (0, removed_disk cfg d parent child slot) := by
  have hslot : first_reference_from
      (virtual_disk_read_block d (oufs_read_inode_by_reference cfg d parent).content).content.asDirectory
      child cfg.N_DIRECTORY_ENTRIES_PER_BLOCK 0 = some slot :=
    first_reference_from_unique _ child slot h.entry_slot.2 _ 0 (Nat.zero_le _)
      (by have := h.entry_slot.1; omega)
      (fun j _ hj => h.unique_reference j (by have := h.entry_slot.1; omega) (by omega))
  have hsz : ¬ ((oufs_read_inode_by_reference cfg d parent).size ≤ 2 ∨
      (oufs_read_inode_by_reference cfg d child).size > 2) := by
    have h1 := h.is_empty
    have h2 := h.parent_size
    omega
  have hch : ¬ (child = 0 ∨ child = cfg.UNALLOCATED_INODE) := by
    intro hc
    rcases hc with hc | hc
    · exact h.not_root hc
    · exact h.found hc
  unfold oufs_rmdir
  simp only [oufs_find_file_of_ready h]
  rw [if_neg (by decide), if_neg (fun hc => hc h.is_directory), if_neg hsz, if_neg hch]
  simp only [hslot]
  rfl

theorem find_directory_element_from_first (cfg : Config) (entry : Nat → DIRECTORY_ENTRY)
    (name : List Char) (fuel : Nat) : ∀ i,
    (∃ j, i ≤ j ∧ j < i + fuel ∧
      ((entry j).inode_reference ≠ cfg.UNALLOCATED_INODE ∧ (entry j).name = name) ∧
      (∀ k, i ≤ k → k < j →
        ¬((entry k).inode_reference ≠ cfg.UNALLOCATED_INODE ∧ (entry k).name = name)) ∧
      find_directory_element_from cfg entry name fuel i = (entry j).inode_reference) ∨
    ((∀ j, i ≤ j → j < i + fuel →
        ¬((entry j).inode_reference ≠ cfg.UNALLOCATED_INODE ∧ (entry j).name = name)) ∧
      find_directory_element_from cfg entry name fuel i = cfg.UNALLOCATED_INODE) := by
  induction fuel with
  | zero =>
    intro i
    exact Or.inr ⟨fun j h1 h2 => by omega, rfl⟩
  | succ n ih =>
    intro i
    by_cases hm : (entry i).inode_reference ≠ cfg.UNALLOCATED_INODE ∧ (entry i).name = name
    · left
      refine ⟨i, Nat.le_refl i, by omega, hm, fun k h1 h2 => by omega, ?_⟩
      show (if _ then _ else _) = _
      rw [if_pos hm]
    · have e : find_directory_element_from cfg entry name (n + 1) i =
          find_directory_element_from cfg entry name n (i + 1) := by
        show (if _ then _ else _) = _
        rw [if_neg hm]
      rw [e]
      rcases ih (i + 1) with ⟨j, h1, h2, h3, h4, h5⟩ | ⟨h1, h2⟩
      · left
        refine ⟨j, by omega, by omega, h3, ?_, h5⟩
        intro k hk1 hk2
        by_cases hk : k = i
        · rw [hk]; exact hm
        · exact h4 k (by omega) hk2
      · right
        refine ⟨?_, h2⟩
        intro j hj1 hj2
        by_cases hk : j = i
        · rw [hk]; exact hm
        · exact h1 j (by omega) (by omega)

/-- C30: `oufs_find_directory_element` returns the reference of the entry of
lowest index, among the entries of the block of the inode, that is allocated
(its reference is not `UNALLOCATED_INODE`) and carries the name; it returns
`UNALLOCATED_INODE` exactly when no entry is allocated and carries the name.
An unallocated entry never ends the scan, whatever its name. -/
theorem oufs_find_directory_element_first (cfg : Config) (d : Disk) (inode : INODE)
    (name : List Char) :
    ((∃ j, j < cfg.N_DIRECTORY_ENTRIES_PER_BLOCK ∧
        (((d inode.content).content.asDirectory j).inode_reference ≠ cfg.UNALLOCATED_INODE ∧
          ((d inode.content).content.asDirectory j).name = name) ∧
        (∀ k, k < j →
          ¬(((d inode.content).content.asDirectory k).inode_reference ≠ cfg.UNALLOCATED_INODE ∧
            ((d inode.content).content.asDirectory k).name = name)) ∧
        oufs_find_directory_element cfg d inode name
          = ((d inode.content).content.asDirectory j).inode_reference) ∨
      ((∀ j, j < cfg.N_DIRECTORY_ENTRIES_PER_BLOCK →
          ¬(((d inode.content).content.asDirectory j).inode_reference ≠ cfg.UNALLOCATED_INODE ∧
            ((d inode.content).content.asDirectory j).name = name)) ∧
        oufs_find_directory_element cfg d inode name = cfg.UNALLOCATED_INODE)) ∧
    (oufs_find_directory_element cfg d inode name = cfg.UNALLOCATED_INODE ↔
      ∀ j, j < cfg.N_DIRECTORY_ENTRIES_PER_BLOCK →
        ¬(((d inode.content).content.asDirectory j).inode_reference ≠ cfg.UNALLOCATED_INODE ∧
          ((d inode.content).content.asDirectory j).name = name)) := by
  have h := find_directory_element_from_first cfg (d inode.content).content.asDirectory name
    cfg.N_DIRECTORY_ENTRIES_PER_BLOCK 0
  have e : oufs_find_directory_element cfg d inode name =
      find_directory_element_from cfg (d inode.content).content.asDirectory name
        cfg.N_DIRECTORY_ENTRIES_PER_BLOCK 0 := rfl
  rw [e]
  constructor
  · rcases h with ⟨j, _, h2, h3, h4, h5⟩ | ⟨h1, h2⟩
    · exact Or.inl ⟨j, by omega, h3, fun k hk => h4 k (Nat.zero_le k) hk, h5⟩
    · exact Or.inr ⟨fun j hj => h1 j (Nat.zero_le j) (by omega), h2⟩
  · constructor
    · intro hu j hj
      rcases h with ⟨j1, _, _, h3, _, h5⟩ | ⟨h1, _⟩
      · rw [h5] at hu
        exact absurd hu h3.1
      · exact h1 j (Nat.zero_le j) (by omega)
    · intro hall
      rcases h with ⟨j1, _, h2, h3, _, _⟩ | ⟨_, h2⟩
      · exact absurd h3 (hall j1 (by omega))
      · exact h2

/-! ## The inode table: round trip and frame -/

/-- C28: after `oufs_write_inode_by_reference(i, r)`, reading inode `i` gives
`r` and reading any other inode gives what it gave before; every block other
than block `i / N_INODES_PER_BLOCK + 1`, the table block of index
`i / N_INODES_PER_BLOCK`, is as before, and in that block the link and every
inode other than the one at offset `i % N_INODES_PER_BLOCK` are as before. -/
theorem oufs_inode_round_trip (cfg : Config) (d : Disk) (i : Nat) (r : INODE) :
    oufs_read_inode_by_reference cfg (oufs_write_inode_by_reference cfg d i r) i = r ∧
    (∀ j, j ≠ i →
      oufs_read_inode_by_reference cfg (oufs_write_inode_by_reference cfg d i r) j
        = oufs_read_inode_by_reference cfg d j) ∧
    (∀ b, b ≠ i / cfg.N_INODES_PER_BLOCK + 1 →
      oufs_write_inode_by_reference cfg d i r b = d b) ∧
    (oufs_write_inode_by_reference cfg d i r (i / cfg.N_INODES_PER_BLOCK + 1)).next_block
      = (d (i / cfg.N_INODES_PER_BLOCK + 1)).next_block ∧
    (∀ e, e ≠ i % cfg.N_INODES_PER_BLOCK →
      (oufs_write_inode_by_reference cfg d i r
          (i / cfg.N_INODES_PER_BLOCK + 1)).content.asInodes e
        = (d (i / cfg.N_INODES_PER_BLOCK + 1)).content.asInodes e) :=
  ⟨read_inode_after_write cfg d i r,
    fun j hj => read_inode_write_other cfg d i j r hj,
    fun b hb => write_inode_other_block cfg d i b r hb,
    write_inode_next_block cfg d i _ r,
    fun e he => by
      unfold oufs_write_inode_by_reference virtual_disk_write_block virtual_disk_read_block
      simp only [if_true]
      show setAt _ _ _ e = _
      unfold setAt
      rw [if_neg he]⟩

/-! ## `oufs_allocate_new_block` and `oufs_deallocate_block`, one call -/

/-- C24: when `unallocated_front` is `UNALLOCATED_BLOCK`, `oufs_allocate_new_block`
returns `UNALLOCATED_BLOCK` and the master block it was given; otherwise it
returns the former head, and in the master block `unallocated_front` is the
link stored in that head block on disk while the bitmap, `unallocated_end` and
the master block's own link are as before.  The function has no write, so the
disk is not among its results. -/
theorem oufs_allocate_new_block_pops (cfg : Config) (d : Disk) (master_block : BLOCK) :
    (master_block.content.asMaster.unallocated_front = cfg.UNALLOCATED_BLOCK →
      oufs_allocate_new_block cfg d master_block = (cfg.UNALLOCATED_BLOCK, master_block)) ∧
    (master_block.content.asMaster.unallocated_front ≠ cfg.UNALLOCATED_BLOCK →
      (oufs_allocate_new_block cfg d master_block).1
        = master_block.content.asMaster.unallocated_front ∧
      (oufs_allocate_new_block cfg d master_block).2.content.asMaster.unallocated_front
        = (d master_block.content.asMaster.unallocated_front).next_block ∧
      (oufs_allocate_new_block cfg d master_block).2.content.asMaster.inode_allocated_flag
        = master_block.content.asMaster.inode_allocated_flag ∧
      (oufs_allocate_new_block cfg d master_block).2.content.asMaster.unallocated_end
        = master_block.content.asMaster.unallocated_end ∧
      (oufs_allocate_new_block cfg d master_block).2.next_block = master_block.next_block) := by
  constructor
  · intro h
    unfold oufs_allocate_new_block
    rw [if_pos h]
  · intro h
    unfold oufs_allocate_new_block
    rw [if_neg h]
    exact ⟨rfl, rfl, rfl, rfl, rfl⟩

/-- C25: `oufs_deallocate_block(master, r)` returns 0.  When the list is empty
(`unallocated_front` is `UNALLOCATED_BLOCK`) both ends become `r`; otherwise
`unallocated_end` becomes `r`, `unallocated_front` stays, and the link of the
old end block on disk becomes `r` (`r` not being that block).  In both cases
the link of block `r` on disk becomes `UNALLOCATED_BLOCK`, the contents of
every block (of `r` too) are as before, every block other than `r` and the
old end is as before, and the bitmap of the master block is as before. -/
theorem oufs_deallocate_block_appends (cfg : Config) (d : Disk) (master_block : BLOCK)
    (r : Nat) :
    (oufs_deallocate_block cfg d master_block r).1 = 0 ∧
    (master_block.content.asMaster.unallocated_front = cfg.UNALLOCATED_BLOCK →
      (oufs_deallocate_block cfg d master_block r).2.1.content.asMaster.unallocated_front = r ∧
      (oufs_deallocate_block cfg d master_block r).2.1.content.asMaster.unallocated_end = r ∧
      ∀ k, k ≠ r → (oufs_deallocate_block cfg d master_block r).2.2 k = d k) ∧
    (master_block.content.asMaster.unallocated_front ≠ cfg.UNALLOCATED_BLOCK →
      (oufs_deallocate_block cfg d master_block r).2.1.content.asMaster.unallocated_front
        = master_block.content.asMaster.unallocated_front ∧
      (oufs_deallocate_block cfg d master_block r).2.1.content.asMaster.unallocated_end = r ∧
      (r ≠ master_block.content.asMaster.unallocated_end →
        ((oufs_deallocate_block cfg d master_block r).2.2
          master_block.content.asMaster.unallocated_end).next_block = r) ∧
      ∀ k, k ≠ r → k ≠ master_block.content.asMaster.unallocated_end →
        (oufs_deallocate_block cfg d master_block r).2.2 k = d k) ∧
    ((oufs_deallocate_block cfg d master_block r).2.2 r).next_block = cfg.UNALLOCATED_BLOCK ∧
    (∀ k, ((oufs_deallocate_block cfg d master_block r).2.2 k).content = (d k).content) ∧
    (oufs_deallocate_block cfg d master_block r).2.1.content.asMaster.inode_allocated_flag
      = master_block.content.asMaster.inode_allocated_flag := by
  refine ⟨rfl, ?_, ?_, ?_, fun k => deallocate_block_content cfg d master_block r k, ?_⟩
  · intro h
    rw [deallocate_block_master, if_pos h]
    refine ⟨rfl, rfl, ?_⟩
    intro k hk
    rw [deallocate_block_disk, if_neg hk, if_neg (fun hc => hc.1 h)]
  · intro h
    rw [deallocate_block_master, if_neg h]
    refine ⟨rfl, rfl, ?_, ?_⟩
    · intro hr
      rw [deallocate_block_next, if_neg (Ne.symm hr), if_pos ⟨h, rfl⟩]
    · intro k hk1 hk2
      rw [deallocate_block_disk, if_neg hk1, if_neg (fun hc => hk2 hc.2)]
  · rw [deallocate_block_next, if_pos rfl]
  · rw [deallocate_block_master]
    rfl

/-! ## `oufs_init_directory_structures`: the entries it marks -/

/-- C29 (the code at the failing input).  Under the constants of the course
header a directory block has the 7 entries 0 to 6 and a table block has 31
inodes.  For the root directory (block 5, inode 0, parent 0) the inode, the
entries `.` and `..`, the marks in the slots 2 to 6 and the link are as the
claim has them, but the loop runs up to `N_INODES_PER_BLOCK`: it also stores
`UNALLOCATED_INODE` at the indices 7 to 30, which lie outside the entry array,
and leaves index 31 as `memset` set it. -/
theorem oufs_init_directory_structures_overruns :
    stdConfig.N_DIRECTORY_ENTRIES_PER_BLOCK = 7 ∧ stdConfig.N_INODES_PER_BLOCK = 31 ∧
    (oufs_init_directory_structures stdConfig 5 0 0).1 = ⟨DIRECTORY_TYPE, 1, 5, 2⟩ ∧
    (oufs_init_directory_structures stdConfig 5 0 0).2.content.asDirectory 0 = ⟨['.'], 0⟩ ∧
    (oufs_init_directory_structures stdConfig 5 0 0).2.content.asDirectory 1
      = ⟨['.', '.'], 0⟩ ∧
    (∀ i < 7, 2 ≤ i →
      ((oufs_init_directory_structures stdConfig 5 0 0).2.content.asDirectory i).inode_reference
        = stdConfig.UNALLOCATED_INODE) ∧
    (oufs_init_directory_structures stdConfig 5 0 0).2.next_block
      = stdConfig.UNALLOCATED_BLOCK ∧
    (∀ i < 31, 7 ≤ i →
      ((oufs_init_directory_structures stdConfig 5 0 0).2.content.asDirectory i).inode_reference
        = stdConfig.UNALLOCATED_INODE) ∧
    ((oufs_init_directory_structures stdConfig 5 0 0).2.content.asDirectory 31).inode_reference
      = 0 := by
  decide

/-! ## `oufs_allocate_new_directory` when nothing can be allocated -/

theorem oufs_allocate_new_directory_full (cfg : Config) (d : Disk) (parent_reference : Nat)
    (h : scan_inode_flags (d MASTER_BLOCK_REFERENCE).content.asMaster.inode_allocated_flag
      (cfg.N_INODES / 8) 0 = none) :
    oufs_allocate_new_directory cfg d parent_reference = (cfg.UNALLOCATED_INODE, d) := by
  unfold oufs_allocate_new_directory
  simp only [virtual_disk_read_block]
  rw [h]

/-- C23 (the code at the failing input).  On `noFreeDisk` the free list is
empty (`unallocated_front` is `UNALLOCATED_BLOCK`) and the inodes 0, 1 and 2
are allocated.  `oufs_allocate_new_directory` for the root does not return
`UNALLOCATED_INODE` but 3, and it changes the disk: the bit of inode 3 is set
(224 becomes 240), inode 3 becomes a directory whose content is
`UNALLOCATED_BLOCK`, and the size of the root goes from 4 to 5. -/
theorem oufs_allocate_new_directory_without_block :
    (noFreeDisk 0).content.asMaster.unallocated_front = stdConfig.UNALLOCATED_BLOCK ∧
    (noFreeDisk 0).content.asMaster.inode_allocated_flag 0 = 224 ∧
    (oufs_read_inode_by_reference stdConfig noFreeDisk 0).size = 4 ∧
    (oufs_allocate_new_directory stdConfig noFreeDisk 0).1 = 3 ∧
    (oufs_allocate_new_directory stdConfig noFreeDisk 0).1 ≠ stdConfig.UNALLOCATED_INODE ∧
    ((oufs_allocate_new_directory stdConfig noFreeDisk 0).2
      0).content.asMaster.inode_allocated_flag 0 = 240 ∧
    oufs_read_inode_by_reference stdConfig (oufs_allocate_new_directory stdConfig noFreeDisk 0).2 3
      = ⟨DIRECTORY_TYPE, 1, stdConfig.UNALLOCATED_BLOCK, 2⟩ ∧
    (oufs_read_inode_by_reference stdConfig
      (oufs_allocate_new_directory stdConfig noFreeDisk 0).2 0).size = 5 := by
  set_option maxRecDepth 1000000 in decide

/-! ## The free list under `oufs_deallocate_block` and `oufs_allocate_new_block` -/

theorem chain_from_append (cfg : Config) (d d2 : Disk) (r last : Nat)
    (hr : r ≠ cfg.UNALLOCATED_BLOCK) (hnew : (d2 r).next_block = cfg.UNALLOCATED_BLOCK)
    (hlast : (d2 last).next_block = r)
    (hother : ∀ k, k ≠ r → k ≠ last → (d2 k).next_block = (d k).next_block) :
    ∀ (fs : List Nat) (b : Nat), chain_from cfg d b fs → fs.Nodup → r ∉ fs →
      fs.getLast? = some last → chain_from cfg d2 b (fs ++ [r]) := by
  intro fs
  induction fs with
  | nil => intro b _ _ _ h; simp at h
  | cons f t ih =>
    intro b hc hnd hrf hl
    cases t with
    | nil =>
      have hfl : f = last := by simpa using hl
      obtain ⟨h1, h2, _⟩ := hc
      refine ⟨h1, h2, ?_⟩
      show chain_from cfg d2 (d2 f).next_block [r]
      rw [hfl, hlast]
      exact ⟨rfl, hr, hnew⟩
    | cons g u =>
      obtain ⟨h1, h2, h3⟩ := hc
      have hl2 : (g :: u).getLast? = some last := by
        rw [List.getLast?_cons_cons] at hl
        exact hl
      have hmem : last ∈ g :: u := List.mem_of_getLast?_eq_some hl2
      have hfl : f ≠ last := by
        intro e
        rw [e] at hnd
        exact (List.nodup_cons.mp hnd).1 hmem
      have hfr : f ≠ r := by
        intro e
        apply hrf
        rw [e]
        exact List.mem_cons_self _ _
      refine ⟨h1, h2, ?_⟩
      show chain_from cfg d2 (d2 f).next_block ((g :: u) ++ [r])
      rw [hother f hfr hfl]
      exact ih _ h3 (List.nodup_cons.mp hnd).2
        (fun hm => hrf (List.mem_cons_of_mem _ hm)) hl2

theorem deallocate_block_free_list (cfg : Config) (d : Disk) (master_block : BLOCK)
    (fs : List Nat) (r : Nat) (h : FreeList cfg d master_block.content.asMaster fs)
    (hrf : r ∉ fs) (hr : r ≠ cfg.UNALLOCATED_BLOCK) :
    FreeList cfg (oufs_deallocate_block cfg d master_block r).2.2
      (oufs_deallocate_block cfg d master_block r).2.1.content.asMaster (fs ++ [r]) := by
  have hnew : ((oufs_deallocate_block cfg d master_block r).2.2 r).next_block
      = cfg.UNALLOCATED_BLOCK := by
    rw [deallocate_block_next, if_pos rfl]
  cases fs with
  | nil =>
    have hfront : master_block.content.asMaster.unallocated_front = cfg.UNALLOCATED_BLOCK :=
      h.chain
    refine ⟨?_, by simp, ?_⟩
    · rw [deallocate_block_master, if_pos hfront]
      exact ⟨rfl, hr, hnew⟩
    · intro _
      rw [deallocate_block_master]
      rfl
  | cons f t =>
    have hfront : master_block.content.asMaster.unallocated_front ≠ cfg.UNALLOCATED_BLOCK := by
      have h1 := h.chain
      rw [h1.1]
      exact h1.2.1
    have hl := h.last (List.cons_ne_nil f t)
    refine ⟨?_, ?_, ?_⟩
    · rw [deallocate_block_master, if_neg hfront]
      apply chain_from_append cfg d _ r master_block.content.asMaster.unallocated_end hr hnew
        _ _ (f :: t) _ h.chain h.distinct hrf hl
      · have hne : master_block.content.asMaster.unallocated_end ≠ r := by
          intro e
          apply hrf
          rw [← e]
          exact List.mem_of_getLast?_eq_some hl
        rw [deallocate_block_next, if_neg hne, if_pos ⟨hfront, rfl⟩]
      · intro k hk1 hk2
        rw [deallocate_block_next, if_neg hk1, if_neg (fun hc => hk2 hc.2)]
    · exact List.Nodup.append h.distinct (List.nodup_singleton r)
        (by
          intro a ha hb
          rw [List.mem_singleton.mp hb] at ha
          exact hrf ha)
    · intro _
      rw [deallocate_block_master, List.getLast?_append]
      rfl

theorem allocate_new_block_free_list (cfg : Config) (d : Disk) (master_block : BLOCK)
    (f : Nat) (fs : List Nat) (h : FreeList cfg d master_block.content.asMaster (f :: fs)) :
    (oufs_allocate_new_block cfg d master_block).1 = f ∧
    FreeList cfg d (oufs_allocate_new_block cfg d master_block).2.content.asMaster fs := by
  have h1 := h.chain
  have hfront : master_block.content.asMaster.unallocated_front ≠ cfg.UNALLOCATED_BLOCK := by
    rw [h1.1]
    exact h1.2.1
  unfold oufs_allocate_new_block
  rw [if_neg hfront]
  refine ⟨h1.1, ?_, (List.nodup_cons.mp h.distinct).2, ?_⟩
  · show chain_from cfg d (d master_block.content.asMaster.unallocated_front).next_block fs
    rw [h1.1]
    exact h1.2.2
  · intro hne
    have hl := h.last (List.cons_ne_nil f fs)
    cases fs with
    | nil => exact absurd rfl hne
    | cons g u =>
      rw [List.getLast?_cons_cons] at hl
      exact hl

theorem allocate_new_block_empty (cfg : Config) (d : Disk) (master_block : BLOCK)
    (h : FreeList cfg d master_block.content.asMaster []) :
    oufs_allocate_new_block cfg d master_block = (cfg.UNALLOCATED_BLOCK, master_block) := by
  have hfront : master_block.content.asMaster.unallocated_front = cfg.UNALLOCATED_BLOCK :=
    h.chain
  unfold oufs_allocate_new_block
  rw [if_pos hfront]

theorem deallocate_each_free_list (cfg : Config) : ∀ (rs : List Nat) (s : BLOCK × Disk)
    (fs : List Nat), FreeList cfg s.2 s.1.content.asMaster fs → rs.Nodup →
    (∀ r ∈ rs, r ∉ fs) → (∀ r ∈ rs, r ≠ cfg.UNALLOCATED_BLOCK) →
    FreeList cfg (deallocate_each cfg rs s).2 (deallocate_each cfg rs s).1.content.asMaster
      (fs ++ rs) := by
  intro rs
  induction rs with
  | nil =>
    intro s fs h _ _ _
    rw [List.append_nil]
    exact h
  | cons r t ih =>
    intro s fs h hnd hnot hblock
    have hstep := deallocate_block_free_list cfg s.2 s.1 fs r h
      (hnot r (List.mem_cons_self _ _)) (hblock r (List.mem_cons_self _ _))
    have hrec := ih (_, _) (fs ++ [r]) hstep (List.nodup_cons.mp hnd).2
      (by
        intro q hq hmem
        rcases List.mem_append.mp hmem with hm | hm
        · exact hnot q (List.mem_cons_of_mem _ hq) hm
        · rw [List.mem_singleton.mp hm] at hq
          exact (List.nodup_cons.mp hnd).1 hq)
      (fun q hq => hblock q (List.mem_cons_of_mem _ hq))
    rw [List.append_assoc] at hrec
    exact hrec

theorem allocate_each_free_list (cfg : Config) (d : Disk) : ∀ (fs : List Nat)
    (master_block : BLOCK), FreeList cfg d master_block.content.asMaster fs →
    (allocate_each cfg d (fs.length + 1) master_block).1 = fs ++ [cfg.UNALLOCATED_BLOCK] := by
  intro fs
  induction fs with
  | nil =>
    intro mb h
    show [(oufs_allocate_new_block cfg d mb).1] = _
    rw [allocate_new_block_empty cfg d mb h]
    rfl
  | cons f t ih =>
    intro mb h
    have hstep := allocate_new_block_free_list cfg d mb f t h
    show (oufs_allocate_new_block cfg d mb).1 ::
      (allocate_each cfg d (t.length + 1) (oufs_allocate_new_block cfg d mb).2).1 = _
    rw [hstep.1, ih _ hstep.2]
    rfl

/-- C26: when the free list of the master block is `fs` (a chain from
`unallocated_front` without repetition that ends in `unallocated_end`) and
`rs` are distinct blocks not on it, then after `oufs_deallocate_block` has been
called on the blocks of `rs` in turn, `fs.length + rs.length + 1` successive
calls of `oufs_allocate_new_block` return the blocks of `fs`, then the blocks of
`rs`, each list in its order, and last `UNALLOCATED_BLOCK`. -/
theorem oufs_block_reuse_fifo (cfg : Config) (d : Disk) (master_block : BLOCK)
    (fs rs : List Nat) (hfree : FreeList cfg d master_block.content.asMaster fs)
    (hdistinct : rs.Nodup) (hnot : ∀ r ∈ rs, r ∉ fs)
    (hblock : ∀ r ∈ rs, r ≠ cfg.UNALLOCATED_BLOCK) :
    (allocate_each cfg (deallocate_each cfg rs (master_block, d)).2
      (fs.length + rs.length + 1) (deallocate_each cfg rs (master_block, d)).1).1
      = fs ++ rs ++ [cfg.UNALLOCATED_BLOCK] := by
  have h := deallocate_each_free_list cfg rs (master_block, d) fs hfree hdistinct hnot hblock
  rw [← List.length_append]
  exact allocate_each_free_list cfg _ (fs ++ rs) _ h

/-- C26 at a concrete input: on `stepDisk1` the free list is the blocks 7 to
127 and block 6 belongs to the file `/f`; after block 6 is deallocated, 123
allocations return 7, ..., 127, then 6, then `UNALLOCATED_BLOCK`. -/
theorem oufs_block_reuse_fifo_witness :
    (FreeList stdConfig stepDisk1 (stepDisk1 0).content.asMaster (List.range' 7 121) ∧
      [6].Nodup ∧ (∀ r ∈ [6], r ∉ List.range' 7 121) ∧
      (∀ r ∈ [6], r ≠ stdConfig.UNALLOCATED_BLOCK)) ∧
    (allocate_each stdConfig (deallocate_each stdConfig [6] (stepDisk1 0, stepDisk1)).2
      ((List.range' 7 121).length + [6].length + 1)
      (deallocate_each stdConfig [6] (stepDisk1 0, stepDisk1)).1).1
      = List.range' 7 121 ++ [6] ++ [stdConfig.UNALLOCATED_BLOCK] :=
  have hfree : FreeList stdConfig stepDisk1 (stepDisk1 0).content.asMaster (List.range' 7 121) :=
    { chain := by set_option maxRecDepth 1000000 in decide
      distinct := by decide
      last := by set_option maxRecDepth 1000000 in decide }
  ⟨⟨hfree, by decide, by decide, by decide⟩,
    oufs_block_reuse_fifo stdConfig stepDisk1 (stepDisk1 0) (List.range' 7 121) [6] hfree
      (by decide) (by decide) (by decide)⟩

/-! ## Sequences of calls of the two block functions -/

theorem run_calls_valid (cfg : Config) : ∀ (calls : List BlockCall) (s : AllocState),
    (run_calls cfg calls s).valid = true → s.valid = true := by
  intro calls
  induction calls with
  | nil => intro s h; exact h
  | cons c rest ih =>
    intro s h
    cases c with
    | allocate =>
      have h0 : (run_calls cfg rest
          { s with
            master_block := (oufs_allocate_new_block cfg s.disk s.master_block).2
            allocated :=
              if (oufs_allocate_new_block cfg s.disk s.master_block).1
                  = cfg.UNALLOCATED_BLOCK then
                s.allocated
              else (oufs_allocate_new_block cfg s.disk s.master_block).1 :: s.allocated }).valid
          = true := h
      have h1 := ih _ h0
      exact h1
    | deallocate r =>
      have h0 : (run_calls cfg rest
          { master_block := (oufs_deallocate_block cfg s.disk s.master_block r).2.1
            disk := (oufs_deallocate_block cfg s.disk s.master_block r).2.2
            allocated := s.allocated.erase r
            valid := s.valid && decide (r ∈ s.allocated) }).valid = true := h
      have h1 := ih _ h0
      have h2 : (s.valid && decide (r ∈ s.allocated)) = true := h1
      rw [Bool.and_eq_true] at h2
      exact h2.1

theorem run_calls_invariant (cfg : Config) (total : Nat) : ∀ (calls : List BlockCall)
    (s : AllocState),
    (∃ fs, FreeList cfg s.disk s.master_block.content.asMaster fs ∧
      (∀ a ∈ s.allocated, a ∉ fs ∧ a ≠ cfg.UNALLOCATED_BLOCK) ∧ s.allocated.Nodup ∧
      fs.length + s.allocated.length = total) →
    (run_calls cfg calls s).valid = true →
    ∃ fs, FreeList cfg (run_calls cfg calls s).disk
        (run_calls cfg calls s).master_block.content.asMaster fs ∧
      (∀ a ∈ (run_calls cfg calls s).allocated, a ∉ fs ∧ a ≠ cfg.UNALLOCATED_BLOCK) ∧
      (run_calls cfg calls s).allocated.Nodup ∧
      fs.length + (run_calls cfg calls s).allocated.length = total := by
  intro calls
  induction calls with
  | nil => intro s h _; exact h
  | cons c rest ih =>
    intro s h hv
    obtain ⟨fs, hfree, hdisj, hnd, hlen⟩ := h
    cases c with
    | allocate =>
      apply ih _ _ hv
      cases fs with
      | nil =>
        have e := allocate_new_block_empty cfg s.disk s.master_block hfree
        refine ⟨[], ?_, ?_, ?_, ?_⟩
        · show FreeList cfg s.disk
            (oufs_allocate_new_block cfg s.disk s.master_block).2.content.asMaster []
          rw [e]
          exact hfree
        · show ∀ a ∈ (if (oufs_allocate_new_block cfg s.disk s.master_block).1
              = cfg.UNALLOCATED_BLOCK then s.allocated else _), _
          rw [e, if_pos rfl]
          exact hdisj
        · show (if (oufs_allocate_new_block cfg s.disk s.master_block).1
              = cfg.UNALLOCATED_BLOCK then s.allocated else _).Nodup
          rw [e, if_pos rfl]
          exact hnd
        · show _ + (if (oufs_allocate_new_block cfg s.disk s.master_block).1
              = cfg.UNALLOCATED_BLOCK then s.allocated else _).length = total
          rw [e, if_pos rfl]
          exact hlen
      | cons f t =>
        have e := allocate_new_block_free_list cfg s.disk s.master_block f t hfree
        have hf : f ≠ cfg.UNALLOCATED_BLOCK := hfree.chain.2.1
        have hft : f ∉ t := (List.nodup_cons.mp hfree.distinct).1
        have hfa : f ∉ s.allocated := fun hm => (hdisj f hm).1 (List.mem_cons_self _ _)
        refine ⟨t, e.2, ?_, ?_, ?_⟩
        · show ∀ a ∈ (if (oufs_allocate_new_block cfg s.disk s.master_block).1
              = cfg.UNALLOCATED_BLOCK then s.allocated else _), _
          rw [e.1, if_neg hf]
          intro a ha
          rcases List.mem_cons.mp ha with ha | ha
          · rw [ha]
            exact ⟨hft, hf⟩
          · exact ⟨fun hm => (hdisj a ha).1 (List.mem_cons_of_mem _ hm), (hdisj a ha).2⟩
        · show (if (oufs_allocate_new_block cfg s.disk s.master_block).1
              = cfg.UNALLOCATED_BLOCK then s.allocated else _).Nodup
          rw [e.1, if_neg hf]
          exact List.nodup_cons.mpr ⟨hfa, hnd⟩
        · show _ + (if (oufs_allocate_new_block cfg s.disk s.master_block).1
              = cfg.UNALLOCATED_BLOCK then s.allocated else _).length = total
          rw [e.1, if_neg hf]
          simp only [List.length_cons] at hlen ⊢
          omega
    | deallocate r =>
      have hv1 := run_calls_valid cfg rest _ hv
      have hv2 : (s.valid && decide (r ∈ s.allocated)) = true := hv1
      rw [Bool.and_eq_true] at hv2
      have hr : r ∈ s.allocated := of_decide_eq_true hv2.2
      apply ih _ _ hv
      refine ⟨fs ++ [r],
        deallocate_block_free_list cfg s.disk s.master_block fs r hfree (hdisj r hr).1
          (hdisj r hr).2, ?_, ?_, ?_⟩
      · intro a ha
        have ha1 : a ≠ r ∧ a ∈ s.allocated := (List.Nodup.mem_erase_iff hnd).mp ha
        refine ⟨?_, (hdisj a ha1.2).2⟩
        intro hm
        rcases List.mem_append.mp hm with hm | hm
        · exact (hdisj a ha1.2).1 hm
        · exact ha1.1 (List.mem_singleton.mp hm)
      · exact List.Nodup.erase r hnd
      · show (fs ++ [r]).length + (s.allocated.erase r).length = total
        rw [List.length_append, List.length_erase_of_mem hr]
        have hpos : 0 < s.allocated.length := List.length_pos_of_mem hr
        simp only [List.length_singleton]
        omega

/-! ## `oufs_format_disk`: the master block and the free list -/

theorem format_inodes_next (cfg : Config) (fuel : Nat) : ∀ (d : Disk) (i r : Nat),
    (format_inodes cfg d fuel i r).next_block = (d r).next_block := by
  induction fuel with
  | zero => intro d i r; rfl
  | succ n ih =>
    intro d i r
    show (format_inodes cfg _ n (i + 1) r).next_block = _
    rw [ih, write_inode_next_block]

theorem format_free_next (cfg : Config) (fuel : Nat) : ∀ (d : Disk) (i r : Nat),
    i ≤ r → r < i + fuel →
    (format_free cfg d fuel i r).next_block =
      if r = cfg.N_BLOCKS - 1 then cfg.UNALLOCATED_BLOCK else r + 1 := by
  induction fuel with
  | zero => intro d i r h1 h2; omega
  | succ n ih =>
    intro d i r h1 h2
    by_cases hr : r = i
    · show (format_free cfg _ n (i + 1) r).next_block = _
      rw [format_free_block cfg n _ (i + 1) r (Or.inl (by omega)), hr, write_block_same]
    · show (format_free cfg _ n (i + 1) r).next_block = _
      exact ih _ (i + 1) r (by omega) (by omega)

theorem format_disk_master (cfg : Config) (d : Disk)
    (hroot : cfg.ROOT_DIRECTORY_BLOCK ≠ MASTER_BLOCK_REFERENCE) :
    ((oufs_format_disk cfg d).2 MASTER_BLOCK_REFERENCE).content.asMaster =
      ⟨setAt zeroMaster.inode_allocated_flag 0 128, 6, cfg.N_BLOCKS - 1⟩ := by
  unfold oufs_format_disk
  simp only []
  rw [format_inodes_block cfg _ _ _ _
      (fun j _ _ => Ne.symm (table_block_ne_master cfg j)),
    format_free_block cfg _ _ _ _ (Or.inl (by decide)),
    write_block_other _ _ _ _ (Ne.symm hroot),
    write_inode_other_block cfg _ _ _ _ (Ne.symm (table_block_ne_master cfg 0)),
    write_block_same]
  rfl

theorem format_disk_next (cfg : Config) (d : Disk) (k : Nat) (h1 : 6 ≤ k)
    (h2 : k < cfg.N_BLOCKS) :
    ((oufs_format_disk cfg d).2 k).next_block =
      if k = cfg.N_BLOCKS - 1 then cfg.UNALLOCATED_BLOCK else k + 1 := by
  unfold oufs_format_disk
  simp only []
  rw [format_inodes_next]
  exact format_free_next cfg _ _ 6 k h1 (by omega)

theorem chain_from_ascending (cfg : Config) (d : Disk) (n : Nat) : ∀ b,
    (∀ k, b ≤ k → k < b + (n + 1) → k ≠ cfg.UNALLOCATED_BLOCK ∧
      (d k).next_block = if k + 1 = b + (n + 1) then cfg.UNALLOCATED_BLOCK else k + 1) →
    chain_from cfg d b (List.range' b (n + 1)) := by
  induction n with
  | zero =>
    intro b h
    have hb := h b (Nat.le_refl b) (by omega)
    refine ⟨rfl, hb.1, ?_⟩
    show (d b).next_block = cfg.UNALLOCATED_BLOCK
    rw [hb.2, if_pos rfl]
  | succ n ih =>
    intro b h
    have hb := h b (Nat.le_refl b) (by omega)
    refine ⟨rfl, hb.1, ?_⟩
    show chain_from cfg d (d b).next_block (List.range' (b + 1) (n + 1))
    rw [hb.2, if_neg (by omega)]
    apply ih
    intro k hk1 hk2
    have hk := h k (by omega) (by omega)
    refine ⟨hk.1, ?_⟩
    rw [hk.2]
    by_cases e : k + 1 = b + (n + 1 + 1)
    · rw [if_pos e, if_pos (by omega)]
    · rw [if_neg e, if_neg (by omega)]

theorem format_disk_free_list (cfg : Config) (d : Disk)
    (hroot : cfg.ROOT_DIRECTORY_BLOCK ≠ MASTER_BLOCK_REFERENCE) (hblocks : 6 < cfg.N_BLOCKS)
    (hsentinel : cfg.N_BLOCKS ≤ cfg.UNALLOCATED_BLOCK) :
    FreeList cfg (oufs_format_disk cfg d).2
      ((oufs_format_disk cfg d).2 MASTER_BLOCK_REFERENCE).content.asMaster
      (List.range' 6 (cfg.N_BLOCKS - 6)) := by
  have hm := format_disk_master cfg d hroot
  have hfront : ((oufs_format_disk cfg d).2
      MASTER_BLOCK_REFERENCE).content.asMaster.unallocated_front = 6 := by
    rw [hm]
  have hend : ((oufs_format_disk cfg d).2
      MASTER_BLOCK_REFERENCE).content.asMaster.unallocated_end = cfg.N_BLOCKS - 1 := by
    rw [hm]
  obtain ⟨n, hn⟩ : ∃ n, cfg.N_BLOCKS - 6 = n + 1 := ⟨cfg.N_BLOCKS - 7, by omega⟩
  refine ⟨?_, List.nodup_range' 6 _, ?_⟩
  · rw [hfront, hn]
    apply chain_from_ascending
    intro k hk1 hk2
    refine ⟨by omega, ?_⟩
    rw [format_disk_next cfg d k hk1 (by omega)]
    by_cases e : k = cfg.N_BLOCKS - 1
    · rw [if_pos e, if_pos (by omega)]
    · rw [if_neg e, if_neg (by omega)]
  · intro _
    rw [hend, List.getLast?_range', if_neg (by omega)]
    congr 1
    omega

/-- C27: take any sequence of calls of `oufs_allocate_new_block` and
`oufs_deallocate_block` that starts on a freshly formatted disk and deallocates
only blocks allocated at the time.  At format time the free list is the
`N_BLOCKS - 6` blocks from 6 on; after the calls the free list is still a list
`fs`: a chain from `unallocated_front` to `UNALLOCATED_BLOCK` that visits no
block twice and ends in `unallocated_end`, and its length is `N_BLOCKS - 6`
less the number of blocks allocated and not given back.  The layout of the
header is assumed: the root directory block is not the master block, there
are blocks from 6 on, and `UNALLOCATED_BLOCK` is not the reference of a
block. -/
theorem oufs_free_list_conserved (cfg : Config) (d : Disk) (calls : List BlockCall)
    (hroot : cfg.ROOT_DIRECTORY_BLOCK ≠ MASTER_BLOCK_REFERENCE) (hblocks : 6 < cfg.N_BLOCKS)
    (hsentinel : cfg.N_BLOCKS ≤ cfg.UNALLOCATED_BLOCK)
    (hvalid : (run_calls cfg calls (formatted_state cfg d)).valid = true) :
    FreeList cfg (formatted_state cfg d).disk
      (formatted_state cfg d).master_block.content.asMaster (List.range' 6 (cfg.N_BLOCKS - 6)) ∧
    ∃ fs, FreeList cfg (run_calls cfg calls (formatted_state cfg d)).disk
        (run_calls cfg calls (formatted_state cfg d)).master_block.content.asMaster fs ∧
      fs.length + (run_calls cfg calls (formatted_state cfg d)).allocated.length
        = cfg.N_BLOCKS - 6 ∧
      fs.length
        = cfg.N_BLOCKS - 6 - (run_calls cfg calls (formatted_state cfg d)).allocated.length := by
  have h0 := format_disk_free_list cfg d hroot hblocks hsentinel
  refine ⟨h0, ?_⟩
  obtain ⟨fs, h1, _, _, h4⟩ := run_calls_invariant cfg (cfg.N_BLOCKS - 6) calls
    (formatted_state cfg d)
    ⟨List.range' 6 (cfg.N_BLOCKS - 6), h0, fun a ha => absurd ha (List.not_mem_nil a),
      List.nodup_nil, by
        show (List.range' 6 (cfg.N_BLOCKS - 6)).length + 0 = _
        rw [List.length_range']
        rfl⟩
    hvalid
  exact ⟨fs, h1, h4, by omega⟩

/-- C27 at a concrete input: under the constants of the course header, on the
disk formatted from a store of zeroed blocks, two allocations (blocks 6 and
7), the deallocation of 6, one more allocation (block 8) and the deallocations
of 8 and 7. -/
theorem oufs_free_list_conserved_witness :
    (stdConfig.ROOT_DIRECTORY_BLOCK ≠ MASTER_BLOCK_REFERENCE ∧ 6 < stdConfig.N_BLOCKS ∧
      stdConfig.N_BLOCKS ≤ stdConfig.UNALLOCATED_BLOCK ∧
      (run_calls stdConfig
        [BlockCall.allocate, BlockCall.allocate, BlockCall.deallocate 6, BlockCall.allocate,
          BlockCall.deallocate 8, BlockCall.deallocate 7]
        (formatted_state stdConfig (fun _ => zeroBlock))).valid = true) ∧
    (FreeList stdConfig (formatted_state stdConfig (fun _ => zeroBlock)).disk
      (formatted_state stdConfig (fun _ => zeroBlock)).master_block.content.asMaster
      (List.range' 6 (stdConfig.N_BLOCKS - 6)) ∧
    ∃ fs, FreeList stdConfig
        (run_calls stdConfig
          [BlockCall.allocate, BlockCall.allocate, BlockCall.deallocate 6, BlockCall.allocate,
            BlockCall.deallocate 8, BlockCall.deallocate 7]
          (formatted_state stdConfig (fun _ => zeroBlock))).disk
        (run_calls stdConfig
          [BlockCall.allocate, BlockCall.allocate, BlockCall.deallocate 6, BlockCall.allocate,
            BlockCall.deallocate 8, BlockCall.deallocate 7]
          (formatted_state stdConfig (fun _ => zeroBlock))).master_block.content.asMaster fs ∧
      fs.length + (run_calls stdConfig
          [BlockCall.allocate, BlockCall.allocate, BlockCall.deallocate 6, BlockCall.allocate,
            BlockCall.deallocate 8, BlockCall.deallocate 7]
          (formatted_state stdConfig (fun _ => zeroBlock))).allocated.length
        = stdConfig.N_BLOCKS - 6 ∧
      fs.length = stdConfig.N_BLOCKS - 6 - (run_calls stdConfig
          [BlockCall.allocate, BlockCall.allocate, BlockCall.deallocate 6, BlockCall.allocate,
            BlockCall.deallocate 8, BlockCall.deallocate 7]
          (formatted_state stdConfig (fun _ => zeroBlock))).allocated.length) :=
  ⟨⟨by decide, by decide, by decide, by set_option maxRecDepth 1000000 in decide⟩,
    oufs_free_list_conserved stdConfig (fun _ => zeroBlock)
      [BlockCall.allocate, BlockCall.allocate, BlockCall.deallocate 6, BlockCall.allocate,
        BlockCall.deallocate 8, BlockCall.deallocate 7]
      (by decide) (by decide) (by decide) (by set_option maxRecDepth 1000000 in decide)⟩

theorem format_bitmap_bit (r : Nat) :
    inode_bit (setAt zeroMaster.inode_allocated_flag 0 128) r = decide (r = 0) := by
  unfold inode_bit setAt
  by_cases h : r / 8 = 0
  · rw [if_pos h]
    have hr : r < 8 := by omega
    have e : r % 8 = r := Nat.mod_eq_of_lt hr
    rw [e]
    interval_cases r <;> decide
  · rw [if_neg h]
    have hr : r ≠ 0 := by
      intro e
      rw [e] at h
      exact h rfl
    show (0 : Nat).testBit _ = _
    rw [Nat.zero_testBit]
    exact (decide_eq_false hr).symm

/-- C21: after `oufs_format_disk` has returned 0, the bitmap of the master block
has the bit of inode 0 set and the bit of every other inode clear;
`unallocated_front` is block `ROOT_DIRECTORY_BLOCK + 1`; following
`next_block` from it visits the blocks from there up to `N_BLOCKS - 1`, each
once and in ascending order, and then reaches `UNALLOCATED_BLOCK`; and
`unallocated_end` is `N_BLOCKS - 1`.  The layout of the header is assumed:
block 6, which the format names as the front, is the block after the root
directory block, there are blocks from 6 on, and `UNALLOCATED_BLOCK` is not the
reference of a block. -/
theorem oufs_format_disk_master (cfg : Config) (d : Disk)
    (hfirst : cfg.ROOT_DIRECTORY_BLOCK + 1 = 6) (hblocks : 6 < cfg.N_BLOCKS)
    (hsentinel : cfg.N_BLOCKS ≤ cfg.UNALLOCATED_BLOCK) :
    (oufs_format_disk cfg d).1 = 0 ∧
    inode_bit ((oufs_format_disk cfg d).2
      MASTER_BLOCK_REFERENCE).content.asMaster.inode_allocated_flag 0 = true ∧
    (∀ r, r ≠ 0 →
      inode_bit ((oufs_format_disk cfg d).2
        MASTER_BLOCK_REFERENCE).content.asMaster.inode_allocated_flag r = false) ∧
    ((oufs_format_disk cfg d).2 MASTER_BLOCK_REFERENCE).content.asMaster.unallocated_front
      = cfg.ROOT_DIRECTORY_BLOCK + 1 ∧
    chain_from cfg (oufs_format_disk cfg d).2
      ((oufs_format_disk cfg d).2 MASTER_BLOCK_REFERENCE).content.asMaster.unallocated_front
      (List.range' (cfg.ROOT_DIRECTORY_BLOCK + 1)
        (cfg.N_BLOCKS - (cfg.ROOT_DIRECTORY_BLOCK + 1))) ∧
    ((oufs_format_disk cfg d).2 MASTER_BLOCK_REFERENCE).content.asMaster.unallocated_end
      = cfg.N_BLOCKS - 1 := by
  have hroot : cfg.ROOT_DIRECTORY_BLOCK ≠ MASTER_BLOCK_REFERENCE := by
    intro e
    rw [e] at hfirst
    exact absurd hfirst (by decide)
  have hm := format_disk_master cfg d hroot
  have hfree := format_disk_free_list cfg d hroot hblocks hsentinel
  rw [hfirst]
  refine ⟨rfl, ?_, ?_, by rw [hm], hfree.chain, by rw [hm]⟩
  · rw [hm]
    exact format_bitmap_bit 0
  · intro r hr
    rw [hm]
    show inode_bit (setAt zeroMaster.inode_allocated_flag 0 128) r = false
    rw [format_bitmap_bit r]
    exact decide_eq_false hr

/-- C21 under the constants of the course header, on a store of zeroed
blocks. -/
theorem oufs_format_disk_master_witness :
    (stdConfig.ROOT_DIRECTORY_BLOCK + 1 = 6 ∧ 6 < stdConfig.N_BLOCKS ∧
      stdConfig.N_BLOCKS ≤ stdConfig.UNALLOCATED_BLOCK) ∧
    ((oufs_format_disk stdConfig (fun _ => zeroBlock)).1 = 0 ∧
    inode_bit ((oufs_format_disk stdConfig (fun _ => zeroBlock)).2
      MASTER_BLOCK_REFERENCE).content.asMaster.inode_allocated_flag 0 = true ∧
    (∀ r, r ≠ 0 →
      inode_bit ((oufs_format_disk stdConfig (fun _ => zeroBlock)).2
        MASTER_BLOCK_REFERENCE).content.asMaster.inode_allocated_flag r = false) ∧
    ((oufs_format_disk stdConfig (fun _ => zeroBlock)).2
      MASTER_BLOCK_REFERENCE).content.asMaster.unallocated_front
      = stdConfig.ROOT_DIRECTORY_BLOCK + 1 ∧
    chain_from stdConfig (oufs_format_disk stdConfig (fun _ => zeroBlock)).2
      ((oufs_format_disk stdConfig (fun _ => zeroBlock)).2
        MASTER_BLOCK_REFERENCE).content.asMaster.unallocated_front
      (List.range' (stdConfig.ROOT_DIRECTORY_BLOCK + 1)
        (stdConfig.N_BLOCKS - (stdConfig.ROOT_DIRECTORY_BLOCK + 1))) ∧
    ((oufs_format_disk stdConfig (fun _ => zeroBlock)).2
      MASTER_BLOCK_REFERENCE).content.asMaster.unallocated_end = stdConfig.N_BLOCKS - 1) :=
  ⟨by decide,
    oufs_format_disk_master stdConfig (fun _ => zeroBlock) (by decide) (by decide) (by decide)⟩

/-! ## The bitmap scan: first fit -/

theorem two_pow_and_eq_zero (x i : Nat) : 2 ^ i &&& x = 0 ↔ x.testBit i = false := by
  constructor
  · intro h
    have h1 : (2 ^ i &&& x).testBit i = false := by rw [h, Nat.zero_testBit]
    rw [Nat.testBit_and, Nat.testBit_two_pow_self, Bool.true_and] at h1
    exact h1
  · intro h
    apply Nat.eq_of_testBit_eq
    intro j
    rw [Nat.testBit_and, Nat.testBit_two_pow, Nat.zero_testBit]
    by_cases e : i = j
    · rw [← e, h, Bool.and_false]
    · rw [decide_eq_false e, Bool.false_and]

theorem find_open_bit_from_spec (value : Nat) : ∀ k,
    (find_open_bit_from value k = none ∧ ∀ i, i < k → value.testBit i = true) ∨
    (∃ b, find_open_bit_from value k = some b ∧ b < k ∧ value.testBit b = false ∧
      ∀ i, b < i → i < k → value.testBit i = true) := by
  intro k
  induction k with
  | zero => exact Or.inl ⟨rfl, fun i h => by omega⟩
  | succ k ih =>
    by_cases h : 2 ^ k &&& value = 0
    · right
      refine ⟨k, ?_, Nat.lt_succ_self k, (two_pow_and_eq_zero value k).mp h,
        fun i h1 h2 => by omega⟩
      show (if _ then _ else _) = _
      rw [if_pos h]
    · have hk : value.testBit k = true := by
        cases hb : value.testBit k with
        | true => rfl
        | false => exact absurd ((two_pow_and_eq_zero value k).mpr hb) h
      have e : find_open_bit_from value (k + 1) = find_open_bit_from value k := by
        show (if _ then _ else _) = _
        rw [if_neg h]
      rw [e]
      rcases ih with ⟨h1, h2⟩ | ⟨b, h1, h2, h3, h4⟩
      · left
        refine ⟨h1, ?_⟩
        intro i hi
        by_cases e2 : i = k
        · rw [e2]; exact hk
        · exact h2 i (by omega)
      · right
        refine ⟨b, h1, by omega, h3, ?_⟩
        intro i hi1 hi2
        by_cases e2 : i = k
        · rw [e2]; exact hk
        · exact h4 i hi1 (by omega)

theorem set_bit_byte : ∀ x < 256, ∀ b < 8, x.testBit b = false →
    x + 2 ^ b < 256 ∧ ∀ j < 8, (x + 2 ^ b).testBit j = (decide (j = b) || x.testBit j) := by
  set_option maxRecDepth 1000000 in decide

theorem set_bit_low (x b j : Nat) (hb : b < 8) (hj : j < 8) (h : x.testBit b = false) :
    (x + 2 ^ b).testBit j = (decide (j = b) || x.testBit j) := by
  have hx : x % 256 < 256 := Nat.mod_lt x (by decide)
  have hmod : ∀ y i, i < 8 → (y % 256).testBit i = y.testBit i := by
    intro y i hi
    have e : (256 : Nat) = 2 ^ 8 := by decide
    rw [e, Nat.testBit_mod_two_pow, decide_eq_true hi, Bool.true_and]
  have hbit : (x % 256).testBit b = false := by rw [hmod x b hb]; exact h
  have hs := set_bit_byte (x % 256) hx b hb hbit
  have hpow : 2 ^ b % 256 = 2 ^ b := by
    have : 2 ^ b < 256 := by
      have h1 : 2 ^ b < 2 ^ 8 := Nat.pow_lt_pow_right (by decide) hb
      exact h1
    exact Nat.mod_eq_of_lt this
  have e1 : (x + 2 ^ b) % 256 = x % 256 + 2 ^ b := by
    rw [Nat.add_mod, hpow, Nat.mod_eq_of_lt hs.1]
  rw [← hmod (x + 2 ^ b) j hj, e1, hs.2 j hj, hmod x j hj]

theorem scan_inode_flags_spec (flag : Nat → Nat) (fuel : Nat) : ∀ i,
    (scan_inode_flags flag fuel i = none ∧
      ∀ q, i * 8 ≤ q → q < (i + fuel) * 8 → inode_bit flag q = true) ∨
    (∃ r, scan_inode_flags flag fuel i
        = some (r, setAt flag (r / 8) (flag (r / 8) + 2 ^ (7 - r % 8))) ∧
      i * 8 ≤ r ∧ r < (i + fuel) * 8 ∧ inode_bit flag r = false ∧
      ∀ q, i * 8 ≤ q → q < r → inode_bit flag q = true) := by
  induction fuel with
  | zero =>
    intro i
    exact Or.inl ⟨rfl, fun q h1 h2 => by omega⟩
  | succ n ih =>
    intro i
    rcases find_open_bit_from_spec (flag i) 8 with ⟨h1, h2⟩ | ⟨b, h1, h2, h3, h4⟩
    · have e : scan_inode_flags flag (n + 1) i = scan_inode_flags flag n (i + 1) := by
        show (match oufs_find_open_bit (flag i) with
          | some bit => _
          | none => _) = _
        have h1b : oufs_find_open_bit (flag i) = none := h1
        rw [h1b]
      rw [e]
      have hbyte : ∀ q, i * 8 ≤ q → q < (i + 1) * 8 → inode_bit flag q = true := by
        intro q hq1 hq2
        unfold inode_bit
        have e1 : q / 8 = i := by omega
        rw [e1]
        exact h2 _ (by omega)
      rcases ih (i + 1) with ⟨h5, h6⟩ | ⟨r, h5, h6, h7, h8, h9⟩
      · left
        refine ⟨h5, ?_⟩
        intro q hq1 hq2
        by_cases hq : q < (i + 1) * 8
        · exact hbyte q hq1 hq
        · exact h6 q (by omega) (by omega)
      · right
        refine ⟨r, h5, by omega, by omega, h8, ?_⟩
        intro q hq1 hq2
        by_cases hq : q < (i + 1) * 8
        · exact hbyte q hq1 hq
        · exact h9 q (by omega) hq2
    · right
      have hr1 : (i * 8 + (7 - b % 8)) / 8 = i := by omega
      have hr2 : 7 - (i * 8 + (7 - b % 8)) % 8 = b := by omega
      refine ⟨i * 8 + (7 - b % 8), ?_, by omega, by omega, ?_, ?_⟩
      · show (match oufs_find_open_bit (flag i) with
          | some bit => _
          | none => _) = _
        have h1b : oufs_find_open_bit (flag i) = some b := h1
        rw [h1b, hr1, hr2]
      · unfold inode_bit
        rw [hr1, hr2]
        exact h3
      · intro q hq1 hq2
        unfold inode_bit
        have e1 : q / 8 = i := by omega
        rw [e1]
        exact h4 _ (by omega) (by omega)

/-- The scan over `n` bytes: when some inode below `8 * n` has its bit clear in the bitmap, the scan
of `oufs_create_file` and `oufs_allocate_new_directory` over the `n` bytes of the
bitmap returns the smallest inode reference `r` whose bit (bit `7 - r % 8` of
byte `r / 8`) is clear, and the bitmap it hands back to be written is the
original with `2 ^ (7 - r % 8)` added to byte `r / 8`: the bit of `r` is set
there and the bit of every other inode is as before. -/
theorem scan_inode_flags_first_fit (flag : Nat → Nat) (n : Nat)
    (hfree : ∃ q, q < n * 8 ∧ inode_bit flag q = false) :
    ∃ r, scan_inode_flags flag n 0
        = some (r, setAt flag (r / 8) (flag (r / 8) + 2 ^ (7 - r % 8))) ∧
      r < n * 8 ∧ inode_bit flag r = false ∧
      (∀ q, q < r → inode_bit flag q = true) ∧
      inode_bit (setAt flag (r / 8) (flag (r / 8) + 2 ^ (7 - r % 8))) r = true ∧
      (∀ q, q ≠ r →
        inode_bit (setAt flag (r / 8) (flag (r / 8) + 2 ^ (7 - r % 8))) q = inode_bit flag q) ∧
      (∀ i, i ≠ r / 8 → setAt flag (r / 8) (flag (r / 8) + 2 ^ (7 - r % 8)) i = flag i) := by
  rcases scan_inode_flags_spec flag n 0 with ⟨_, h2⟩ | ⟨r, h1, _, h3, h4, h5⟩
  · obtain ⟨q, hq1, hq2⟩ := hfree
    have := h2 q (by omega) (by omega)
    rw [hq2] at this
    exact absurd this (by decide)
  · have hb : 7 - r % 8 < 8 := by omega
    refine ⟨r, h1, by omega, h4, fun q hq => h5 q (by omega) hq, ?_, ?_, ?_⟩
    · unfold inode_bit setAt
      rw [if_pos rfl, set_bit_low _ _ _ hb hb h4, decide_eq_true rfl, Bool.true_or]
    · intro q hq
      unfold inode_bit setAt
      by_cases e : q / 8 = r / 8
      · have hne : 7 - q % 8 ≠ 7 - r % 8 := by omega
        have h4b : (flag (r / 8)).testBit (7 - r % 8) = false := h4
        rw [if_pos e, set_bit_low _ _ _ hb (by omega) h4b, decide_eq_false hne,
          Bool.false_or, e]
      · rw [if_neg e]
    · intro i hi
      unfold setAt
      rw [if_neg hi]

/-- The byte at which the scan stops: every byte before it has no clear bit, and
the result is built from the bit that `oufs_find_open_bit` reports for it. -/
theorem scan_inode_flags_byte (flag : Nat → Nat) (fuel : Nat) : ∀ i r f,
    scan_inode_flags flag fuel i = some (r, f) →
    ∃ j bit, i ≤ j ∧ j < i + fuel ∧ bit < 8 ∧
      (∀ k, i ≤ k → k < j → oufs_find_open_bit (flag k) = none) ∧
      oufs_find_open_bit (flag j) = some bit ∧
      r = j * 8 + (7 - bit) ∧ f = setAt flag j (flag j + 2 ^ bit) := by
  induction fuel with
  | zero =>
    intro i r f h
    simp [scan_inode_flags] at h
  | succ n ih =>
    intro i r f h
    rcases find_open_bit_from_spec (flag i) 8 with ⟨h1, _⟩ | ⟨b, h1, h2, _, _⟩
    · have h1b : oufs_find_open_bit (flag i) = none := h1
      have e : scan_inode_flags flag (n + 1) i = scan_inode_flags flag n (i + 1) := by
        show (match oufs_find_open_bit (flag i) with
          | some bit => _
          | none => _) = _
        rw [h1b]
      rw [e] at h
      obtain ⟨j, bit, hj1, hj2, hb, hk, hfind, hr, hf⟩ := ih (i + 1) r f h
      refine ⟨j, bit, by omega, by omega, hb, ?_, hfind, hr, hf⟩
      intro k hk1 hk2
      by_cases e2 : k = i
      · rw [e2]; exact h1b
      · exact hk k (by omega) hk2
    · have h1b : oufs_find_open_bit (flag i) = some b := h1
      have e : scan_inode_flags flag (n + 1) i
          = some (i * 8 + (7 - b % 8), setAt flag i (flag i + 2 ^ b)) := by
        show (match oufs_find_open_bit (flag i) with
          | some bit => _
          | none => _) = _
        rw [h1b]
      rw [e] at h
      simp only [Option.some.injEq, Prod.mk.injEq] at h
      refine ⟨i, b, Nat.le_refl _, by omega, h2, fun k hk1 hk2 => by omega, h1b, ?_, h.2.symm⟩
      rw [← h.1, Nat.mod_eq_of_lt h2]

/-- What `oufs_create_file` makes of the result of the scan: the reference it
returns and, when the parent's directory block is not the master block, the
bitmap of the master block on the disk afterwards. -/
theorem create_file_scan (cfg : Config) (d : Disk) (parent : Nat) (nm : List Char)
    (c : Nat) (flag : Nat → Nat)
    (hroom : (oufs_read_inode_by_reference cfg d parent).size ≠ cfg.N_DIRECTORY_ENTRIES_PER_BLOCK)
    (hscan : scan_inode_flags (d MASTER_BLOCK_REFERENCE).content.asMaster.inode_allocated_flag
      (cfg.N_INODES / 8) 0 = some (c, flag)) :
    (oufs_create_file cfg d parent nm).1 = c ∧
    ((oufs_read_inode_by_reference cfg d parent).content ≠ MASTER_BLOCK_REFERENCE →
      ((oufs_create_file cfg d parent nm).2 MASTER_BLOCK_REFERENCE).content.asMaster.inode_allocated_flag
        = flag) := by
  unfold oufs_create_file virtual_disk_read_block
  rw [if_neg hroom]
  simp only [hscan]
  refine ⟨trivial, fun hpc => ?_⟩
  have ht : ∀ i, MASTER_BLOCK_REFERENCE ≠ table_block cfg i := fun i => (Nat.succ_ne_zero _).symm
  rw [write_inode_other_block cfg _ parent _ _ (ht parent),
    write_block_other _ _ _ _ (fun h => hpc h.symm),
    write_inode_other_block cfg _ c _ _ (ht c), write_block_same]
  rfl

/-- What `oufs_allocate_new_directory` makes of the result of the scan: the reference
it returns and, when the block at the front of the free list is not the master
block, the bitmap of the master block on the disk afterwards. -/
theorem allocate_new_directory_scan (cfg : Config) (d : Disk) (parent : Nat)
    (c : Nat) (flag : Nat → Nat)
    (hscan : scan_inode_flags (d MASTER_BLOCK_REFERENCE).content.asMaster.inode_allocated_flag
      (cfg.N_INODES / 8) 0 = some (c, flag)) :
    (oufs_allocate_new_directory cfg d parent).1 = c ∧
    ((d MASTER_BLOCK_REFERENCE).content.asMaster.unallocated_front ≠ MASTER_BLOCK_REFERENCE →
      ((oufs_allocate_new_directory cfg d parent).2
        MASTER_BLOCK_REFERENCE).content.asMaster.inode_allocated_flag = flag) := by
  unfold oufs_allocate_new_directory
  simp only [virtual_disk_read_block]
  rw [hscan]
  simp only []
  refine ⟨trivial, fun hf => ?_⟩
  have ht : ∀ i, MASTER_BLOCK_REFERENCE ≠ table_block cfg i := fun i => (Nat.succ_ne_zero _).symm
  rw [write_inode_other_block cfg _ parent _ _ (ht parent),
    write_inode_other_block cfg _ c _ _ (ht c),
    write_block_other _ _ _ _ (fun h => hf h.symm), write_block_same]
  rfl

/-- C22 (counterexample).  On a disk whose bitmap has the bits of the inodes 0
to 119 set and the bits of the inodes 120 to 123 clear, the bitmap has a zero
bit for an inode below `N_INODES`, yet the scan over `N_INODES >> 3` bytes finds
none, and `oufs_create_file` (the root is not full) and `oufs_allocate_new_directory`
return `UNALLOCATED_INODE` and leave the bit of inode 120 clear. -/
theorem oufs_inode_allocation_first_fit_counterexample :
    120 < stdConfig.N_INODES ∧
    inode_bit (scannedFullDisk MASTER_BLOCK_REFERENCE).content.asMaster.inode_allocated_flag 120
      = false ∧
    (∀ q, q < 120 →
      inode_bit (scannedFullDisk MASTER_BLOCK_REFERENCE).content.asMaster.inode_allocated_flag q
        = true) ∧
    stdConfig.N_INODES / 8 = 15 ∧
    (scan_inode_flags
      (scannedFullDisk MASTER_BLOCK_REFERENCE).content.asMaster.inode_allocated_flag
      (stdConfig.N_INODES / 8) 0).isNone = true ∧
    (oufs_read_inode_by_reference stdConfig scannedFullDisk 0).size
      ≠ stdConfig.N_DIRECTORY_ENTRIES_PER_BLOCK ∧
    (oufs_create_file stdConfig scannedFullDisk 0 ['f']).1 = stdConfig.UNALLOCATED_INODE ∧
    inode_bit ((oufs_create_file stdConfig scannedFullDisk 0 ['f']).2
      MASTER_BLOCK_REFERENCE).content.asMaster.inode_allocated_flag 120 = false ∧
    (oufs_allocate_new_directory stdConfig scannedFullDisk 0).1 = stdConfig.UNALLOCATED_INODE ∧
    inode_bit ((oufs_allocate_new_directory stdConfig scannedFullDisk 0).2
      MASTER_BLOCK_REFERENCE).content.asMaster.inode_allocated_flag 120 = false := by
  set_option maxRecDepth 1000000 in decide!

/-- C22 (amended).  When some inode below `8 * (N_INODES >> 3)`, the inodes that
the scan covers, has its bit clear in the bitmap of the master block: the scan
of `oufs_create_file` and `oufs_allocate_new_directory` stops at the first byte
`byteIndex` for which `oufs_find_open_bit` reports a bit `bitOffset`, and its result
`r = byteIndex * 8 + (7 - bitOffset)` is the smallest inode reference whose bit
is clear; the bitmap it hands back to be written differs from the original
only in that the bit of `r` is set.  `oufs_allocate_new_directory` returns `r`, and so
does `oufs_create_file` when the parent is not full; the bitmap of the master
block on the disk they leave differs from the original only in that the bit
of `r` is set, provided the other block they write (the block at the front of
the free list, the directory block of the parent) is not the master block. -/
theorem oufs_inode_allocation_first_fit (cfg : Config) (d : Disk) (parent : Nat)
    (local_name : List Char)
    (hfree : ∃ q, q < cfg.N_INODES / 8 * 8 ∧
      inode_bit (d MASTER_BLOCK_REFERENCE).content.asMaster.inode_allocated_flag q = false) :
    ∃ r byteIndex bitOffset,
      byteIndex < cfg.N_INODES / 8 ∧ bitOffset < 8 ∧
      (∀ k, k < byteIndex → oufs_find_open_bit
        ((d MASTER_BLOCK_REFERENCE).content.asMaster.inode_allocated_flag k) = none) ∧
      oufs_find_open_bit
        ((d MASTER_BLOCK_REFERENCE).content.asMaster.inode_allocated_flag byteIndex)
        = some bitOffset ∧
      r = byteIndex * 8 + (7 - bitOffset) ∧
      r < cfg.N_INODES / 8 * 8 ∧
      inode_bit (d MASTER_BLOCK_REFERENCE).content.asMaster.inode_allocated_flag r = false ∧
      (∀ q, q < r →
        inode_bit (d MASTER_BLOCK_REFERENCE).content.asMaster.inode_allocated_flag q = true) ∧
      (∃ written, scan_inode_flags (d MASTER_BLOCK_REFERENCE).content.asMaster.inode_allocated_flag
          (cfg.N_INODES / 8) 0 = some (r, written) ∧
        only_bit_set (d MASTER_BLOCK_REFERENCE).content.asMaster.inode_allocated_flag written r) ∧
      (oufs_allocate_new_directory cfg d parent).1 = r ∧
      ((d MASTER_BLOCK_REFERENCE).content.asMaster.unallocated_front ≠ MASTER_BLOCK_REFERENCE →
        only_bit_set (d MASTER_BLOCK_REFERENCE).content.asMaster.inode_allocated_flag
          ((oufs_allocate_new_directory cfg d parent).2
            MASTER_BLOCK_REFERENCE).content.asMaster.inode_allocated_flag r) ∧
      ((oufs_read_inode_by_reference cfg d parent).size ≠ cfg.N_DIRECTORY_ENTRIES_PER_BLOCK →
        (oufs_create_file cfg d parent local_name).1 = r ∧
        ((oufs_read_inode_by_reference cfg d parent).content ≠ MASTER_BLOCK_REFERENCE →
          only_bit_set (d MASTER_BLOCK_REFERENCE).content.asMaster.inode_allocated_flag
            ((oufs_create_file cfg d parent local_name).2
              MASTER_BLOCK_REFERENCE).content.asMaster.inode_allocated_flag r)) := by
  obtain ⟨r, hscan, hr, hclear, hleast, hset, hother, hbytes⟩ :=
    scan_inode_flags_first_fit
      (d MASTER_BLOCK_REFERENCE).content.asMaster.inode_allocated_flag (cfg.N_INODES / 8) hfree
  obtain ⟨j, bit, _, hj, hbit, hnone, hfind, hrj, _⟩ :=
    scan_inode_flags_byte _ _ 0 r _ hscan
  have honly : only_bit_set (d MASTER_BLOCK_REFERENCE).content.asMaster.inode_allocated_flag
      (setAt (d MASTER_BLOCK_REFERENCE).content.asMaster.inode_allocated_flag (r / 8)
        ((d MASTER_BLOCK_REFERENCE).content.asMaster.inode_allocated_flag (r / 8)
          + 2 ^ (7 - r % 8))) r := ⟨hset, hother, hbytes⟩
  have hdir := allocate_new_directory_scan cfg d parent r _ hscan
  refine ⟨r, j, bit, by omega, hbit, fun k hk => hnone k (Nat.zero_le _) hk, hfind, hrj, hr,
    hclear, hleast, ⟨_, hscan, honly⟩, hdir.1, ?_, ?_⟩
  · intro hf
    rw [hdir.2 hf]
    exact honly
  · intro hroom
    have hfile := create_file_scan cfg d parent local_name r _ hroom hscan
    refine ⟨hfile.1, fun hpc => ?_⟩
    rw [hfile.2 hpc]
    exact honly

/-- C22 (witness): on `fourDirDisk` the inodes 0 to 4 are allocated; the scan
stops at byte 0 with bit 2, and both functions, called for the root, return
inode 5 and leave a bitmap in which only the bit of inode 5 is new. -/
theorem oufs_inode_allocation_first_fit_witness :
    (∃ q, q < stdConfig.N_INODES / 8 * 8 ∧
      inode_bit (fourDirDisk MASTER_BLOCK_REFERENCE).content.asMaster.inode_allocated_flag q
        = false) ∧
    (oufs_allocate_new_directory stdConfig fourDirDisk 0).1 = 5 ∧
    (oufs_create_file stdConfig fourDirDisk 0 ['f']).1 = 5 ∧
    ∃ r byteIndex bitOffset,
      oufs_find_open_bit
        ((fourDirDisk MASTER_BLOCK_REFERENCE).content.asMaster.inode_allocated_flag byteIndex)
        = some bitOffset ∧
      r = byteIndex * 8 + (7 - bitOffset) ∧
      inode_bit (fourDirDisk MASTER_BLOCK_REFERENCE).content.asMaster.inode_allocated_flag r
        = false ∧
      (∀ q, q < r →
        inode_bit (fourDirDisk MASTER_BLOCK_REFERENCE).content.asMaster.inode_allocated_flag q
          = true) ∧
      (oufs_allocate_new_directory stdConfig fourDirDisk 0).1 = r ∧
      only_bit_set (fourDirDisk MASTER_BLOCK_REFERENCE).content.asMaster.inode_allocated_flag
        ((oufs_allocate_new_directory stdConfig fourDirDisk 0).2
          MASTER_BLOCK_REFERENCE).content.asMaster.inode_allocated_flag r ∧
      (oufs_create_file stdConfig fourDirDisk 0 ['f']).1 = r ∧
      only_bit_set (fourDirDisk MASTER_BLOCK_REFERENCE).content.asMaster.inode_allocated_flag
        ((oufs_create_file stdConfig fourDirDisk 0 ['f']).2
          MASTER_BLOCK_REFERENCE).content.asMaster.inode_allocated_flag r := by
  obtain ⟨r, j, b, _, _, _, h4, h5, _, h7, h8, _, h10, h11, h12⟩ :=
    oufs_inode_allocation_first_fit stdConfig fourDirDisk 0 ['f']
      ⟨5, by decide, by set_option maxRecDepth 100000 in decide⟩
  exact ⟨⟨5, by decide, by set_option maxRecDepth 100000 in decide⟩,
    by set_option maxRecDepth 100000 in decide,
    by set_option maxRecDepth 100000 in decide,
    r, j, b, h4, h5, h7, h8, h10,
    h11 (by set_option maxRecDepth 100000 in decide),
    (h12 (by set_option maxRecDepth 100000 in decide)).1,
    (h12 (by set_option maxRecDepth 100000 in decide)).2
      (by set_option maxRecDepth 100000 in decide)⟩

/-! ## Invariants over the disks reachable from a formatted one -/

/-- On a freshly formatted disk the bitmap agrees with the inode table and every
directory has the size of its block. -/
theorem formattedDisk_consistent :
    bitmap_consistent stdConfig formattedDisk ∧
    directory_sizes_consistent stdConfig formattedDisk := by
  set_option maxRecDepth 1000000 in decide!

/-- C31 (the code at the failing input).  Starting from the formatted disk, the
two files `/f` and `/g` use up the free list; the file `/h` is created and one
byte written to it, the directory `/x` is made and removed again, and the
directory `/h/./y` is made.  Every call reports success, and the bitmap agrees
with the inode table up to the last call.  The file `/h` and the directory `/x`
both get the block `UNALLOCATED_BLOCK` as their content, so that after the removal
of `/x` the path `/h/.` still leads to inode 4; the last call finds this free
inode as the parent, allocates the same inode for the new directory and writes
the parent's unused record over it: bit 4 is set and inode 4 is unused. -/
theorem oufs_bitmap_broken_after_exhaustion :
    bitmap_consistent stdConfig formattedDisk ∧
    (create_and_write stdConfig formattedDisk ['/', 'f'] 1 25400).1 = 25400 ∧
    (create_and_write stdConfig
      (create_and_write stdConfig formattedDisk ['/', 'f'] 1 25400).2 ['/', 'g'] 2 5588).1
      = 5588 ∧
    (exhaustedDisk 0).content.asMaster.unallocated_front = stdConfig.UNALLOCATED_BLOCK ∧
    bitmap_consistent stdConfig exhaustedDisk ∧
    (create_and_write stdConfig exhaustedDisk ['/', 'h'] 3 1).1 = 1 ∧
    oufs_read_inode_by_reference stdConfig lateFileDisk 3
      = ⟨FILE_TYPE, 1, stdConfig.UNALLOCATED_BLOCK, 1⟩ ∧
    bitmap_consistent stdConfig lateFileDisk ∧
    (oufs_mkdir stdConfig lateFileDisk ['/'] ['/', 'x'] []).1 = 0 ∧
    oufs_read_inode_by_reference stdConfig lateDirDisk 4
      = ⟨DIRECTORY_TYPE, 1, stdConfig.UNALLOCATED_BLOCK, 2⟩ ∧
    bitmap_consistent stdConfig lateDirDisk ∧
    (oufs_rmdir stdConfig lateDirDisk ['/'] ['/', 'x']).1 = 0 ∧
    (oufs_read_inode_by_reference stdConfig lateRemovedDisk 4).type = UNUSED_TYPE ∧
    directory_of stdConfig lateRemovedDisk 3 0 = ⟨['.'], 4⟩ ∧
    bitmap_consistent stdConfig lateRemovedDisk ∧
    (oufs_find_file stdConfig lateRemovedDisk ['/'] ['/', 'h', '/', '.', '/', 'y']).parent = 4 ∧
    (oufs_mkdir stdConfig lateRemovedDisk ['/'] ['/', 'h', '/', '.', '/', 'y'] []).1 = 0 ∧
    4 < stdConfig.N_INODES ∧
    inode_bit (staleParentDisk 0).content.asMaster.inode_allocated_flag 4 = true ∧
    (oufs_read_inode_by_reference stdConfig staleParentDisk 4).type = UNUSED_TYPE ∧
    ¬ bitmap_consistent stdConfig staleParentDisk := by
  set_option maxRecDepth 1000000 in decide!

/-- C32 (the code at the failing input).  Starting from the formatted disk, the
directories `/a`, `/b`, `/c` and `/d` are made, which keeps every directory at the
size of its block.  The call `oufs_mkdir("/", "/e")` then reports success and
leaves the root, a directory, with size 7 and six allocated entries.  When the
file `/f` is created first, so that the root has seven entries and size 7, the
same call leaves it with size 8, more than a block has entries. -/
theorem oufs_mkdir_breaks_directory_sizes :
    directory_sizes_consistent stdConfig formattedDisk ∧
    directory_sizes_consistent stdConfig fourMadeDisk ∧
    (oufs_mkdir stdConfig fourMadeDisk ['/'] ['/', 'e'] []).1 = 0 ∧
    0 < stdConfig.N_INODES ∧
    (oufs_read_inode_by_reference stdConfig fiveMadeDisk 0).type = DIRECTORY_TYPE ∧
    (oufs_read_inode_by_reference stdConfig fiveMadeDisk 0).size = 7 ∧
    entry_count stdConfig fiveMadeDisk 0 = 6 ∧
    ¬ directory_sizes_consistent stdConfig fiveMadeDisk ∧
    (oufs_fopen stdConfig fourMadeDisk ['/'] ['/', 'f'] ['w'] junkFile [] 'a').1.isSome = true ∧
    directory_sizes_consistent stdConfig crowdedDisk ∧
    (oufs_mkdir stdConfig crowdedDisk ['/'] ['/', 'e'] []).1 = 0 ∧
    (oufs_read_inode_by_reference stdConfig overfullDisk 0).type = DIRECTORY_TYPE ∧
    (oufs_read_inode_by_reference stdConfig overfullDisk 0).size = 8 ∧
    entry_count stdConfig overfullDisk 0 = 7 ∧
    stdConfig.N_DIRECTORY_ENTRIES_PER_BLOCK = 7 ∧
    ¬ directory_sizes_consistent stdConfig overfullDisk := by
  set_option maxRecDepth 1000000 in decide!

end OUFS
